import Mathlib

/-! # SatDump smart warp: a shallow embedding of `smart_warp.cpp`

The development follows `src/src-core/common/projection/warp/smart_warp.cpp`.

Conventions of the embedding

* `double` / `float` values are idealised as rationals (`ℚ`): every
  arithmetic operation is exact.
* `int` is `Int`.  Conversions `double -> int` truncate toward zero
  (`truncInt`); signed overflow is not modelled.
* `size_t` is a natural number reduced modulo `2 ^ 64` wherever the source
  computes in `size_t` (`size() - 1`, the memory footprint).
* A result `none` of a function that indexes a `std::vector` means that the
  source reads outside the storage of the vector.
* External collaborators (`vincentys_inverse`, `computeGCPCenter`'s
  trigonometry, `choseCropArea`) are parameters.
-/

namespace SatDump

/-! ## Machine arithmetic -/

/-- Conversion `double -> int`: truncation toward zero. -/
def truncInt (q : ℚ) : Int := if 0 ≤ q then ⌊q⌋ else ⌈q⌉

/-- Number of values of `size_t`. -/
def SIZE_MOD : Nat := 2 ^ 64

/-- Conversion `int -> size_t`. -/
def toSizeT (i : Int) : Nat := (i % (SIZE_MOD : Int)).toNat

/-- The `size_t` expression `n - 1` (wraps around at `n = 0`). -/
def sizeMinusOne (n : Nat) : Nat := (n + (SIZE_MOD - 1)) % SIZE_MOD

/-- Value of `std::numeric_limits<int>::max()`. -/
def INT_MAX : Int := 2147483647

/-! ## Data model -/

/-- Modelled from the spec: the ground control point type (declared in a
header outside `src/`): pixel coordinates `x`, `y` and geodetic `lon`,
`lat`, all `double`. -/
structure GCP where
  x : ℚ
  y : ℚ
  lon : ℚ
  lat : ℚ
deriving DecidableEq

/-- Modelled from the spec: the part of `WarpOperation` (declared in
`warp.h`, outside `src/`) that `smart_warp.cpp` uses: the dimensions of
`input_image`, the GCP list, the requested output size and the RGBA flag. -/
structure WarpOperation where
  input_width : Nat
  input_height : Nat
  input_channels : Int
  ground_control_points : List GCP
  output_width : Int
  output_height : Int
  output_rgba : Bool
deriving DecidableEq

/-- Modelled from the spec: `WarpCropSettings` (declared in `warp.h`, outside
`src/`): a pixel bounding box and its geographic extent. -/
structure WarpCropSettings where
  lat_min : ℚ
  lat_max : ℚ
  lon_min : ℚ
  lon_max : ℚ
  y_min : Int
  y_max : Int
  x_min : Int
  x_max : Int
deriving DecidableEq

/-! ## `ensureMemoryLimit` (lines 11-24) -/

/-- Line 14: `(size_t)abs(x_min - x_max) * (size_t)abs(y_min - y_max) *
(size_t)nchannels * sizeof(uint16_t)`, a product in `size_t`. -/
def memory_usage (crop_set : WarpCropSettings) (nchannels : Int) : Nat :=
  (toSizeT |crop_set.x_min - crop_set.x_max| * toSizeT |crop_set.y_min - crop_set.y_max|
    * toSizeT nchannels * 2) % SIZE_MOD

/-- The footprint over the mathematical integers, as the specification
writes it: `|x_max - x_min| * |y_max - y_min| * channel_count * 2`. -/
def footprint (crop_set : WarpCropSettings) (nchannels : Int) : Int :=
  |crop_set.x_max - crop_set.x_min| * |crop_set.y_max - crop_set.y_min| * nchannels * 2

/-- Lines 18-19: `v *= 0.9` on an `int`: the product is formed in `double`
and converted back to `int`. -/
def scale09 (v : Int) : Int := truncInt ((v : ℚ) * (9 / 10))

/-- Lines 18-20: one retry: shrink the requested output size and derive the
crop settings again. -/
def ensureMemoryLimit_retry (choseCropArea : WarpOperation → WarpCropSettings)
    (st : WarpCropSettings × WarpOperation) : WarpCropSettings × WarpOperation :=
  let operation_t := { st.2 with
    output_height := scale09 st.2.output_height
    output_width := scale09 st.2.output_width }
  (choseCropArea operation_t, operation_t)

/-- Lines 11-24.  The `goto recheck_memory` loop, with `fuel` bounding the
number of times the check at line 16 is evaluated; `none` means that the
loop is still running when the fuel is used up. -/
def ensureMemoryLimit (choseCropArea : WarpOperation → WarpCropSettings) :
    Nat → WarpCropSettings → WarpOperation → Int → Nat →
    Option (WarpCropSettings × WarpOperation)
  | 0, _, _, _, _ => none
  | fuel + 1, crop_set, operation_t, nchannels, mem_limit =>
    if memory_usage crop_set nchannels > mem_limit then
      let st := ensureMemoryLimit_retry choseCropArea (crop_set, operation_t)
      ensureMemoryLimit choseCropArea fuel st.1 st.2 nchannels mem_limit
    else
      some (crop_set, operation_t)

/-! ## `std::vector` -/

/-- A `std::vector<T>`: its allocated storage `buf` (the capacity is the
length of `buf`) and its logical size.  The storage outlives `clear`, which
only resets the size. -/
structure Vec (α : Type) where
  buf : List α
  size : Nat
deriving DecidableEq

/-- A vector that was never allocated. -/
def Vec.empty {α : Type} : Vec α := ⟨[], 0⟩

/-- A vector holding a copy of the elements of `l`. -/
def Vec.ofList {α : Type} (l : List α) : Vec α := ⟨l, l.length⟩

/-- The elements of the vector, `begin()` to `end()`. -/
def Vec.toList {α : Type} (v : Vec α) : List α := v.buf.take v.size

/-- What `clear()` does: the size becomes zero, the storage stays. -/
def Vec.clear {α : Type} (v : Vec α) : Vec α := ⟨v.buf, 0⟩

/-- What `operator[]` does: no check against `size()`.  An index inside the
storage reads what the storage holds there, also at or beyond `size()`; an
index outside the storage is an out-of-bounds read, `none`. -/
def Vec.get {α : Type} (v : Vec α) (i : Nat) : Option α := v.buf[i]?

/-- What `push_back` does: write at index `size()`, inside the storage when
the capacity allows it, in fresh storage of the new size otherwise. -/
def Vec.push_back {α : Type} (v : Vec α) (a : α) : Vec α :=
  if v.size < v.buf.length then ⟨v.buf.set v.size a, v.size + 1⟩
  else ⟨v.buf.take v.size ++ [a], v.size + 1⟩

/-! ## `calculateSegmentNumberToSplitInto` (lines 26-69) -/

/-- Lines 31-35 and 206-210: `std::sort` with the comparator
`el1.y * width + el1.x < el2.y * width + el2.x`.  The order of elements with
equal keys, which `std::sort` leaves open, is the stable one here. -/
def sortGCPs (width : Nat) (gcps : List GCP) : List GCP :=
  gcps.insertionSort (fun el1 el2 => el1.y * width + el1.x ≤ el2.y * width + el2.x)

/-- Lines 39-45 and 214-220: the body of the filter loop, run for
`y, y + 1, ...` as long as iterations are left.  Both reads index `gcps_curr`,
the vector that line 38 cleared and that `push_back` fills again. -/
def filterLoop : Nat → Nat → Vec GCP → Option (Vec GCP)
  | 0, _, gcps_curr => some gcps_curr
  | n + 1, y, gcps_curr => do
    let gcp1 ← gcps_curr.get y
    let gcp2 ← gcps_curr.get (y + 1)
    filterLoop n (y + 1) (if gcp1.y ≠ gcp2.y then gcps_curr.push_back gcp2 else gcps_curr)

/-- Lines 36-46 and 211-221: "Filter GCPs, only keep each first y in x".
The loop bound is `gcps_curr_bkp.size() - 1`, computed in `size_t`. -/
def filterGCPs (gcps_curr : Vec GCP) : Option (Vec GCP) :=
  let gcps_curr_bkp := gcps_curr.toList
  filterLoop (sizeMinusOne gcps_curr_bkp.length) 0 gcps_curr.clear

/-- What the filter at lines 36-46 leaves of a sequence, written as a
function: the second element of every consecutive pair with differing `y`. -/
def keptAfterFirst : List GCP → List GCP
  | gcp1 :: gcp2 :: rest =>
    if gcp1.y ≠ gcp2.y then gcp2 :: keptAfterFirst (gcp2 :: rest)
    else keptAfterFirst (gcp2 :: rest)
  | _ => []

/-- Lines 49-56: the loop that collects the distance between
`gcps_curr[y]` and `gcps_curr[y + 1]`. -/
def distanceLoop (vincentys_inverse : ℚ → ℚ → ℚ → ℚ → ℚ) :
    Nat → Nat → Vec GCP → Vec ℚ → Option (Vec ℚ)
  | 0, _, _, distances => some distances
  | n + 1, y, gcps_curr, distances => do
    let gcp1 ← gcps_curr.get y
    let gcp2 ← gcps_curr.get (y + 1)
    distanceLoop vincentys_inverse n (y + 1) gcps_curr
      (distances.push_back (vincentys_inverse gcp1.lat gcp1.lon gcp2.lat gcp2.lon))

/-- Lines 26-69.  `vincentys_inverse lat1 lon1 lat2 lon2` is the geodesic
distance in km, an external function. -/
def calculateSegmentNumberToSplitInto (vincentys_inverse : ℚ → ℚ → ℚ → ℚ → ℚ)
    (operation_t : WarpOperation) : Option Int := do
  let gcps_curr := Vec.ofList (sortGCPs operation_t.input_width operation_t.ground_control_points)
  let gcps_curr ← filterGCPs gcps_curr
  let distances ← distanceLoop vincentys_inverse (sizeMinusOne gcps_curr.size) 0 gcps_curr Vec.empty
  let distances := Vec.ofList (distances.toList.insertionSort (fun a b => a ≤ b))
  let media_dist ← distances.get (distances.size / 2)
  let nsegs := truncInt (media_dist * gcps_curr.size / 3000)
  some (if nsegs = 0 then 1 else nsegs)

/-- The distances between consecutive elements of a GCP sequence. -/
def consecutiveDistances (vincentys_inverse : ℚ → ℚ → ℚ → ℚ → ℚ) : List GCP → List ℚ
  | gcp1 :: gcp2 :: rest =>
    vincentys_inverse gcp1.lat gcp1.lon gcp2.lat gcp2.lon ::
      consecutiveDistances vincentys_inverse (gcp2 :: rest)
  | _ => []

/-- The median as line 60 takes it: the element at index `size / 2` of the
distances in ascending order. -/
def medianOf (distances : List ℚ) : Option ℚ :=
  (distances.insertionSort (fun a b => a ≤ b))[distances.length / 2]?

/-! ## Segment construction (lines 71-244) -/

/-- Lines 71-80, without the handle of the fitted transform. -/
structure SegmentConfig where
  y_start : Int
  y_end : Int
  shift_lon : Int
  shift_lat : Int
  gcps : List GCP
deriving DecidableEq

/-- Lines 108-123: one pass of the `find_second_gcp` block on the range
`(y_start, y_end)`: the smallest positive distance from `y_start` down to a
GCP and from `y_end` up to a GCP, over all GCPs of the operation, and the
move of the requested boundaries. -/
def overlapPass (gcps : List GCP) (start_overlap end_overlap : Bool) (se : Int × Int) :
    Int × Int :=
  let mins := gcps.foldl (fun (m : Int × Int) gcp =>
    let diffs := truncInt ((se.1 : ℚ) - gcp.y)
    let diffe := truncInt (gcp.y - (se.2 : ℚ))
    (if diffs > 0 ∧ diffs < m.1 then diffs else m.1,
     if diffe > 0 ∧ diffe < m.2 then diffe else m.2)) (INT_MAX, INT_MAX)
  (if mins.1 ≠ INT_MAX ∧ start_overlap = true then se.1 - (mins.1 + 1) else se.1,
   if mins.2 ≠ INT_MAX ∧ end_overlap = true then se.2 + (mins.2 + 1) else se.2)

/-- Lines 104-132.  The block runs twice (`overlap++ < 1`), then both
boundaries are clamped.  `y_end > height()` compares an `int` with a
`size_t`: `y_end` is converted to `size_t` first, which puts a negative
`y_end` above every height. -/
def updateGCPOverlap (operation_t : WarpOperation) (scfg : SegmentConfig)
    (start_overlap end_overlap : Bool) : SegmentConfig :=
  let se := overlapPass operation_t.ground_control_points start_overlap end_overlap
    (overlapPass operation_t.ground_control_points start_overlap end_overlap
      (scfg.y_start, scfg.y_end))
  { scfg with
    y_start := if se.1 < 0 then 0 else se.1
    y_end := if se.2 < 0 ∨ (operation_t.input_height : Int) < se.2 then
        (operation_t.input_height : Int)
      else se.2 }

/-- Lines 170-185: the pole check, folded over the GCPs of the segment; the
state is `(shift_lon, shift_lat)`. -/
def poleOverride (vincentys_inverse : ℚ → ℚ → ℚ → ℚ → ℚ) (gcps : List GCP)
    (shift : Int × Int) : Int × Int :=
  gcps.foldl (fun (sh : Int × Int) gcp =>
    let south_dis := vincentys_inverse gcp.lat gcp.lon (-90) 0
    let north_dis := vincentys_inverse gcp.lat gcp.lon 90 0
    let sh1 : Int × Int := if south_dis < 1000 then (0, -90) else sh
    if north_dis < 1000 then (0, 90) else sh1) shift

/-- Lines 140-188: the lambda `generateSeg`, returning the `SegmentConfig`
it appends.  `computeGCPCenter` (lines 82-102, trigonometric) is a parameter
returning `(lon, lat)`. -/
def generateSeg (vincentys_inverse : ℚ → ℚ → ℚ → ℚ → ℚ)
    (computeGCPCenter : List GCP → ℚ × ℚ) (operation_t : WarpOperation)
    (start stop : Int) (start_overlap end_overlap : Bool) : SegmentConfig :=
  let scfg := updateGCPOverlap operation_t
    { y_start := start, y_end := stop, shift_lon := 0, shift_lat := 0, gcps := [] }
    start_overlap end_overlap
  let gcps := operation_t.ground_control_points.filterMap (fun gcp =>
    if gcp.y ≥ (scfg.y_start : ℚ) ∧ gcp.y < (scfg.y_end : ℚ) then
      some { gcp with y := gcp.y - (scfg.y_start : ℚ) }
    else none)
  let center := computeGCPCenter gcps
  let shift := poleOverride vincentys_inverse gcps (truncInt (-center.1), 0)
  { scfg with gcps := gcps, shift_lon := shift.1, shift_lat := shift.2 }

/-- The arguments of one call of `generateSeg`: a candidate range before
overlap expansion and the two overlap flags. -/
structure Candidate where
  start : Int
  stop : Int
  start_overlap : Bool
  end_overlap : Bool
deriving DecidableEq

/-- Lines 224-229: the cut search over consecutive elements of `gcps_curr`;
the state is `cutPosition`. -/
def cutLoop (vincentys_inverse : ℚ → ℚ → ℚ → ℚ → ℚ) :
    Nat → Nat → Vec GCP → Int → Option Int
  | 0, _, _, cutPosition => some cutPosition
  | n + 1, y, gcps_curr, cutPosition => do
    let gcp1 ← gcps_curr.get y
    let gcp2 ← gcps_curr.get (y + 1)
    cutLoop vincentys_inverse n (y + 1) gcps_curr
      (if vincentys_inverse gcp1.lat gcp1.lon gcp2.lat gcp2.lon > 2000 then truncInt gcp2.y
       else cutPosition)

/-- Lines 190-240: the body of the segment loop for slice `segment`, up to
the calls of `generateSeg`, whose arguments it returns in call order. -/
def sliceCandidates (vincentys_inverse : ℚ → ℚ → ℚ → ℚ → ℚ) (nsegs : ℚ)
    (operation_t : WarpOperation) (segment : Nat) : Option (List Candidate) := do
  let y_start := truncInt ((segment : ℚ) / nsegs * operation_t.input_height)
  let y_end := truncInt (((segment + 1 : Nat) : ℚ) / nsegs * operation_t.input_height)
  let gcps_curr := Vec.ofList (operation_t.ground_control_points.filter
    (fun gcp => gcp.y ≥ (y_start : ℚ) ∧ gcp.y < (y_end : ℚ)))
  let gcps_curr := Vec.ofList (sortGCPs operation_t.input_width gcps_curr.toList)
  let gcps_curr ← filterGCPs gcps_curr
  let cutPosition ← cutLoop vincentys_inverse (sizeMinusOne gcps_curr.size) 0 gcps_curr (-1)
  if cutPosition ≠ -1 then
    some [⟨y_start, cutPosition, true, false⟩, ⟨cutPosition, y_end, false, true⟩]
  else
    some [⟨y_start, y_end, true, true⟩]

/-- Line 138: the segment loop, run for `segment, segment + 1, ...` as long
as iterations are left, collecting the `generateSeg` calls. -/
def segmentLoop (body : Nat → Option (List Candidate)) : Nat → Nat → Option (List Candidate)
  | 0, _ => some []
  | n + 1, segment => do
    let first ← body segment
    let rest ← segmentLoop body n (segment + 1)
    some (first ++ rest)

/-- All calls of `generateSeg` that `prepareSegmentsAndSplitCuts` makes, in
order.  `segment < nsegs` holds for `segment = 0, ..., ceil(nsegs) - 1`. -/
def candidateRanges (vincentys_inverse : ℚ → ℚ → ℚ → ℚ → ℚ) (nsegs : ℚ)
    (operation_t : WarpOperation) : Option (List Candidate) :=
  segmentLoop (sliceCandidates vincentys_inverse nsegs operation_t) (Int.toNat ⌈nsegs⌉) 0

/-- Lines 134-244. -/
def prepareSegmentsAndSplitCuts (vincentys_inverse : ℚ → ℚ → ℚ → ℚ → ℚ)
    (computeGCPCenter : List GCP → ℚ × ℚ) (nsegs : ℚ) (operation_t : WarpOperation) :
    Option (List SegmentConfig) :=
  (candidateRanges vincentys_inverse nsegs operation_t).map (fun cands =>
    cands.map (fun c => generateSeg vincentys_inverse computeGCPCenter operation_t
      c.start c.stop c.start_overlap c.end_overlap))

/-- Ranges `[start, stop)` that follow each other from `a` to `b`: each
begins where the one before ended and none has its end before its start. -/
def Tiles : Int → List (Int × Int) → Int → Prop
  | a, [], b => a = b
  | a, r :: rs, b => r.1 = a ∧ r.1 ≤ r.2 ∧ Tiles r.2 rs b

/-! ## Compositing (lines 326-346) -/

/-- Modelled from the spec: the raster `image::Image<uint16_t>` (declared
outside `src/`): width, height, channel count and the samples, channel after
channel, row after row. -/
structure Image where
  width : Nat
  height : Nat
  channels : Nat
  data : List Nat
deriving DecidableEq

/-- A read `img.channel(ch)[i]`; `none` outside the sample buffer. -/
def Image.get (img : Image) (ch i : Nat) : Option Nat :=
  img.data[ch * (img.width * img.height) + i]?

/-- A write `img.channel(ch)[i] = v`; `none` outside the sample buffer. -/
def Image.set (img : Image) (ch i v : Nat) : Option Image :=
  if ch * (img.width * img.height) + i < img.data.length then
    some { img with data := img.data.set (ch * (img.width * img.height) + i) v }
  else none

/-- Lines 339-345: the body of the two pixel loops. -/
def compositePixel (result2 : Image) (x2 y2 : Int) (x y : Nat) (result : Image) :
    Option Image :=
  if (y : Int) + y2 ≥ 0 ∧ (x : Int) + x2 ≥ 0 then do
    let alpha ← result2.get 3 (y * result2.width + x)
    if alpha > 0 then do
      let idx := (((y : Int) + y2) * result.width + x + x2).toNat
      let result ← [0, 1, 2].foldlM (fun (r : Image) ch => do
        let v ← result2.get ch (y * result2.width + x)
        r.set ch idx v) result
      result.set 3 idx 65535
    else some result
  else some result

/-- Lines 330-346: folding the raster `result2` of one segment into the
final raster `result` at the projected offset `(x2, y2)`. -/
def compositeSegment (result result2 : Image) (x2 y2 : Int) : Option Image :=
  if ¬ (x2 = -1 ∨ y2 = -1) then
    let width := min (result.width : Int) (x2 + result2.width) - x2
    let height := min (result.height : Int) (y2 + result2.height) - y2
    if result2.channels = result.channels then
      (List.range width.toNat).foldlM (fun (r : Image) x =>
        (List.range height.toNat).foldlM (fun (r : Image) y =>
          compositePixel result2 x2 y2 x y r) r) result
    else some result
  else some result

/-! ## Slices and the cut search, written as functions -/

/-- Line 191: the first scanline of slice `segment`. -/
def sliceStart (nsegs : ℚ) (operation_t : WarpOperation) (segment : Nat) : Int :=
  truncInt ((segment : ℚ) / nsegs * operation_t.input_height)

/-- Line 192: the scanline after the last one of slice `segment`. -/
def sliceEnd (nsegs : ℚ) (operation_t : WarpOperation) (segment : Nat) : Int :=
  truncInt (((segment + 1 : Nat) : ℚ) / nsegs * operation_t.input_height)

/-- Lines 195-203: the GCPs of slice `segment`, in the order of the
operation's list. -/
def sliceGCPs (nsegs : ℚ) (operation_t : WarpOperation) (segment : Nat) : List GCP :=
  operation_t.ground_control_points.filter (fun gcp =>
    gcp.y ≥ (sliceStart nsegs operation_t segment : ℚ) ∧
    gcp.y < (sliceEnd nsegs operation_t segment : ℚ))

/-- What the cut search at lines 224-229 computes on a sequence of GCPs,
starting from `cutPosition`: every consecutive pair farther apart than
2000 km overwrites the position with the `y` of its second GCP. -/
def cutOf (vincentys_inverse : ℚ → ℚ → ℚ → ℚ → ℚ) : List GCP → Int → Int
  | gcp1 :: gcp2 :: rest, cutPosition =>
    cutOf vincentys_inverse (gcp2 :: rest)
      (if vincentys_inverse gcp1.lat gcp1.lon gcp2.lat gcp2.lon > 2000 then truncInt gcp2.y
       else cutPosition)
  | _, cutPosition => cutPosition

/-! ## The two searches of `updateGCPOverlap`, written on their own -/

/-- Lines 108-114: the value of `min_gcp_diff_start` after the loop over the
GCPs, for a segment starting at `y_start`. -/
def minDiffStart (gcps : List GCP) (y_start : Int) : Int :=
  gcps.foldl (fun (m : Int) gcp =>
    if truncInt ((y_start : ℚ) - gcp.y) > 0 ∧ truncInt ((y_start : ℚ) - gcp.y) < m then
      truncInt ((y_start : ℚ) - gcp.y)
    else m) INT_MAX

/-- Lines 109-117: the value of `min_gcp_diff_end` after the loop over the
GCPs, for a segment ending at `y_end`. -/
def minDiffEnd (gcps : List GCP) (y_end : Int) : Int :=
  gcps.foldl (fun (m : Int) gcp =>
    if truncInt (gcp.y - (y_end : ℚ)) > 0 ∧ truncInt (gcp.y - (y_end : ℚ)) < m then
      truncInt (gcp.y - (y_end : ℚ))
    else m) INT_MAX

/-! ## The pixels of the compositing loops -/

/-- Lines 333-338: the pairs `(x, y)` that the two loops run through, in
order, for loop bounds `width` and `height`. -/
def visitedPixels (width height : Nat) : List (Nat × Nat) :=
  (List.range width).flatMap (fun x => (List.range height).map (fun y => (x, y)))

/-- Lines 333-339: pixel `(x, y)` of the segment raster `result2`, placed at
`(x2, y2)`, is inside both loop bounds and passes the test
`y + y2 >= 0 && x + x2 >= 0`. -/
def inOverlap (result result2 : Image) (x2 y2 : Int) (x y : Nat) : Prop :=
  (x : Int) < min (result.width : Int) (x2 + result2.width) - x2 ∧
  (y : Int) < min (result.height : Int) (y2 + result2.height) - y2 ∧
  (y : Int) + y2 ≥ 0 ∧ (x : Int) + x2 ≥ 0

/-- Lines 343-344: the index `(y + y2) * width + x + x2` into a channel of
the final raster. -/
def destIndex (result : Image) (x2 y2 : Int) (x y : Nat) : Nat :=
  (((y : Int) + y2) * result.width + x + x2).toNat

/-- Lines 340 and 343: the index `y * width + x` into a channel of the
segment raster. -/
def srcIndex (result2 : Image) (x y : Nat) : Nat := y * result2.width + x

/-- Lines 342-344 on the sample buffer of the final raster: the three colour
samples `v0`, `v1`, `v2` and the alpha 65535 written at pixel index `idx` of
the channels 0 to 3, each channel holding `wh` samples. -/
def writeSamples (data : List Nat) (wh idx v0 v1 v2 : Nat) : List Nat :=
  (((data.set (0 * wh + idx) v0).set (1 * wh + idx) v1).set (2 * wh + idx) v2).set
    (3 * wh + idx) 65535

/-! ## `performSmartWarp` (lines 246-357) -/

/-- Modelled from the spec: a corner of a `WarpResult` (declared in `warp.h`,
outside `src/`): `(pixel_x, pixel_y, lon, lat)`. -/
structure Corner where
  x : ℚ
  y : ℚ
  lon : ℚ
  lat : ℚ
deriving DecidableEq

/-- Modelled from the spec: `WarpResult` (declared in `warp.h`, outside
`src/`): the raster and its four corners. -/
structure WarpResult where
  output_image : Image
  top_left : Corner
  top_right : Corner
  bottom_left : Corner
  bottom_right : Corner
deriving DecidableEq

/-- Lines 257-258: the constructor `image::Image<uint16_t>(width, height,
channels)` called with `int` arguments: a raster of zero samples.  A negative
argument becomes a huge `size_t`, the allocation fails and nothing is
returned: `none`. -/
def newImage (width height channels : Int) : Option Image :=
  if width < 0 ∨ height < 0 ∨ channels < 0 then none
  else some { width := width.toNat, height := height.toNat, channels := channels.toNat,
              data := List.replicate (width.toNat * height.toNat * channels.toNat) 0 }

/-- Lines 283-346: the body of the loop over the segments.  `warp` stands
for the fit of the transform and `ImageWarper::warp` (lines 277-296) on the
operation scoped to the segment; `forward lon lat` stands for
`projector_final.forward` (line 329), set up once at line 266. -/
def compositeStep (warp : WarpOperation → SegmentConfig → WarpResult)
    (forward : ℚ → ℚ → Int × Int) (operation_t : WarpOperation)
    (result : WarpResult) (segmentCfg : SegmentConfig) : Option WarpResult := do
  let result2 := warp operation_t segmentCfg
  let xy := forward result2.top_left.lon result2.top_left.lat
  let output_image ← compositeSegment result.output_image result2.output_image xy.1 xy.2
  some { result with output_image := output_image }

/-- Lines 246-357.  `fuel` bounds the iterations of `ensureMemoryLimit`, which
is called with the budget `4e9`; `projector width height tl_lon tl_lat br_lon
br_lat` is the equirectangular projection initialised at line 266, an external
function, like `choseCropArea`, `vincentys_inverse`, `computeGCPCenter` and
`warp`. -/
def performSmartWarp (choseCropArea : WarpOperation → WarpCropSettings)
    (vincentys_inverse : ℚ → ℚ → ℚ → ℚ → ℚ) (computeGCPCenter : List GCP → ℚ × ℚ)
    (warp : WarpOperation → SegmentConfig → WarpResult)
    (projector : Nat → Nat → ℚ → ℚ → ℚ → ℚ → ℚ → ℚ → Int × Int)
    (fuel : Nat) (operation_t : WarpOperation) : Option WarpResult := do
  let crop_set := choseCropArea operation_t
  let nchannels : Int := if operation_t.output_rgba = true then 4 else operation_t.input_channels
  let limited ← ensureMemoryLimit choseCropArea fuel crop_set operation_t nchannels 4000000000
  let crop_set := limited.1
  let operation_t := limited.2
  let output_image ← newImage (crop_set.x_max - crop_set.x_min) (crop_set.y_max - crop_set.y_min)
    nchannels
  let result : WarpResult :=
    { output_image := output_image
      top_left := ⟨0, 0, crop_set.lon_min, crop_set.lat_max⟩
      top_right := ⟨(output_image.width : ℚ) - 1, 0, crop_set.lon_max, crop_set.lat_max⟩
      bottom_left := ⟨0, (output_image.height : ℚ) - 1, crop_set.lon_min, crop_set.lat_min⟩
      bottom_right := ⟨(output_image.width : ℚ) - 1, (output_image.height : ℚ) - 1,
        crop_set.lon_max, crop_set.lat_min⟩ }
  let nsegs ← calculateSegmentNumberToSplitInto vincentys_inverse operation_t
  let segmentConfigs ← prepareSegmentsAndSplitCuts vincentys_inverse computeGCPCenter nsegs
    operation_t
  segmentConfigs.foldlM
    (compositeStep warp
      (projector output_image.width output_image.height result.top_left.lon result.top_left.lat
        result.bottom_right.lon result.bottom_right.lat)
      operation_t)
    result

/-- The search of lines 106-118 on whole scanlines: for GCPs at the integer
positions `pos gcp`, the smallest distance `x - pos gcp` that is positive and
below `INT_MAX`, or `INT_MAX` when there is none.  With `pos gcp = gcp.y` and
`x = y_start` this is `min_gcp_diff_start`; with `pos gcp = -gcp.y` and
`x = -y_end` it is `min_gcp_diff_end`. -/
def nearestBelow (pos : GCP → Int) (gcps : List GCP) (x : Int) : Int :=
  gcps.foldl (fun (m : Int) gcp =>
    if x - pos gcp > 0 ∧ x - pos gcp < m then x - pos gcp else m) INT_MAX

/-- The alpha channel marks the written pixels: at every pixel the alpha
sample is 0 or 65535, and where it is 0 the samples of the channels 0, 1 and
2 are 0. -/
def alphaMarks (r : Image) : Prop :=
  ∀ i, i < r.width * r.height →
    (r.get 3 i = some 0 ∨ r.get 3 i = some 65535) ∧
    (r.get 3 i = some 0 → ∀ ch, ch < 3 → r.get ch i = some 0)

/-- Lines 283-346 for given segment rasters: the rasters `s.1`, placed at
`(s.2.1, s.2.2)`, are folded into `result` one after the other. -/
def compositeAll (result : Image) (segs : List (Image × Int × Int)) : Option Image :=
  segs.foldlM (fun r s => compositeSegment r s.1 s.2.1 s.2.2) result

/-! ## `ImageCompositeCfg` and its JSON form (`image_products.h`, lines 180-222) -/

/-- Lines 181-191. -/
structure ImageCompositeCfg where
  equation : String
  equalize : Bool
  invert : Bool
  normalize : Bool
  white_balance : Bool
  lut : String
  lut_channels : String
deriving DecidableEq

/-- A default-constructed `ImageCompositeCfg`: the member initialisers of
lines 183-190, and the empty string for `equation`. -/
def ImageCompositeCfg.defaults : ImageCompositeCfg :=
  { equation := "", equalize := false, invert := false, normalize := false,
    white_balance := false, lut := "", lut_channels := "" }

/-- Modelled from the spec: a value stored under a key of a `nlohmann::json`
object (a library type, declared outside `src/`): a boolean, a string, or
anything else (null, a number, an array, an object). -/
inductive JsonValue where
  | boolean (b : Bool)
  | string (s : String)
  | other
deriving DecidableEq

/-- The conversion `get<std::string>()`, which throws on a value that is
not a string: `none`. -/
def JsonValue.getString : JsonValue → Option String
  | .string s => some s
  | _ => none

/-- The conversion `get<bool>()`, which throws on a value that is not a
boolean: `none`. -/
def JsonValue.getBool : JsonValue → Option Bool
  | .boolean b => some b
  | _ => none

/-- Modelled from the spec: the type `nlohmann::json` (a library type,
declared outside `src/`) as lines 193-222 use it: a null value or an object,
given by the value stored under each key, if any. -/
abbrev Json := String → Option JsonValue

/-- The null value, with which the library calls `to_json`; it holds no
key. -/
def Json.null : Json := fun _ => none

/-- The member function `j.contains(key)`. -/
def Json.contains (j : Json) (key : String) : Bool := (j key).isSome

/-- A read `j[key]` of a constant value; reading a key that is absent is
an error: `none`. -/
def Json.get (j : Json) (key : String) : Option JsonValue := j key

/-- An assignment `j[key] = value`: the key is added, or its value replaced. -/
def Json.set (j : Json) (key : String) (value : JsonValue) : Json :=
  fun k => if k = key then some value else j k

/-- Lines 193-203. -/
def to_json (j : Json) (v : ImageCompositeCfg) : Json :=
  let j := j.set "equation" (.string v.equation)
  let j := j.set "equalize" (.boolean v.equalize)
  let j := j.set "invert" (.boolean v.invert)
  let j := j.set "normalize" (.boolean v.normalize)
  let j := j.set "white_balance" (.boolean v.white_balance)
  let j := j.set "lut" (.string v.lut)
  j.set "lut_channels" (.string v.lut_channels)

/-- Lines 205-222.  `v` is the configuration the caller passes in, which the
function updates; a failed conversion or a read of an absent key gives
`none`. -/
def from_json (j : Json) (v : ImageCompositeCfg) : Option ImageCompositeCfg := do
  let v ← if j.contains "equation" then do
      let equation ← (← j.get "equation").getString
      pure { v with equation := equation }
    else if j.contains "lut" then do
      let lut ← (← j.get "lut").getString
      let lut_channels ← (← j.get "lut_channels").getString
      pure { v with lut := lut, lut_channels := lut_channels }
    else pure v
  let v ← if j.contains "equalize" then do
      let equalize ← (← j.get "equalize").getBool
      pure { v with equalize := equalize }
    else pure v
  let v ← if j.contains "invert" then do
      let invert ← (← j.get "invert").getBool
      pure { v with invert := invert }
    else pure v
  let v ← if j.contains "normalize" then do
      let normalize ← (← j.get "normalize").getBool
      pure { v with normalize := normalize }
    else pure v
  if j.contains "white_balance" then do
    let white_balance ← (← j.get "white_balance").getBool
    pure { v with white_balance := white_balance }
  else pure v

/-! ## Concrete inputs -/

/-- An operation on a 10 x 10 single-channel image without GCPs, asking for a
5 x 5 output. -/
def opPlain : WarpOperation :=
  { input_width := 10, input_height := 10, input_channels := 1,
    ground_control_points := [], output_width := 5, output_height := 5,
    output_rgba := false }

/-- A crop of `w` x `h` pixels at the origin. -/
def cropOfSize (w h : Int) : WarpCropSettings :=
  { lat_min := 0, lat_max := 0, lon_min := 0, lon_max := 0,
    y_min := 0, y_max := h, x_min := 0, x_max := w }

/-- A crop planner that ignores the requested size. -/
def plannerConst (c : WarpCropSettings) : WarpOperation → WarpCropSettings := fun _ => c

/-- A crop planner that honours the requested output size. -/
def plannerOutput : WarpOperation → WarpCropSettings :=
  fun op => cropOfSize op.output_width op.output_height

/-- A stand-in for the geodesic distance in km: 100 km per degree of
latitude and of longitude difference (exact along a meridian of a sphere of
circumference 36000 km). -/
def flatDistance (lat1 lon1 lat2 lon2 : ℚ) : ℚ := 100 * (|lat1 - lat2| + |lon1 - lon2|)

/-- A stand-in for `computeGCPCenter`: the mean longitude and latitude. -/
def centerMean (gcps : List GCP) : ℚ × ℚ :=
  ((gcps.map (fun g => g.lon)).sum / gcps.length, (gcps.map (fun g => g.lat)).sum / gcps.length)

/-- The GCP in column 0 of scanline `y`, at longitude `lon` and latitude `lat`. -/
def gcpAt (y lon lat : ℚ) : GCP := { x := 0, y := y, lon := lon, lat := lat }

/-- An operation on a 10 pixel wide single-channel image of height `h` with
the given GCPs. -/
def opOf (h : Nat) (gcps : List GCP) : WarpOperation :=
  { input_width := 10, input_height := h, input_channels := 1,
    ground_control_points := gcps, output_width := 5, output_height := 5,
    output_rgba := false }

/-- Six scanlines on the equator, 100 km apart. -/
def gcpsShortTrack : List GCP :=
  [gcpAt 0 0 0, gcpAt 1 1 0, gcpAt 2 2 0, gcpAt 5 3 0, gcpAt 7 4 0, gcpAt 8 5 0]

/-- Eleven scanlines along the meridian of Greenwich, from 100 km off the
south pole to 100 km off the north pole, 1780 km apart. -/
def gcpsPoleToPole : List GCP :=
  (List.range 11).map (fun (k : Nat) => gcpAt k 0 (-89 + (89 / 5) * k))

/-- Six scanlines along the meridian of Greenwich: two 100 km apart, a gap
of 3000 km, then four 100 km apart. -/
def gcpsCutTrack : List GCP :=
  [gcpAt 0 0 0, gcpAt 1 0 1, gcpAt 2 0 31, gcpAt 5 0 32, gcpAt 7 0 33, gcpAt 8 0 34]

/-- The three segments built for `gcpsCutTrack` in two slices of a source of
height 10. -/
def segsCutTrack : List SegmentConfig :=
  [{ y_start := 0, y_end := 2, shift_lon := 0, shift_lat := 0,
     gcps := [gcpAt 0 0 0, gcpAt 1 0 1] },
   { y_start := 2, y_end := 8, shift_lon := 0, shift_lat := 0,
     gcps := [gcpAt 0 0 31, gcpAt 3 0 32, gcpAt 5 0 33] },
   { y_start := 0, y_end := 10, shift_lon := 0, shift_lat := 0,
     gcps := gcpsCutTrack }]

/-- Four scanlines leaving the south pole along the meridian of 5 degrees
east. -/
def gcpsSouthTrack : List GCP :=
  [gcpAt 0 5 (-89), gcpAt 1 5 (-85), gcpAt 2 5 (-80), gcpAt 3 5 (-75)]

/-- The segment built for `gcpsSouthTrack`. -/
def segSouthTrack : SegmentConfig :=
  { y_start := 0, y_end := 4, shift_lon := 0, shift_lat := -90, gcps := gcpsSouthTrack }

/-- The segment built for `gcpsPoleToPole`. -/
def segPoleToPole : SegmentConfig :=
  { y_start := 0, y_end := 11, shift_lon := 0, shift_lat := 90, gcps := gcpsPoleToPole }

/-- The calls of `generateSeg` for `gcpsCutTrack` in two slices of a source
of height 10: the first slice is cut at scanline 2. -/
def candsCutTrack : List Candidate :=
  [⟨0, 2, true, false⟩, ⟨2, 5, false, true⟩, ⟨5, 10, true, true⟩]

/-- Two GCPs on two distinct scanlines, 100 km apart. -/
def gcpsTwoScanlines : List GCP := [gcpAt 0 0 0, gcpAt 1 1 0]

/-- Six scanlines on the equator, 3000 km apart. -/
def gcpsLongTrack : List GCP :=
  [gcpAt 0 (-60) 0, gcpAt 1 (-30) 0, gcpAt 2 0 0, gcpAt 3 30 0, gcpAt 4 60 0, gcpAt 5 90 0]

/-- Three scanlines: 3000 km between the first two, 100 km between the last
two. -/
def gcpsFirstPairFar : List GCP := [gcpAt 0 0 0, gcpAt 1 0 30, gcpAt 2 0 31]

/-- A 2 x 2 raster with four channels, every sample 7. -/
def imgSevens : Image := { width := 2, height := 2, channels := 4, data := List.replicate 16 7 }

/-- A 3 x 2 raster with four channels, colour samples 9 and alpha 0. -/
def imgTransparent : Image :=
  { width := 3, height := 2, channels := 4, data := List.replicate 18 9 ++ List.replicate 6 0 }

/-- Four scanlines along the meridian of Greenwich: the first two at the same
place, then two gaps of 3000 km. -/
def gcpsTwoGaps : List GCP := [gcpAt 0 0 0, gcpAt 1 0 0, gcpAt 2 0 30, gcpAt 3 0 60]

/-- Four scanlines on the equator alternating between 5 and 6 degrees east:
their mean longitude is 5.5 degrees. -/
def gcpsZigzag : List GCP := [gcpAt 0 5 0, gcpAt 1 6 0, gcpAt 2 5 0, gcpAt 3 6 0]

/-- The segment built for `gcpsZigzag`. -/
def segZigzag : SegmentConfig :=
  { y_start := 0, y_end := 4, shift_lon := -5, shift_lat := 0, gcps := gcpsZigzag }

/-- A segment configuration for the scanlines 3, 4 and 5, before overlap
expansion. -/
def scfgMiddle : SegmentConfig :=
  { y_start := 3, y_end := 6, shift_lon := 0, shift_lat := 0, gcps := [] }

/-- A 3 x 1 raster with four channels, every sample 0. -/
def imgStrip : Image := { width := 3, height := 1, channels := 4, data := List.replicate 12 0 }

/-- A 2 x 1 opaque raster with four channels and colour samples 1. -/
def segOnes : Image :=
  { width := 2, height := 1, channels := 4, data := [1, 1, 1, 1, 1, 1, 65535, 65535] }

/-- A 2 x 1 opaque raster with four channels and colour samples 2. -/
def segTwos : Image :=
  { width := 2, height := 1, channels := 4, data := [2, 2, 2, 2, 2, 2, 65535, 65535] }

/-- The strip after folding `segOnes` at 0, then `segTwos` at 1. -/
def imgOnesThenTwos : Image :=
  { width := 3, height := 1, channels := 4,
    data := [1, 2, 2, 1, 2, 2, 1, 2, 2, 65535, 65535, 65535] }

/-- The strip after folding `segTwos` at 1, then `segOnes` at 0. -/
def imgTwosThenOnes : Image :=
  { width := 3, height := 1, channels := 4,
    data := [1, 1, 2, 1, 1, 2, 1, 1, 2, 65535, 65535, 65535] }

/-- The strip after folding `segOnes` at 0. -/
def imgOnes : Image :=
  { width := 3, height := 1, channels := 4,
    data := [1, 1, 0, 1, 1, 0, 1, 1, 0, 65535, 65535, 0] }

/-- A 1 x 1 raster with three channels, every sample 0. -/
def imgThree : Image := { width := 1, height := 1, channels := 3, data := [0, 0, 0] }

/-- A 1 x 1 raster with three channels and samples 5, 6, 7. -/
def segThree : Image := { width := 1, height := 1, channels := 3, data := [5, 6, 7] }

/-- A 1 x 1 raster with five channels, every sample 0. -/
def imgFive : Image := { width := 1, height := 1, channels := 5, data := [0, 0, 0, 0, 0] }

/-- A 1 x 1 raster with five channels and samples 5, 6, 7, 8, 9. -/
def segFive : Image := { width := 1, height := 1, channels := 5, data := [5, 6, 7, 8, 9] }

/-- A crop planner: the requested output size at the origin, for longitudes
-10 to 10 and latitudes -5 to 5. -/
def plannerBox : WarpOperation → WarpCropSettings :=
  fun op => { lat_min := -5, lat_max := 5, lon_min := -10, lon_max := 10,
              y_min := 0, y_max := op.output_height, x_min := 0, x_max := op.output_width }

/-- A stand-in for the segment warper: a 1 x 1 opaque raster of colour 9 whose
top left corner is at longitude 0 and latitude 0. -/
def warpDot : WarpOperation → SegmentConfig → WarpResult :=
  fun _ _ =>
    { output_image := { width := 1, height := 1, channels := 4, data := [9, 9, 9, 65535] }
      top_left := ⟨0, 0, 0, 0⟩, top_right := ⟨0, 0, 0, 0⟩
      bottom_left := ⟨0, 0, 0, 0⟩, bottom_right := ⟨0, 0, 0, 0⟩ }

/-- A stand-in for the equirectangular forward projection: linear in
longitude and latitude between the corners of the grid. -/
def projectorLinear (width height : Nat) (tl_lon tl_lat br_lon br_lat lon lat : ℚ) : Int × Int :=
  (⌊(lon - tl_lon) / (br_lon - tl_lon) * width⌋, ⌊(lat - tl_lat) / (br_lat - tl_lat) * height⌋)

/-- The operation of `gcpsShortTrack` with RGBA output of 5 x 5 pixels. -/
def opShortRGBA : WarpOperation := { opOf 10 gcpsShortTrack with output_rgba := true }

/-- The mosaic that `performSmartWarp` builds for `opShortRGBA`: 5 x 5 pixels,
the dot of `warpDot` at pixel (2, 2). -/
def resShortRGBA : WarpResult :=
  { output_image :=
      { width := 5, height := 5, channels := 4,
        data := (List.replicate 12 0 ++ 9 :: List.replicate 12 0) ++
          (List.replicate 12 0 ++ 9 :: List.replicate 12 0) ++
          (List.replicate 12 0 ++ 9 :: List.replicate 12 0) ++
          (List.replicate 12 0 ++ 65535 :: List.replicate 12 0) }
    top_left := ⟨0, 0, -10, 5⟩, top_right := ⟨4, 0, 10, 5⟩
    bottom_left := ⟨0, 4, -10, -5⟩, bottom_right := ⟨4, 4, 10, -5⟩ }

/-- A stand-in for the segment warper on a three-channel operation: a 1 x 1
raster with the channels of its input, colour 9, whose top left corner is at
longitude 0 and latitude 0. -/
def warpDotRGB : WarpOperation → SegmentConfig → WarpResult :=
  fun _ _ =>
    { output_image := { width := 1, height := 1, channels := 3, data := [9, 9, 9] }
      top_left := ⟨0, 0, 0, 0⟩, top_right := ⟨0, 0, 0, 0⟩
      bottom_left := ⟨0, 0, 0, 0⟩, bottom_right := ⟨0, 0, 0, 0⟩ }

/-- The operation of `gcpsShortTrack` on a three-channel image, without RGBA
output. -/
def opShortRGB : WarpOperation := { opOf 10 gcpsShortTrack with input_channels := 3 }

/-- Ten scanlines on the equator, two rows apart: 0, 2, ..., 18. -/
def gcpsLadder : List GCP :=
  (List.range 10).map (fun (k : Nat) => gcpAt (2 * k) k 0)

/-- A segment configuration for the lower half of a source of height 20,
before overlap expansion. -/
def scfgLower : SegmentConfig :=
  { y_start := 10, y_end := 20, shift_lon := 0, shift_lat := 0, gcps := [] }

/-- A segment configuration for the scanlines 2 to 5, before overlap
expansion. -/
def scfgInner : SegmentConfig :=
  { y_start := 2, y_end := 6, shift_lon := 0, shift_lat := 0, gcps := [] }

/-- A composite given by a lookup table instead of an equation. -/
def cfgLut : ImageCompositeCfg :=
  { ImageCompositeCfg.defaults with lut := "lut.png", lut_channels := "ch1" }

/-- A composite given by an equation, with equalization and white balance. -/
def cfgEquation : ImageCompositeCfg :=
  { ImageCompositeCfg.defaults with equation := "ch1, ch2, ch3", equalize := true,
                                    white_balance := true }

/-! ## Lemmas -/

theorem truncInt_of_nonneg {q : ℚ} (h : 0 ≤ q) : truncInt q = ⌊q⌋ := by
  simp [truncInt, h]

theorem truncInt_natCast_div (a b : Nat) : truncInt ((a : ℚ) / b) = ((a / b : Nat) : Int) := by
  rw [truncInt_of_nonneg (by positivity)]
  rw [← @Nat.floor_div_eq_div ℚ _ _ a b]
  exact (Int.natCast_floor_eq_floor (by positivity)).symm

theorem truncInt_neg (q : ℚ) : truncInt (-q) = -truncInt q := by
  unfold truncInt
  rcases lt_trichotomy q 0 with h | h | h
  · have h1 : 0 ≤ -q := by linarith
    have h2 : ¬ 0 ≤ q := by linarith
    simp [h1, h2, Int.floor_neg]
  · subst h; simp
  · have h1 : ¬ 0 ≤ -q := by linarith
    have h2 : 0 ≤ q := by linarith
    simp [h1, h2, Int.ceil_neg]

theorem truncInt_intCast (i : Int) : truncInt (i : ℚ) = i := by
  unfold truncInt
  split <;> simp

theorem scale09_eq_tdiv (v : Int) : scale09 v = Int.tdiv (9 * v) 10 := by
  unfold scale09
  rcases Int.eq_nat_or_neg v with ⟨n, rfl | rfl⟩
  · have h : ((n : Int) : ℚ) * (9 / 10) = ((9 * n : Nat) : ℚ) / (10 : Nat) := by
      push_cast; ring
    rw [h, truncInt_natCast_div]
    have h2 : (9 * (n : Int)) = ((9 * n : Nat) : Int) := by push_cast; ring
    rw [h2]
    exact (Int.ofNat_tdiv (9 * n) 10)
  · have h : ((-(n : Int) : Int) : ℚ) * (9 / 10) = -(((9 * n : Nat) : ℚ) / (10 : Nat)) := by
      push_cast; ring
    rw [h, truncInt_neg, truncInt_natCast_div]
    have h2 : (9 * (-(n : Int))) = -((9 * n : Nat) : Int) := by push_cast; ring
    rw [h2, Int.neg_tdiv]
    congr 1

theorem scale09_exact_iff (v : Int) : ((scale09 v : Int) : ℚ) = 9 / 10 * (v : ℚ) ↔ 10 ∣ v := by
  rw [scale09_eq_tdiv]
  constructor
  · intro h
    have h1 : ((10 * Int.tdiv (9 * v) 10 : Int) : ℚ) = ((9 * v : Int) : ℚ) := by
      push_cast; rw [h]; ring
    have h2 : 10 * Int.tdiv (9 * v) 10 = 9 * v := by exact_mod_cast h1
    have h3 : (10 : Int) ∣ 9 * v := ⟨_, h2.symm⟩
    omega
  · rintro ⟨k, rfl⟩
    have h2 : 9 * (10 * k) = 10 * (9 * k) := by ring
    rw [h2, Int.mul_tdiv_cancel_left _ (by norm_num : (10 : Int) ≠ 0)]
    push_cast; ring

theorem ensureMemoryLimit_none_of_over (planner : WarpOperation → WarpCropSettings)
    (nch : Int) (limit : Nat) (hp : ∀ op, limit < memory_usage (planner op) nch) :
    ∀ (fuel : Nat) (crop : WarpCropSettings) (op : WarpOperation),
      limit < memory_usage crop nch → ensureMemoryLimit planner fuel crop op nch limit = none := by
  intro fuel
  induction fuel with
  | zero => intro crop op _; rfl
  | succ k ih =>
    intro crop op h
    rw [ensureMemoryLimit, if_pos h]
    exact ih _ _ (hp _)

theorem retry_iterate_over (planner : WarpOperation → WarpCropSettings)
    (nch : Int) (limit : Nat) (hp : ∀ op, limit < memory_usage (planner op) nch)
    (crop : WarpCropSettings) (op : WarpOperation) (h0 : limit < memory_usage crop nch) :
    ∀ n, limit < memory_usage ((ensureMemoryLimit_retry planner)^[n] (crop, op)).1 nch := by
  intro n
  cases n with
  | zero => simpa using h0
  | succ k =>
    rw [Function.iterate_succ_apply']
    exact hp _

theorem ensureMemoryLimit_some_bound (planner : WarpOperation → WarpCropSettings)
    (nch : Int) (limit : Nat) :
    ∀ (fuel : Nat) (crop : WarpCropSettings) (op : WarpOperation)
      (r : WarpCropSettings × WarpOperation),
      ensureMemoryLimit planner fuel crop op nch limit = some r →
      memory_usage r.1 nch ≤ limit ∧
        ∃ n, n < fuel ∧ r = (ensureMemoryLimit_retry planner)^[n] (crop, op) := by
  intro fuel
  induction fuel with
  | zero => intro crop op r h; simp [ensureMemoryLimit] at h
  | succ k ih =>
    intro crop op r h
    rw [ensureMemoryLimit] at h
    split at h
    · obtain ⟨hb, n, hn, hr⟩ := ih _ _ _ h
      refine ⟨hb, n + 1, by omega, ?_⟩
      rw [Function.iterate_succ_apply]
      exact hr
    · rename_i hle
      simp only [Option.some.injEq] at h
      subst h
      exact ⟨Nat.le_of_not_lt hle, 0, by omega, rfl⟩

theorem ensureMemoryLimit_returns_of_fit (planner : WarpOperation → WarpCropSettings)
    (nch : Int) (limit : Nat) :
    ∀ (n : Nat) (crop : WarpCropSettings) (op : WarpOperation),
      memory_usage ((ensureMemoryLimit_retry planner)^[n] (crop, op)).1 nch ≤ limit →
      ∃ r, ensureMemoryLimit planner (n + 1) crop op nch limit = some r := by
  intro n
  induction n with
  | zero =>
    intro crop op h
    refine ⟨(crop, op), ?_⟩
    rw [ensureMemoryLimit, if_neg]
    simpa using h
  | succ k ih =>
    intro crop op h
    rw [ensureMemoryLimit]
    split
    · rw [Function.iterate_succ_apply] at h
      exact ih _ _ h
    · exact ⟨_, rfl⟩

theorem toSizeT_cast (i : Int) : ((toSizeT i : Nat) : Int) = i % (SIZE_MOD : Int) := by
  unfold toSizeT
  apply Int.toNat_of_nonneg
  apply Int.emod_nonneg
  simp [SIZE_MOD]

theorem memory_usage_eq_footprint (c : WarpCropSettings) (nch : Int) (hn : 0 ≤ nch)
    (hf : footprint c nch < (SIZE_MOD : Int)) : (memory_usage c nch : Int) = footprint c nch := by
  have hnn : 0 ≤ footprint c nch := by unfold footprint; positivity
  unfold memory_usage
  push_cast
  rw [toSizeT_cast, toSizeT_cast, toSizeT_cast]
  have e : (|c.x_min - c.x_max| % (SIZE_MOD : Int) * (|c.y_min - c.y_max| % (SIZE_MOD : Int))
      * (nch % (SIZE_MOD : Int)) * 2) % (SIZE_MOD : Int)
      = (|c.x_min - c.x_max| * |c.y_min - c.y_max| * nch * 2) % (SIZE_MOD : Int) := by
    simp [Int.mul_emod, Int.emod_emod_of_dvd]
  rw [e, abs_sub_comm c.x_min, abs_sub_comm c.y_min]
  exact Int.emod_eq_of_lt hnn hf

/-! ### Overlap expansion and segment emission -/

theorem updateGCPOverlap_bounds (op : WarpOperation) (scfg : SegmentConfig) (so eo : Bool) :
    0 ≤ (updateGCPOverlap op scfg so eo).y_start ∧
      (updateGCPOverlap op scfg so eo).y_end ≤ (op.input_height : Int) := by
  unfold updateGCPOverlap
  constructor
  · dsimp only
    split <;> omega
  · dsimp only
    split <;> omega

theorem generateSeg_range (vinc : ℚ → ℚ → ℚ → ℚ → ℚ) (center : List GCP → ℚ × ℚ)
    (op : WarpOperation) (a b : Int) (so eo : Bool) :
    (generateSeg vinc center op a b so eo).y_start
        = (updateGCPOverlap op ⟨a, b, 0, 0, []⟩ so eo).y_start ∧
      (generateSeg vinc center op a b so eo).y_end
        = (updateGCPOverlap op ⟨a, b, 0, 0, []⟩ so eo).y_end := ⟨rfl, rfl⟩

theorem generateSeg_shift (vinc : ℚ → ℚ → ℚ → ℚ → ℚ) (center : List GCP → ℚ × ℚ)
    (op : WarpOperation) (a b : Int) (so eo : Bool) :
    ((generateSeg vinc center op a b so eo).shift_lon,
      (generateSeg vinc center op a b so eo).shift_lat)
      = poleOverride vinc (generateSeg vinc center op a b so eo).gcps
          (truncInt (-(center (generateSeg vinc center op a b so eo).gcps).1), 0) := rfl

theorem mem_prepareSegments (vinc : ℚ → ℚ → ℚ → ℚ → ℚ) (center : List GCP → ℚ × ℚ)
    (nsegs : ℚ) (op : WarpOperation) (segs : List SegmentConfig)
    (h : prepareSegmentsAndSplitCuts vinc center nsegs op = some segs)
    (s : SegmentConfig) (hs : s ∈ segs) :
    ∃ c : Candidate, s = generateSeg vinc center op c.start c.stop c.start_overlap c.end_overlap := by
  unfold prepareSegmentsAndSplitCuts at h
  rw [Option.map_eq_some'] at h
  obtain ⟨cands, _, rfl⟩ := h
  rw [List.mem_map] at hs
  obtain ⟨c, _, rfl⟩ := hs
  exact ⟨c, rfl⟩

theorem poleOverride_south_tail (vinc : ℚ → ℚ → ℚ → ℚ → ℚ) :
    ∀ (l : List GCP), (∀ g ∈ l, ¬ vinc g.lat g.lon 90 0 < 1000) →
      poleOverride vinc l (0, -90) = (0, -90) := by
  intro l
  induction l with
  | nil => intro _; rfl
  | cons g l ih =>
    intro h
    have hg := h g (List.mem_cons_self _ _)
    have hl : ∀ g' ∈ l, ¬ vinc g'.lat g'.lon 90 0 < 1000 :=
      fun g' hg' => h g' (List.mem_cons_of_mem _ hg')
    have ih' := ih hl
    unfold poleOverride at ih' ⊢
    rw [List.foldl_cons]
    simp only [hg, if_false, ite_self]
    exact ih'

theorem poleOverride_south (vinc : ℚ → ℚ → ℚ → ℚ → ℚ) (l1 l2 : List GCP) (g : GCP)
    (sh : Int × Int) (hs : vinc g.lat g.lon (-90) 0 < 1000)
    (hn : ¬ vinc g.lat g.lon 90 0 < 1000)
    (hl : ∀ g' ∈ l2, ¬ vinc g'.lat g'.lon 90 0 < 1000) :
    poleOverride vinc (l1 ++ g :: l2) sh = (0, -90) := by
  have ht := poleOverride_south_tail vinc l2 hl
  unfold poleOverride at ht ⊢
  rw [List.foldl_append, List.foldl_cons]
  simp only [hs, hn, if_true, if_false]
  exact ht

/-! ### Truncation -/

theorem truncInt_mono {p q : ℚ} (h : p ≤ q) : truncInt p ≤ truncInt q := by
  unfold truncInt
  by_cases hp : 0 ≤ p
  · have hq : 0 ≤ q := le_trans hp h
    rw [if_pos hp, if_pos hq]
    exact Int.floor_le_floor h
  · rw [if_neg hp]
    by_cases hq : 0 ≤ q
    · rw [if_pos hq]
      have h1 : ⌈p⌉ ≤ 0 := Int.ceil_le.mpr (by push_cast; linarith)
      have h2 : (0 : Int) ≤ ⌊q⌋ := Int.floor_nonneg.mpr hq
      omega
    · rw [if_neg hq]
      exact Int.ceil_le_ceil h

theorem le_truncInt {i : Int} {q : ℚ} (h : (i : ℚ) ≤ q) : i ≤ truncInt q := by
  have := truncInt_mono h
  rwa [truncInt_intCast] at this

theorem truncInt_le {i : Int} {q : ℚ} (h : q ≤ (i : ℚ)) : truncInt q ≤ i := by
  have := truncInt_mono h
  rwa [truncInt_intCast] at this

/-! ### Ranges that follow each other -/

theorem tiles_le : ∀ (l : List (Int × Int)) (a b : Int), Tiles a l b → a ≤ b := by
  intro l
  induction l with
  | nil => intro a b h; exact le_of_eq h
  | cons r rs ih =>
    intro a b h
    obtain ⟨h1, h2, h3⟩ := h
    have := ih _ _ h3
    omega

theorem tiles_append : ∀ (l1 l2 : List (Int × Int)) (a b c : Int),
    Tiles a l1 b → Tiles b l2 c → Tiles a (l1 ++ l2) c := by
  intro l1
  induction l1 with
  | nil => intro l2 a b c h1 h2; cases h1; exact h2
  | cons r rs ih =>
    intro l2 a b c h1 h2
    obtain ⟨e1, e2, e3⟩ := h1
    exact ⟨e1, e2, ih l2 _ _ _ e3 h2⟩

theorem tiles_mem : ∀ (l : List (Int × Int)) (a b : Int), Tiles a l b →
    ∀ r ∈ l, a ≤ r.1 ∧ r.1 ≤ r.2 ∧ r.2 ≤ b := by
  intro l
  induction l with
  | nil => intro a b _ r hr; cases hr
  | cons r0 rs ih =>
    intro a b h r hr
    obtain ⟨h1, h2, h3⟩ := h
    have hle := tiles_le rs _ _ h3
    rcases List.mem_cons.mp hr with rfl | hr
    · omega
    · have := ih _ _ h3 r hr
      omega

theorem tiles_head : ∀ (l : List (Int × Int)) (a b : Int), Tiles a l b → l ≠ [] →
    l.head?.map Prod.fst = some a := by
  intro l a b h hne
  cases l with
  | nil => exact absurd rfl hne
  | cons r rs => simp [h.1]

theorem tiles_last : ∀ (l : List (Int × Int)) (a b : Int), Tiles a l b → l ≠ [] →
    l.getLast?.map Prod.snd = some b := by
  intro l
  induction l with
  | nil => intro a b _ hne; exact absurd rfl hne
  | cons r rs ih =>
    intro a b h _
    obtain ⟨_, _, h3⟩ := h
    cases rs with
    | nil => cases h3; simp
    | cons r1 rs1 =>
      have := ih _ _ h3 (List.cons_ne_nil _ _)
      rw [List.getLast?_cons_cons]
      exact this

theorem tiles_chain : ∀ (l : List (Int × Int)) (a b : Int), Tiles a l b →
    List.Chain' (fun r s : Int × Int => r.2 = s.1) l := by
  intro l
  induction l with
  | nil => intro a b _; exact List.chain'_nil
  | cons r rs ih =>
    intro a b h
    obtain ⟨_, _, h3⟩ := h
    cases rs with
    | nil => exact List.chain'_singleton _
    | cons r1 rs1 =>
      rw [List.chain'_cons]
      exact ⟨h3.1.symm, ih _ _ h3⟩

theorem tiles_pairwise : ∀ (l : List (Int × Int)) (a b : Int), Tiles a l b →
    l.Pairwise (fun r s : Int × Int => r.2 ≤ s.1) := by
  intro l
  induction l with
  | nil => intro a b _; exact List.Pairwise.nil
  | cons r rs ih =>
    intro a b h
    obtain ⟨_, _, h3⟩ := h
    rw [List.pairwise_cons]
    exact ⟨fun s hs => (tiles_mem rs _ _ h3 s hs).1, ih _ _ h3⟩

theorem tiles_cover : ∀ (l : List (Int × Int)) (a b : Int), Tiles a l b →
    ∀ y : Int, (a ≤ y ∧ y < b) ↔ ∃ r ∈ l, r.1 ≤ y ∧ y < r.2 := by
  intro l
  induction l with
  | nil =>
    intro a b h y
    cases h
    constructor
    · intro hy; omega
    · rintro ⟨r, hr, _⟩; cases hr
  | cons r rs ih =>
    intro a b h y
    obtain ⟨h1, h2, h3⟩ := h
    have hle := tiles_le rs _ _ h3
    have ih' := ih _ _ h3 y
    constructor
    · intro hy
      by_cases hlt : y < r.2
      · exact ⟨r, List.mem_cons_self _ _, by omega, hlt⟩
      · obtain ⟨s, hs, hs2⟩ := ih'.mp ⟨by omega, hy.2⟩
        exact ⟨s, List.mem_cons_of_mem _ hs, hs2⟩
    · rintro ⟨s, hs, hs1, hs2⟩
      rcases List.mem_cons.mp hs with rfl | hs
      · omega
      · have := ih'.mpr ⟨s, hs, hs1, hs2⟩
        omega

/-! ### Vectors and the filter loop -/

theorem Vec.mem_of_get {α : Type} (v : Vec α) (i : Nat) (x : α) (h : v.get i = some x) :
    x ∈ v.buf := by
  unfold Vec.get at h
  exact List.getElem?_mem h

theorem Vec.mem_push_back {α : Type} (v : Vec α) (a x : α) (hx : x ∈ (v.push_back a).buf) :
    x ∈ v.buf ∨ x = a := by
  unfold Vec.push_back at hx
  split at hx
  · exact List.mem_or_eq_of_mem_set hx
  · rcases List.mem_append.mp hx with h | h
    · exact Or.inl (List.mem_of_mem_take h)
    · exact Or.inr (List.mem_singleton.mp h)

theorem Vec.ofList_toList {α : Type} (l : List α) : (Vec.ofList l).toList = l := by
  simp [Vec.ofList, Vec.toList]

theorem filterLoop_mem : ∀ (n y : Nat) (v v' : Vec GCP), filterLoop n y v = some v' →
    ∀ g ∈ v'.buf, g ∈ v.buf := by
  intro n
  induction n with
  | zero =>
    intro y v v' h g hg
    simp only [filterLoop, Option.some.injEq] at h
    subst h; exact hg
  | succ k ih =>
    intro y v v' h g hg
    simp only [filterLoop, Option.bind_eq_bind, Option.bind_eq_some] at h
    obtain ⟨gcp1, _, gcp2, h2, h3⟩ := h
    have hm := ih _ _ _ h3 g hg
    split at hm
    · rcases Vec.mem_push_back v gcp2 g hm with h | h
      · exact h
      · subst h; exact Vec.mem_of_get v _ _ h2
    · exact hm

theorem filterGCPs_mem (v v' : Vec GCP) (h : filterGCPs v = some v') :
    ∀ g ∈ v'.buf, g ∈ v.buf := by
  intro g hg
  have key := filterLoop_mem _ _ _ _ h g hg
  exact key

theorem cutLoop_result (vinc : ℚ → ℚ → ℚ → ℚ → ℚ) : ∀ (n y : Nat) (v : Vec GCP) (c c' : Int),
    cutLoop vinc n y v c = some c' → c' = c ∨ ∃ g ∈ v.buf, c' = truncInt g.y := by
  intro n
  induction n with
  | zero =>
    intro y v c c' h
    simp only [cutLoop, Option.some.injEq] at h
    exact Or.inl h.symm
  | succ k ih =>
    intro y v c c' h
    simp only [cutLoop, Option.bind_eq_bind, Option.bind_eq_some] at h
    obtain ⟨gcp1, _, gcp2, h2, h3⟩ := h
    rcases ih _ _ _ _ h3 with h4 | h4
    · split at h4
      · exact Or.inr ⟨gcp2, Vec.mem_of_get v _ _ h2, h4⟩
      · exact Or.inl h4
    · exact Or.inr h4

theorem mem_sortGCPs (w : Nat) (l : List GCP) (g : GCP) : g ∈ sortGCPs w l ↔ g ∈ l := by
  unfold sortGCPs
  exact (List.perm_insertionSort _ l).mem_iff

theorem Vec.lt_of_get {α : Type} (v : Vec α) (i : Nat) (x : α) (h : v.get i = some x) :
    i < v.buf.length := by
  unfold Vec.get at h
  exact (List.getElem?_eq_some_iff.mp h).1

theorem Vec.push_back_of_lt {α : Type} (v : Vec α) (a : α) (h : v.size < v.buf.length) :
    (v.push_back a).buf.length = v.buf.length ∧ (v.push_back a).size = v.size + 1 := by
  unfold Vec.push_back
  rw [if_pos h]
  exact ⟨List.length_set _ _ _, rfl⟩

theorem Vec.push_back_full {α : Type} (v : Vec α) (a : α) (h : v.size = v.buf.length) :
    (v.push_back a).buf = v.buf ++ [a] ∧ (v.push_back a).size = v.size + 1 := by
  unfold Vec.push_back
  rw [if_neg (by omega), h, List.take_length]
  exact ⟨rfl, rfl⟩

theorem sizeMinusOne_pos {n : Nat} (h0 : 0 < n) (h : n < SIZE_MOD) : sizeMinusOne n = n - 1 := by
  unfold sizeMinusOne
  unfold SIZE_MOD at *
  omega

theorem sizeMinusOne_zero : sizeMinusOne 0 = SIZE_MOD - 1 := by
  decide

theorem filterLoop_inv : ∀ (n y : Nat) (v v' : Vec GCP), v.size ≤ y →
    filterLoop n y v = some v' →
    v'.buf.length = v.buf.length ∧ v'.size ≤ y + n ∧ (n = 0 ∨ y + n < v.buf.length) := by
  intro n
  induction n with
  | zero =>
    intro y v v' hs h
    simp only [filterLoop, Option.some.injEq] at h
    subst h
    exact ⟨rfl, by omega, Or.inl rfl⟩
  | succ k ih =>
    intro y v v' hs h
    simp only [filterLoop, Option.bind_eq_bind, Option.bind_eq_some] at h
    obtain ⟨gcp1, _, gcp2, h2, h3⟩ := h
    have hy1 := Vec.lt_of_get v _ _ h2
    split at h3
    · obtain ⟨e1, e2⟩ := Vec.push_back_of_lt v gcp2 (by omega)
      obtain ⟨i1, i2, i3⟩ := ih (y + 1) _ v' (by omega) h3
      rw [e1] at i1 i3
      exact ⟨i1, by omega, by omega⟩
    · obtain ⟨i1, i2, i3⟩ := ih (y + 1) _ v' (by omega) h3
      exact ⟨i1, by omega, by omega⟩

theorem filterGCPs_inv (l : List GCP) (hl : l.length < SIZE_MOD) (v' : Vec GCP)
    (h : filterGCPs (Vec.ofList l) = some v') :
    v'.buf.length = l.length ∧ v'.size < l.length := by
  unfold filterGCPs at h
  rw [Vec.ofList_toList] at h
  obtain ⟨i1, i2, i3⟩ := filterLoop_inv _ 0 _ v' (Nat.le_refl 0) h
  have e : (Vec.ofList l).clear.buf.length = l.length := rfl
  rw [e] at i1 i3
  rcases Nat.eq_zero_or_pos l.length with h0 | h0
  · rw [h0, sizeMinusOne_zero] at i3
    unfold SIZE_MOD at i3
    omega
  · rw [sizeMinusOne_pos h0 hl] at i2
    exact ⟨i1, by omega⟩

theorem keptAfterFirst_short (l : List GCP) : keptAfterFirst (l.take 1) = [] := by
  cases l with
  | nil => rfl
  | cons a l => rfl

theorem Vec.toList_push_back_of_lt {α : Type} (v : Vec α) (a : α) (h : v.size < v.buf.length) :
    (v.push_back a).toList = v.toList ++ [a] := by
  unfold Vec.push_back Vec.toList
  rw [if_pos h]
  dsimp only
  rw [List.set_eq_take_append_cons_drop, if_pos h]
  have hlen : (List.take v.size v.buf).length = v.size := by
    rw [List.length_take]; omega
  rw [List.take_append_eq_append_take, hlen, List.take_of_length_le (by omega)]
  simp

theorem filterLoop_spec (l : List GCP) : ∀ (n y : Nat) (v : Vec GCP),
    v.size ≤ y → v.buf.length = l.length → v.buf.drop y = l.drop y → y + n < l.length →
    ∃ v', filterLoop n y v = some v' ∧
      v'.toList = v.toList ++ keptAfterFirst ((l.drop y).take (n + 1)) := by
  intro n
  induction n with
  | zero =>
    intro y v _ _ _ _
    refine ⟨v, rfl, ?_⟩
    rw [keptAfterFirst_short, List.append_nil]
  | succ k ih =>
    intro y v hs hb hd hy
    have hy0 : y < l.length := by omega
    have hy1 : y + 1 < l.length := by omega
    have r1 : v.get y = some l[y] := by
      unfold Vec.get
      have := List.getElem?_drop v.buf y 0
      rw [hd, List.getElem?_drop] at this
      simp only [Nat.add_zero] at this
      rw [← this]
      exact List.getElem?_eq_getElem hy0
    have r2 : v.get (y + 1) = some l[y + 1] := by
      unfold Vec.get
      have := List.getElem?_drop v.buf y 1
      rw [hd, List.getElem?_drop] at this
      rw [← this]
      exact List.getElem?_eq_getElem hy1
    have d1 : l.drop y = l[y] :: l.drop (y + 1) := List.drop_eq_getElem_cons hy0
    have d2 : l.drop (y + 1) = l[y + 1] :: l.drop (y + 1 + 1) := List.drop_eq_getElem_cons hy1
    have hd' : v.buf.drop (y + 1) = l.drop (y + 1) := by
      have := congrArg (List.drop 1) hd
      rwa [List.drop_drop, List.drop_drop] at this
    simp only [filterLoop, r1, r2, Option.bind_eq_bind, Option.some_bind]
    by_cases hne : l[y].y ≠ l[y + 1].y
    · rw [if_pos hne]
      have hlt : v.size < v.buf.length := by omega
      obtain ⟨e1, e2⟩ := Vec.push_back_of_lt v l[y + 1] hlt
      have hd1 : (v.push_back l[y + 1]).buf.drop (y + 1) = l.drop (y + 1) := by
        unfold Vec.push_back
        rw [if_pos hlt]
        dsimp only
        rw [List.drop_set_of_lt _ _ (by omega)]
        exact hd'
      obtain ⟨v', h1, h2⟩ := ih (y + 1) (v.push_back l[y + 1]) (by omega) (by omega) hd1
        (by omega)
      refine ⟨v', h1, ?_⟩
      rw [h2, Vec.toList_push_back_of_lt v _ hlt, d1, d2, List.take_succ_cons,
        List.take_succ_cons, List.take_succ_cons, keptAfterFirst, if_pos hne,
        List.append_assoc]
      rfl
    · rw [if_neg hne]
      obtain ⟨v', h1, h2⟩ := ih (y + 1) v (by omega) hb hd' (by omega)
      refine ⟨v', h1, ?_⟩
      rw [h2, d1, d2, List.take_succ_cons, List.take_succ_cons, List.take_succ_cons,
        keptAfterFirst, if_neg hne]

theorem filterGCPs_spec (l : List GCP) (h0 : 0 < l.length) (hl : l.length < SIZE_MOD) :
    ∃ v, filterGCPs (Vec.ofList l) = some v ∧ v.toList = keptAfterFirst l := by
  unfold filterGCPs
  dsimp only
  rw [Vec.ofList_toList, sizeMinusOne_pos h0 hl]
  obtain ⟨v, h1, h2⟩ := filterLoop_spec l (l.length - 1) 0 (Vec.ofList l).clear
    (Nat.le_refl 0) rfl rfl (by omega)
  refine ⟨v, h1, ?_⟩
  have e : l.length - 1 + 1 = l.length := by omega
  rw [h2, e, List.drop_zero, List.take_length]
  rfl

theorem consecutiveDistances_short (vinc : ℚ → ℚ → ℚ → ℚ → ℚ) (l : List GCP) :
    consecutiveDistances vinc (l.take 1) = [] := by
  cases l with
  | nil => rfl
  | cons a l => rfl

theorem distanceLoop_spec (vinc : ℚ → ℚ → ℚ → ℚ → ℚ) :
    ∀ (n y : Nat) (v : Vec GCP) (d d' : Vec ℚ), d.size = d.buf.length →
    distanceLoop vinc n y v d = some d' →
    d'.size = d'.buf.length ∧
      d'.buf = d.buf ++ consecutiveDistances vinc ((v.buf.drop y).take (n + 1)) ∧
      (n = 0 ∨ y + n < v.buf.length) := by
  intro n
  induction n with
  | zero =>
    intro y v d d' hd h
    simp only [distanceLoop, Option.some.injEq] at h
    subst h
    refine ⟨hd, ?_, Or.inl rfl⟩
    rw [consecutiveDistances_short, List.append_nil]
  | succ k ih =>
    intro y v d d' hd h
    simp only [distanceLoop, Option.bind_eq_bind, Option.bind_eq_some] at h
    obtain ⟨gcp1, h1, gcp2, h2, h3⟩ := h
    have hy1 := Vec.lt_of_get v _ _ h2
    obtain ⟨e1, e2⟩ := Vec.push_back_full d (vinc gcp1.lat gcp1.lon gcp2.lat gcp2.lon) hd
    obtain ⟨i1, i2, i3⟩ := ih (y + 1) v _ d' (by rw [e2, e1, hd]; simp) h3
    refine ⟨i1, ?_, by omega⟩
    unfold Vec.get at h1 h2
    obtain ⟨hy, g1⟩ := List.getElem?_eq_some_iff.mp h1
    obtain ⟨hy', g2⟩ := List.getElem?_eq_some_iff.mp h2
    have d1 : v.buf.drop y = gcp1 :: v.buf.drop (y + 1) := by
      rw [List.drop_eq_getElem_cons hy, g1]
    have d2 : v.buf.drop (y + 1) = gcp2 :: v.buf.drop (y + 1 + 1) := by
      rw [List.drop_eq_getElem_cons hy', g2]
    rw [i2, e1, d1, d2, List.take_succ_cons, List.take_succ_cons, List.take_succ_cons,
      List.append_assoc]
    rfl

theorem consecutiveDistances_nonneg (vinc : ℚ → ℚ → ℚ → ℚ → ℚ)
    (hnonneg : ∀ a b c d, 0 ≤ vinc a b c d) :
    ∀ (l : List GCP), ∀ x ∈ consecutiveDistances vinc l, 0 ≤ x := by
  intro l
  induction l with
  | nil => intro x hx; cases hx
  | cons a l ih =>
    cases l with
    | nil => intro x hx; cases hx
    | cons b l =>
      intro x hx
      rw [consecutiveDistances, List.mem_cons] at hx
      rcases hx with rfl | hx
      · exact hnonneg _ _ _ _
      · exact ih x hx

theorem medianOf_mem (ds : List ℚ) (m : ℚ) (h : medianOf ds = some m) : m ∈ ds := by
  unfold medianOf at h
  exact (List.perm_insertionSort _ ds).mem_iff.mp (List.getElem?_mem h)

theorem medianOf_const (ds : List ℚ) (m c : ℚ) (h : medianOf ds = some m)
    (hc : ∀ d ∈ ds, d = c) : m = c :=
  hc m (medianOf_mem ds m h)

theorem segment_count_value (m : ℚ) (c : Nat) (hm : 0 ≤ m) :
    (if truncInt (m * c / 3000) = 0 then (1 : Int) else truncInt (m * c / 3000))
      = max 1 ⌊m * c / 3000⌋ := by
  have h0 : 0 ≤ m * c / 3000 := by positivity
  rw [truncInt_of_nonneg h0]
  have h1 : 0 ≤ ⌊m * c / 3000⌋ := Int.floor_nonneg.mpr h0
  split
  · rename_i h; rw [h]; rfl
  · rename_i h; omega

theorem segment_count_needs_three (vinc : ℚ → ℚ → ℚ → ℚ → ℚ) (op : WarpOperation)
    (hlen : op.ground_control_points.length < SIZE_MOD) (r : Int)
    (h : calculateSegmentNumberToSplitInto vinc op = some r) :
    ∃ v, filterGCPs (Vec.ofList (sortGCPs op.input_width op.ground_control_points)) = some v ∧
      2 ≤ v.size ∧ v.size < op.ground_control_points.length := by
  simp only [calculateSegmentNumberToSplitInto, Option.bind_eq_bind, Option.bind_eq_some,
    Option.some.injEq] at h
  obtain ⟨v, hv, d, hd, m, hm, _⟩ := h
  have hsl : (sortGCPs op.input_width op.ground_control_points).length < SIZE_MOD := by
    rw [sortGCPs, List.length_insertionSort]; exact hlen
  obtain ⟨hb, hs⟩ := filterGCPs_inv _ hsl v hv
  have hs' : v.size < op.ground_control_points.length := by
    rwa [sortGCPs, List.length_insertionSort] at hs
  obtain ⟨i1, i2, i3⟩ := distanceLoop_spec vinc _ 0 v Vec.empty d rfl hd
  refine ⟨v, hv, ?_, hs'⟩
  by_contra hlt
  have hcases : v.size = 0 ∨ v.size = 1 := by omega
  rcases hcases with hz | hz
  · rw [hz, sizeMinusOne_zero] at i3
    unfold SIZE_MOD at *
    omega
  · have e0 : sizeMinusOne v.size = 0 := by rw [hz]; decide
    rw [e0, consecutiveDistances_short] at i2
    have hd0 : d.toList = [] := by
      unfold Vec.toList
      rw [i2]
      simp [Vec.empty]
    rw [hd0] at hm
    simp [Vec.get, Vec.ofList] at hm

/-! ### Slices and candidate ranges -/

theorem sliceBound_mono (nsegs : ℚ) (hpos : 0 < nsegs) (h : Nat) (k : Nat) :
    truncInt ((k : ℚ) / nsegs * h) ≤ truncInt (((k + 1 : Nat) : ℚ) / nsegs * h) := by
  apply truncInt_mono
  have hh : (0 : ℚ) ≤ (h : ℚ) := Nat.cast_nonneg h
  apply mul_le_mul_of_nonneg_right _ hh
  apply div_le_div_of_nonneg_right _ (le_of_lt hpos)
  push_cast
  linarith

theorem sliceCandidates_tiles (vinc : ℚ → ℚ → ℚ → ℚ → ℚ) (nsegs : ℚ) (hpos : 0 < nsegs)
    (op : WarpOperation) (k : Nat) (cands : List Candidate)
    (h : sliceCandidates vinc nsegs op k = some cands) :
    cands ≠ [] ∧
    Tiles (truncInt ((k : ℚ) / nsegs * op.input_height))
      (cands.map (fun c => (c.start, c.stop)))
      (truncInt (((k + 1 : Nat) : ℚ) / nsegs * op.input_height)) := by
  have hmono := sliceBound_mono nsegs hpos op.input_height k
  simp only [sliceCandidates, Option.bind_eq_bind, Option.bind_eq_some] at h
  obtain ⟨v, hv, c, hc, h⟩ := h
  split at h
  · simp only [Option.some.injEq] at h
    subst h
    refine ⟨List.cons_ne_nil _ _, ?_⟩
    rename_i hcut
    rcases cutLoop_result vinc _ _ _ _ _ hc with h1 | ⟨g, hg, h1⟩
    · exact absurd h1 hcut
    · have hg1 := filterGCPs_mem _ _ hv g hg
      have hg2 := (mem_sortGCPs _ _ g).mp hg1
      rw [Vec.ofList_toList, List.mem_filter] at hg2
      have hg3 := hg2.2
      simp only [ge_iff_le, Bool.decide_and, Bool.and_eq_true, decide_eq_true_eq] at hg3
      have e1 := le_truncInt hg3.1
      have e2 := truncInt_le (le_of_lt hg3.2)
      rw [← h1] at e1 e2
      exact ⟨rfl, e1, rfl, e2, rfl⟩
  · simp only [Option.some.injEq] at h
    subst h
    exact ⟨List.cons_ne_nil _ _, rfl, hmono, rfl⟩

theorem segmentLoop_tiles (vinc : ℚ → ℚ → ℚ → ℚ → ℚ) (nsegs : ℚ) (hpos : 0 < nsegs)
    (op : WarpOperation) : ∀ (m k : Nat) (cands : List Candidate),
    segmentLoop (sliceCandidates vinc nsegs op) m k = some cands →
    (0 < m → cands ≠ []) ∧
    Tiles (truncInt ((k : ℚ) / nsegs * op.input_height))
      (cands.map (fun c => (c.start, c.stop)))
      (truncInt (((k + m : Nat) : ℚ) / nsegs * op.input_height)) := by
  intro m
  induction m with
  | zero =>
    intro k cands h
    simp only [segmentLoop, Option.some.injEq] at h
    subst h
    exact ⟨fun h0 => absurd h0 (lt_irrefl 0), rfl⟩
  | succ j ih =>
    intro k cands h
    simp only [segmentLoop, Option.bind_eq_bind, Option.bind_eq_some, Option.some.injEq] at h
    obtain ⟨first, hf, rest, hr, rfl⟩ := h
    obtain ⟨hne, ht⟩ := sliceCandidates_tiles vinc nsegs hpos op k first hf
    obtain ⟨_, ht2⟩ := ih (k + 1) rest hr
    refine ⟨fun _ => ?_, ?_⟩
    · intro habs
      exact hne (List.append_eq_nil.mp habs).1
    · rw [List.map_append]
      have e : k + 1 + j = k + (j + 1) := by omega
      rw [e] at ht2
      exact tiles_append _ _ _ _ _ ht ht2

/-! ### Compositing -/

theorem foldlM_fixed {α β : Type} (f : β → α → Option β) (s : β) :
    ∀ (l : List α), (∀ a ∈ l, f s a = some s) → l.foldlM f s = some s := by
  intro l
  induction l with
  | nil => intro _; rfl
  | cons a l ih =>
    intro h
    rw [List.foldlM_cons, h a (List.mem_cons_self _ _)]
    exact ih (fun b hb => h b (List.mem_cons_of_mem _ hb))

theorem compositePixel_transparent (result result2 : Image) (x2 y2 : Int) (x y : Nat)
    (ha : result2.get 3 (y * result2.width + x) = some 0) :
    compositePixel result2 x2 y2 x y result = some result := by
  unfold compositePixel
  split
  · rw [ha]; rfl
  · rfl

/-! ### Short GCP lists -/

theorem filterGCPs_nil : filterGCPs (Vec.ofList ([] : List GCP)) = none := by
  cases h : filterGCPs (Vec.ofList ([] : List GCP)) with
  | none => rfl
  | some v =>
    have := (filterGCPs_inv [] (by simp [SIZE_MOD]) v h).2
    simp at this

theorem filterGCPs_single (g : GCP) : filterGCPs (Vec.ofList [g]) = some ⟨[g], 0⟩ := by
  have e : sizeMinusOne 1 = 0 := by decide
  unfold filterGCPs
  dsimp only
  rw [Vec.ofList_toList, List.length_singleton, e]
  rfl

theorem distanceLoop_single (vinc : ℚ → ℚ → ℚ → ℚ → ℚ) (g : GCP) :
    distanceLoop vinc (sizeMinusOne 0) 0 ⟨[g], 0⟩ Vec.empty = none := by
  cases h : distanceLoop vinc (sizeMinusOne 0) 0 ⟨[g], 0⟩ Vec.empty with
  | none => rfl
  | some d =>
    have := (distanceLoop_spec vinc _ 0 ⟨[g], 0⟩ Vec.empty d rfl h).2.2
    rw [sizeMinusOne_zero] at this
    simp [SIZE_MOD] at this

theorem segment_count_short_none (vinc : ℚ → ℚ → ℚ → ℚ → ℚ) (op : WarpOperation)
    (hlen : op.ground_control_points.length ≤ 2) :
    calculateSegmentNumberToSplitInto vinc op = none := by
  cases hc : calculateSegmentNumberToSplitInto vinc op with
  | none => rfl
  | some r =>
    obtain ⟨v, _, h2, h3⟩ := segment_count_needs_three vinc op
      (by unfold SIZE_MOD; omega) r hc
    omega

theorem filterGCPs_pair (g1 g2 : GCP) :
    (filterGCPs (Vec.ofList [g1, g2])).map Vec.toList
      = some (if g1.y ≠ g2.y then [g2] else []) := by
  obtain ⟨v, h1, h2⟩ := filterGCPs_spec [g1, g2] (by simp) (by simp [SIZE_MOD])
  rw [h1, Option.map_some', h2]
  simp only [keptAfterFirst]

/-! ### The cut search -/

theorem cutOf_short (vinc : ℚ → ℚ → ℚ → ℚ → ℚ) (l : List GCP) (c : Int) :
    cutOf vinc (l.take 1) c = c := by
  cases l with
  | nil => rfl
  | cons a l => rfl

theorem cutLoop_spec (vinc : ℚ → ℚ → ℚ → ℚ → ℚ) : ∀ (n y : Nat) (v : Vec GCP) (c : Int),
    y + n < v.buf.length →
    cutLoop vinc n y v c = some (cutOf vinc ((v.buf.drop y).take (n + 1)) c) := by
  intro n
  induction n with
  | zero =>
    intro y v c _
    rw [cutOf_short]
    rfl
  | succ k ih =>
    intro y v c hy
    have hy0 : y < v.buf.length := by omega
    have hy1 : y + 1 < v.buf.length := by omega
    have r1 : v.get y = some v.buf[y] := List.getElem?_eq_getElem hy0
    have r2 : v.get (y + 1) = some v.buf[y + 1] := List.getElem?_eq_getElem hy1
    have d1 : v.buf.drop y = v.buf[y] :: v.buf.drop (y + 1) := List.drop_eq_getElem_cons hy0
    have d2 : v.buf.drop (y + 1) = v.buf[y + 1] :: v.buf.drop (y + 1 + 1) :=
      List.drop_eq_getElem_cons hy1
    simp only [cutLoop, r1, r2, Option.bind_eq_bind, Option.some_bind]
    rw [ih (y + 1) v _ (by omega), d1, d2, List.take_succ_cons, List.take_succ_cons,
      List.take_succ_cons, cutOf]

theorem cutOf_no_far (vinc : ℚ → ℚ → ℚ → ℚ → ℚ) : ∀ (l : List GCP) (c : Int),
    (∀ d ∈ consecutiveDistances vinc l, ¬ d > 2000) → cutOf vinc l c = c := by
  intro l
  induction l with
  | nil => intro c _; rfl
  | cons a l ih =>
    cases l with
    | nil => intro c _; rfl
    | cons b l =>
      intro c h
      rw [consecutiveDistances] at h
      rw [cutOf, if_neg (h _ (List.mem_cons_self _ _))]
      exact ih c (fun d hd => h d (List.mem_cons_of_mem _ hd))

theorem cutOf_cons (vinc : ℚ → ℚ → ℚ → ℚ → ℚ) (a : GCP) (l : List GCP) (c : Int) :
    ∃ c', cutOf vinc (a :: l) c = cutOf vinc l c' := by
  cases l with
  | nil => exact ⟨c, rfl⟩
  | cons b l => exact ⟨_, rfl⟩

theorem cutOf_last (vinc : ℚ → ℚ → ℚ → ℚ → ℚ) (g1 g2 : GCP) (post : List GCP)
    (hfar : vinc g1.lat g1.lon g2.lat g2.lon > 2000)
    (hlast : ∀ d ∈ consecutiveDistances vinc (g2 :: post), ¬ d > 2000) :
    ∀ (pre : List GCP) (c : Int), cutOf vinc (pre ++ g1 :: g2 :: post) c = truncInt g2.y := by
  intro pre
  induction pre with
  | nil =>
    intro c
    rw [List.nil_append, cutOf, if_pos hfar]
    exact cutOf_no_far vinc _ _ hlast
  | cons a pre ih =>
    intro c
    obtain ⟨c', hc⟩ := cutOf_cons vinc a (pre ++ g1 :: g2 :: post) c
    rw [List.cons_append, hc]
    exact ih c'

/-! ### One slice -/

theorem sliceCandidates_eq (vinc : ℚ → ℚ → ℚ → ℚ → ℚ) (nsegs : ℚ) (op : WarpOperation)
    (k : Nat) :
    sliceCandidates vinc nsegs op k =
      (filterGCPs (Vec.ofList (sortGCPs op.input_width (sliceGCPs nsegs op k)))).bind
        (fun v => (cutLoop vinc (sizeMinusOne v.size) 0 v (-1)).bind (fun c =>
          if c ≠ -1 then
            some [⟨sliceStart nsegs op k, c, true, false⟩, ⟨c, sliceEnd nsegs op k, false, true⟩]
          else some [⟨sliceStart nsegs op k, sliceEnd nsegs op k, true, true⟩])) := by
  unfold sliceCandidates
  simp only [Vec.ofList_toList]
  rfl

theorem sliceGCPs_length_le (nsegs : ℚ) (op : WarpOperation) (k : Nat) :
    (sliceGCPs nsegs op k).length ≤ op.ground_control_points.length := by
  unfold sliceGCPs
  exact List.length_filter_le _ _

theorem mem_sliceGCPs (nsegs : ℚ) (op : WarpOperation) (k : Nat) (g : GCP)
    (hg : g ∈ sliceGCPs nsegs op k) :
    (sliceStart nsegs op k : ℚ) ≤ g.y ∧ g.y < (sliceEnd nsegs op k : ℚ) := by
  unfold sliceGCPs at hg
  rw [List.mem_filter] at hg
  simpa using hg.2

theorem sliceStart_nonneg (nsegs : ℚ) (hpos : 0 < nsegs) (op : WarpOperation) (k : Nat) :
    0 ≤ sliceStart nsegs op k := by
  unfold sliceStart
  apply le_truncInt
  have h1 : (0 : ℚ) ≤ (k : ℚ) := Nat.cast_nonneg k
  have h2 : (0 : ℚ) ≤ (op.input_height : ℚ) := Nat.cast_nonneg _
  have h3 : (0 : ℚ) ≤ (k : ℚ) / nsegs := div_nonneg h1 (le_of_lt hpos)
  simpa using mul_nonneg h3 h2

theorem slice_cut_of_filter (vinc : ℚ → ℚ → ℚ → ℚ → ℚ) (nsegs : ℚ) (op : WarpOperation)
    (k : Nat) (hlen : op.ground_control_points.length < SIZE_MOD) (v : Vec GCP)
    (hv : filterGCPs (Vec.ofList (sortGCPs op.input_width (sliceGCPs nsegs op k))) = some v)
    (hsize : 1 ≤ v.size) :
    cutLoop vinc (sizeMinusOne v.size) 0 v (-1) = some (cutOf vinc v.toList (-1)) := by
  have hsl : (sortGCPs op.input_width (sliceGCPs nsegs op k)).length < SIZE_MOD := by
    rw [sortGCPs, List.length_insertionSort]
    exact lt_of_le_of_lt (sliceGCPs_length_le nsegs op k) hlen
  obtain ⟨hb, hs⟩ := filterGCPs_inv _ hsl v hv
  rw [sizeMinusOne_pos hsize (by omega), cutLoop_spec vinc _ 0 v _ (by omega)]
  have e : v.size - 1 + 1 = v.size := by omega
  rw [e, List.drop_zero]
  rfl

/-! ### A range without neighbours -/

theorem foldl_fixed {α β : Type} (f : β → α → β) (s : β) :
    ∀ (l : List α), (∀ a ∈ l, f s a = s) → l.foldl f s = s := by
  intro l
  induction l with
  | nil => intro _; rfl
  | cons a l ih =>
    intro h
    rw [List.foldl_cons, h a (List.mem_cons_self _ _)]
    exact ih (fun b hb => h b (List.mem_cons_of_mem _ hb))

theorem overlapPass_no_neighbour (gcps : List GCP) (so eo : Bool) (a b : Int)
    (h : ∀ g ∈ gcps, (a : ℚ) ≤ g.y ∧ g.y ≤ (b : ℚ)) :
    overlapPass gcps so eo (a, b) = (a, b) := by
  unfold overlapPass
  rw [foldl_fixed]
  · simp
  · intro g hg
    obtain ⟨h1, h2⟩ := h g hg
    have e1 : truncInt ((a : ℚ) - g.y) ≤ 0 := truncInt_le (by push_cast; linarith)
    have e2 : truncInt (g.y - (b : ℚ)) ≤ 0 := truncInt_le (by push_cast; linarith)
    have n1 : ¬ (truncInt ((a : ℚ) - g.y) > 0 ∧ truncInt ((a : ℚ) - g.y) < INT_MAX) := by
      intro hc; omega
    have n2 : ¬ (truncInt (g.y - (b : ℚ)) > 0 ∧ truncInt (g.y - (b : ℚ)) < INT_MAX) := by
      intro hc; omega
    simp only [n1, n2, if_false]

theorem filterMap_rebase_zero : ∀ (l : List GCP) (b : Int),
    (∀ g ∈ l, (0 : ℚ) ≤ g.y ∧ g.y < (b : ℚ)) →
    l.filterMap (fun gcp =>
      if gcp.y ≥ (((0 : Int) : Int) : ℚ) ∧ gcp.y < (b : ℚ) then
        some { gcp with y := gcp.y - (((0 : Int) : Int) : ℚ) }
      else none) = l := by
  intro l
  induction l with
  | nil => intro b _; rfl
  | cons g l ih =>
    intro b h
    obtain ⟨h1, h2⟩ := h g (List.mem_cons_self _ _)
    have hc : g.y ≥ (((0 : Int) : Int) : ℚ) ∧ g.y < (b : ℚ) := ⟨by simpa using h1, h2⟩
    rw [List.filterMap_cons, if_pos hc]
    dsimp only
    rw [ih b (fun g' hg' => h g' (List.mem_cons_of_mem _ hg'))]
    congr 1
    cases g
    simp

theorem generateSeg_full_range (vinc : ℚ → ℚ → ℚ → ℚ → ℚ) (center : List GCP → ℚ × ℚ)
    (op : WarpOperation) (so eo : Bool)
    (hy : ∀ g ∈ op.ground_control_points, (0 : ℚ) ≤ g.y ∧ g.y < (op.input_height : ℚ)) :
    (generateSeg vinc center op 0 op.input_height so eo).y_start = 0 ∧
    (generateSeg vinc center op 0 op.input_height so eo).y_end = op.input_height ∧
    (generateSeg vinc center op 0 op.input_height so eo).gcps = op.ground_control_points := by
  have hp : overlapPass op.ground_control_points so eo (0, (op.input_height : Int))
      = (0, (op.input_height : Int)) := by
    apply overlapPass_no_neighbour
    intro g hg
    obtain ⟨h1, h2⟩ := hy g hg
    exact ⟨by simpa using h1, by push_cast; exact le_of_lt h2⟩
  have hu : updateGCPOverlap op ⟨0, op.input_height, 0, 0, []⟩ so eo
      = ⟨0, op.input_height, 0, 0, []⟩ := by
    unfold updateGCPOverlap
    simp only [hp]
    simp
  unfold generateSeg
  simp only [hu]
  refine ⟨trivial, trivial, ?_⟩
  have := filterMap_rebase_zero op.ground_control_points op.input_height
    (fun g hg => by simpa using hy g hg)
  simpa using this

theorem truncInt_natCast (n : Nat) : truncInt (n : ℚ) = (n : Int) := by
  have := truncInt_intCast (n : Int)
  rwa [Int.cast_natCast] at this

theorem single_slice_bounds (op : WarpOperation) :
    sliceStart 1 op 0 = 0 ∧ sliceEnd 1 op 0 = (op.input_height : Int) := by
  constructor
  · simp [sliceStart, truncInt]
  · unfold sliceEnd
    rw [Nat.zero_add, Nat.cast_one, div_one, one_mul]
    exact truncInt_natCast _

theorem single_slice_gcps (op : WarpOperation)
    (hy : ∀ g ∈ op.ground_control_points, (0 : ℚ) ≤ g.y ∧ g.y < (op.input_height : ℚ)) :
    sliceGCPs 1 op 0 = op.ground_control_points := by
  unfold sliceGCPs
  rw [(single_slice_bounds op).1, (single_slice_bounds op).2]
  apply List.filter_eq_self.mpr
  intro g hg
  simpa using hy g hg

theorem candidateRanges_one (vinc : ℚ → ℚ → ℚ → ℚ → ℚ) (op : WarpOperation) :
    candidateRanges vinc 1 op = (sliceCandidates vinc 1 op 0).bind (fun first => some first) := by
  unfold candidateRanges
  have e : Int.toNat ⌈(1 : ℚ)⌉ = 1 := by simp
  rw [e]
  simp [segmentLoop]

/-! ### Segments away from the poles -/

theorem poleOverride_none (vinc : ℚ → ℚ → ℚ → ℚ → ℚ) (l : List GCP) (sh : Int × Int)
    (h : ∀ g ∈ l, ¬ vinc g.lat g.lon (-90) 0 < 1000 ∧ ¬ vinc g.lat g.lon 90 0 < 1000) :
    poleOverride vinc l sh = sh := by
  unfold poleOverride
  apply foldl_fixed
  intro g hg
  obtain ⟨h1, h2⟩ := h g hg
  simp only [h1, h2, if_false]

theorem truncInt_exact_iff (q : ℚ) : ((truncInt q : Int) : ℚ) = q ↔ ∃ k : Int, q = (k : ℚ) := by
  constructor
  · intro h
    exact ⟨truncInt q, h.symm⟩
  · rintro ⟨k, rfl⟩
    rw [truncInt_intCast]

theorem truncInt_neg_exact_iff (q : ℚ) :
    ((truncInt (-q) : Int) : ℚ) = -q ↔ ∃ k : Int, q = (k : ℚ) := by
  rw [truncInt_exact_iff]
  constructor
  · rintro ⟨k, hk⟩
    exact ⟨-k, by push_cast; linarith⟩
  · rintro ⟨k, hk⟩
    exact ⟨-k, by push_cast; linarith⟩

/-! ### The nearest GCP outside a range -/

theorem foldl_pair_split (d1 d2 : GCP → Int) : ∀ (l : List GCP) (m : Int × Int),
    l.foldl (fun (m : Int × Int) g =>
      (if d1 g > 0 ∧ d1 g < m.1 then d1 g else m.1,
       if d2 g > 0 ∧ d2 g < m.2 then d2 g else m.2)) m
    = (l.foldl (fun (m : Int) g => if d1 g > 0 ∧ d1 g < m then d1 g else m) m.1,
       l.foldl (fun (m : Int) g => if d2 g > 0 ∧ d2 g < m then d2 g else m) m.2) := by
  intro l
  induction l with
  | nil => intro m; rfl
  | cons a l ih =>
    intro m
    rw [List.foldl_cons, List.foldl_cons, List.foldl_cons, ih]

theorem foldl_min_spec (d : GCP → Int) : ∀ (l : List GCP) (m0 : Int),
    l.foldl (fun (m : Int) g => if d g > 0 ∧ d g < m then d g else m) m0 ≤ m0 ∧
    (l.foldl (fun (m : Int) g => if d g > 0 ∧ d g < m then d g else m) m0 = m0 ∨
      ∃ g ∈ l, l.foldl (fun (m : Int) g => if d g > 0 ∧ d g < m then d g else m) m0 = d g ∧
        d g > 0) ∧
    (∀ g ∈ l, d g > 0 →
      l.foldl (fun (m : Int) g => if d g > 0 ∧ d g < m then d g else m) m0 ≤ d g) := by
  intro l
  induction l with
  | nil =>
    intro m0
    exact ⟨le_refl _, Or.inl rfl, fun g hg => absurd hg (List.not_mem_nil g)⟩
  | cons a l ih =>
    intro m0
    rw [List.foldl_cons]
    obtain ⟨i1, i2, i3⟩ := ih (if d a > 0 ∧ d a < m0 then d a else m0)
    have hm1 : (if d a > 0 ∧ d a < m0 then d a else m0) ≤ m0 := by
      split
      · omega
      · exact le_refl _
    refine ⟨le_trans i1 hm1, ?_, ?_⟩
    · rcases i2 with h | ⟨g, hg, h1, h2⟩
      · by_cases hc : d a > 0 ∧ d a < m0
        · rw [if_pos hc] at h ⊢
          exact Or.inr ⟨a, List.mem_cons_self _ _, h, hc.1⟩
        · rw [if_neg hc] at h ⊢
          exact Or.inl h
      · exact Or.inr ⟨g, List.mem_cons_of_mem _ hg, h1, h2⟩
    · intro g hg hpos
      rcases List.mem_cons.mp hg with rfl | hg'
      · refine le_trans i1 ?_
        split
        · exact le_refl _
        · rename_i hc
          have : ¬ (d g < m0) := fun h => hc ⟨hpos, h⟩
          omega
      · exact i3 g hg' hpos

theorem overlapPass_eq (gcps : List GCP) (so eo : Bool) (a b : Int) :
    overlapPass gcps so eo (a, b) =
      (if minDiffStart gcps a ≠ INT_MAX ∧ so = true then a - (minDiffStart gcps a + 1) else a,
       if minDiffEnd gcps b ≠ INT_MAX ∧ eo = true then b + (minDiffEnd gcps b + 1) else b) := by
  unfold overlapPass minDiffStart minDiffEnd
  dsimp only
  rw [foldl_pair_split (fun g => truncInt ((a : ℚ) - g.y)) (fun g => truncInt (g.y - (b : ℚ)))]

theorem minDiffStart_pos (gcps : List GCP) (a : Int) : 0 < minDiffStart gcps a := by
  obtain ⟨_, h2, _⟩ := foldl_min_spec (fun g => truncInt ((a : ℚ) - g.y)) gcps INT_MAX
  unfold minDiffStart
  rcases h2 with h | ⟨g, _, h1, h2⟩
  · rw [h]; decide
  · rw [h1]; exact h2

theorem minDiffEnd_pos (gcps : List GCP) (b : Int) : 0 < minDiffEnd gcps b := by
  obtain ⟨_, h2, _⟩ := foldl_min_spec (fun g => truncInt (g.y - (b : ℚ))) gcps INT_MAX
  unfold minDiffEnd
  rcases h2 with h | ⟨g, _, h1, h2⟩
  · rw [h]; decide
  · rw [h1]; exact h2

theorem overlapPass_widens (gcps : List GCP) (so eo : Bool) (a b : Int) :
    (overlapPass gcps so eo (a, b)).1 ≤ a ∧ b ≤ (overlapPass gcps so eo (a, b)).2 := by
  rw [overlapPass_eq]
  have h1 := minDiffStart_pos gcps a
  have h2 := minDiffEnd_pos gcps b
  constructor
  · dsimp only
    split <;> omega
  · dsimp only
    split <;> omega

theorem minDiffStart_nearest (gcps : List GCP) (a : Int) (g : GCP) (k : Int)
    (hint : ∀ g' ∈ gcps, ∃ k' : Int, g'.y = (k' : ℚ))
    (hg : g ∈ gcps) (hk : g.y = (k : ℚ)) (hlt : k < a) (hbig : a - k < INT_MAX)
    (hnear : ∀ g' ∈ gcps, g'.y < (a : ℚ) → g'.y ≤ g.y) :
    minDiffStart gcps a = a - k := by
  obtain ⟨h1, h2, h3⟩ := foldl_min_spec (fun g => truncInt ((a : ℚ) - g.y)) gcps INT_MAX
  unfold minDiffStart
  have dg : truncInt ((a : ℚ) - g.y) = a - k := by
    rw [hk, ← Int.cast_sub, truncInt_intCast]
  have hle := h3 g hg (by rw [dg]; omega)
  rw [dg] at hle
  rcases h2 with h | ⟨g', hg', e1, e2⟩
  · rw [h] at hle; omega
  · obtain ⟨k', hk'⟩ := hint g' hg'
    have dg' : truncInt ((a : ℚ) - g'.y) = a - k' := by
      rw [hk', ← Int.cast_sub, truncInt_intCast]
    rw [dg'] at e1 e2
    have hlt' : g'.y < (a : ℚ) := by
      rw [hk']
      exact_mod_cast (by omega : k' < a)
    have hle' := hnear g' hg' hlt'
    rw [hk', hk] at hle'
    have : k' ≤ k := by exact_mod_cast hle'
    rw [e1] at hle ⊢
    omega

theorem minDiffEnd_nearest (gcps : List GCP) (b : Int) (g : GCP) (k : Int)
    (hint : ∀ g' ∈ gcps, ∃ k' : Int, g'.y = (k' : ℚ))
    (hg : g ∈ gcps) (hk : g.y = (k : ℚ)) (hlt : b < k) (hbig : k - b < INT_MAX)
    (hnear : ∀ g' ∈ gcps, (b : ℚ) < g'.y → g.y ≤ g'.y) :
    minDiffEnd gcps b = k - b := by
  obtain ⟨h1, h2, h3⟩ := foldl_min_spec (fun g => truncInt (g.y - (b : ℚ))) gcps INT_MAX
  unfold minDiffEnd
  have dg : truncInt (g.y - (b : ℚ)) = k - b := by
    rw [hk, ← Int.cast_sub, truncInt_intCast]
  have hle := h3 g hg (by rw [dg]; omega)
  rw [dg] at hle
  rcases h2 with h | ⟨g', hg', e1, e2⟩
  · rw [h] at hle; omega
  · obtain ⟨k', hk'⟩ := hint g' hg'
    have dg' : truncInt (g'.y - (b : ℚ)) = k' - b := by
      rw [hk', ← Int.cast_sub, truncInt_intCast]
    rw [dg'] at e1 e2
    have hlt' : (b : ℚ) < g'.y := by
      rw [hk']
      exact_mod_cast (by omega : b < k')
    have hle' := hnear g' hg' hlt'
    rw [hk', hk] at hle'
    have : k ≤ k' := by exact_mod_cast hle'
    rw [e1] at hle ⊢
    omega

theorem updateGCPOverlap_eq (op : WarpOperation) (scfg : SegmentConfig) (so eo : Bool)
    (a1 b1 a2 b2 : Int)
    (h1 : overlapPass op.ground_control_points so eo (scfg.y_start, scfg.y_end) = (a1, b1))
    (h2 : overlapPass op.ground_control_points so eo (a1, b1) = (a2, b2)) :
    (updateGCPOverlap op scfg so eo).y_start = (if a2 < 0 then 0 else a2) ∧
    (updateGCPOverlap op scfg so eo).y_end
      = (if b2 < 0 ∨ (op.input_height : Int) < b2 then (op.input_height : Int) else b2) := by
  unfold updateGCPOverlap
  simp only [h1, h2]
  exact ⟨trivial, trivial⟩

theorem overlapPass_start_nearest (gcps : List GCP) (eo : Bool) (a b : Int) (g : GCP) (k : Int)
    (hint : ∀ g' ∈ gcps, ∃ k' : Int, g'.y = (k' : ℚ))
    (hg : g ∈ gcps) (hk : g.y = (k : ℚ)) (hlt : k < a) (hbig : a - k < INT_MAX)
    (hnear : ∀ g' ∈ gcps, g'.y < (a : ℚ) → g'.y ≤ g.y) :
    (overlapPass gcps true eo (a, b)).1 = a - ((a - k) + 1) := by
  rw [overlapPass_eq, minDiffStart_nearest gcps a g k hint hg hk hlt hbig hnear]
  dsimp only
  rw [if_pos ⟨by omega, rfl⟩]

theorem overlapPass_end_nearest (gcps : List GCP) (so : Bool) (a b : Int) (g : GCP) (k : Int)
    (hint : ∀ g' ∈ gcps, ∃ k' : Int, g'.y = (k' : ℚ))
    (hg : g ∈ gcps) (hk : g.y = (k : ℚ)) (hlt : b < k) (hbig : k - b < INT_MAX)
    (hnear : ∀ g' ∈ gcps, (b : ℚ) < g'.y → g.y ≤ g'.y) :
    (overlapPass gcps so true (a, b)).2 = b + ((k - b) + 1) := by
  rw [overlapPass_eq, minDiffEnd_nearest gcps b g k hint hg hk hlt hbig hnear]
  dsimp only
  rw [if_pos ⟨by omega, rfl⟩]

/-! ### Folds in `Option` -/

theorem foldlM_flatMap {α β γ : Type} (f : γ → β → Option γ) (g : α → List β) :
    ∀ (l : List α) (s : γ),
      (l.flatMap g).foldlM f s = l.foldlM (fun s a => (g a).foldlM f s) s := by
  intro l
  induction l with
  | nil => intro s; rfl
  | cons a l ih =>
    intro s
    rw [List.flatMap_cons, List.foldlM_append, List.foldlM_cons]
    cases h : List.foldlM f s (g a) with
    | none => rfl
    | some s1 =>
      simp only [Option.bind_eq_bind, Option.some_bind]
      exact ih s1

theorem foldlM_invariant {α β : Type} (f : β → α → Option β) (I : β → Prop) :
    ∀ (l : List α) (s s' : β),
      (∀ a ∈ l, ∀ t t', I t → f t a = some t' → I t') →
      I s → l.foldlM f s = some s' → I s' := by
  intro l
  induction l with
  | nil =>
    intro s s' _ hI h
    simp only [List.foldlM_nil] at h
    cases h
    exact hI
  | cons b l ih =>
    intro s s' hstep hI h
    rw [List.foldlM_cons] at h
    simp only [Option.bind_eq_bind, Option.bind_eq_some] at h
    obtain ⟨s1, h1, h2⟩ := h
    exact ih s1 s' (fun a ha => hstep a (List.mem_cons_of_mem _ ha))
      (hstep b (List.mem_cons_self _ _) s s1 hI h1) h2

theorem foldlM_total {α β : Type} (f : β → α → Option β) (I : β → Prop) :
    ∀ (l : List α) (s : β),
      (∀ a ∈ l, ∀ t, I t → ∃ t', f t a = some t' ∧ I t') →
      I s → ∃ s', l.foldlM f s = some s' ∧ I s' := by
  intro l
  induction l with
  | nil => intro s _ hI; exact ⟨s, rfl, hI⟩
  | cons b l ih =>
    intro s hstep hI
    obtain ⟨s1, h1, hI1⟩ := hstep b (List.mem_cons_self _ _) s hI
    obtain ⟨s', h2, hI'⟩ := ih s1 (fun a ha => hstep a (List.mem_cons_of_mem _ ha)) hI1
    refine ⟨s', ?_, hI'⟩
    rw [List.foldlM_cons, h1]
    exact h2

theorem foldlM_post {α β : Type} (f : β → α → Option β) (I : β → Prop) (Post : α → β → Prop) :
    ∀ (l : List α) (s s' : β), l.Nodup →
      (∀ a ∈ l, ∀ t t', I t → f t a = some t' → I t') →
      (∀ a ∈ l, ∀ t t', I t → f t a = some t' → Post a t') →
      (∀ a ∈ l, ∀ b ∈ l, a ≠ b → ∀ t t', I t → f t b = some t' → Post a t → Post a t') →
      I s → l.foldlM f s = some s' → ∀ a ∈ l, Post a s' := by
  intro l
  induction l with
  | nil => intro s s' _ _ _ _ _ _ a ha; cases ha
  | cons b l ih =>
    intro s s' hnd hI hest hpres hIs h a ha
    rw [List.foldlM_cons] at h
    simp only [Option.bind_eq_bind, Option.bind_eq_some] at h
    obtain ⟨s1, h1, h2⟩ := h
    obtain ⟨hb, hnd'⟩ := List.nodup_cons.mp hnd
    have hI1 : I s1 := hI b (List.mem_cons_self _ _) s s1 hIs h1
    rcases List.mem_cons.mp ha with rfl | hal
    · have hP : Post a s1 := hest a (List.mem_cons_self _ _) s s1 hIs h1
      have key := foldlM_invariant f (fun t => I t ∧ Post a t) l s1 s'
        (fun c hc t t' ht hf =>
          ⟨hI c (List.mem_cons_of_mem _ hc) t t' ht.1 hf,
           hpres a (List.mem_cons_self _ _) c (List.mem_cons_of_mem _ hc)
             (fun e => hb (e ▸ hc)) t t' ht.1 hf ht.2⟩)
        ⟨hI1, hP⟩ h2
      exact key.2
    · exact ih s1 s' hnd'
        (fun c hc => hI c (List.mem_cons_of_mem _ hc))
        (fun c hc => hest c (List.mem_cons_of_mem _ hc))
        (fun c hc d hd => hpres c (List.mem_cons_of_mem _ hc) d (List.mem_cons_of_mem _ hd))
        hI1 h2 a hal

/-! ### The pixels of the loops -/

theorem mem_visitedPixels (w h : Nat) (p : Nat × Nat) :
    p ∈ visitedPixels w h ↔ p.1 < w ∧ p.2 < h := by
  unfold visitedPixels
  rw [List.mem_flatMap]
  constructor
  · rintro ⟨x, hx, hp⟩
    rw [List.mem_map] at hp
    obtain ⟨y, hy, rfl⟩ := hp
    exact ⟨List.mem_range.mp hx, List.mem_range.mp hy⟩
  · rintro ⟨h1, h2⟩
    exact ⟨p.1, List.mem_range.mpr h1, List.mem_map.mpr ⟨p.2, List.mem_range.mpr h2, rfl⟩⟩

theorem nodup_visitedPixels (w h : Nat) : (visitedPixels w h).Nodup := by
  unfold visitedPixels
  rw [List.nodup_flatMap]
  constructor
  · intro x _
    exact (List.nodup_range h).map (fun a b hab => (Prod.mk.inj hab).2)
  · apply (List.nodup_range w).pairwise_of_forall_ne
    intro a _ b _ hab
    intro p hpa hpb
    rw [List.mem_map] at hpa hpb
    obtain ⟨_, _, rfl⟩ := hpa
    obtain ⟨_, _, e⟩ := hpb
    exact hab (Prod.mk.inj e).1.symm

theorem compositeSegment_eq (result result2 : Image) (x2 y2 : Int)
    (hfold : ¬ (x2 = -1 ∨ y2 = -1)) (hch : result2.channels = result.channels) :
    compositeSegment result result2 x2 y2 =
      (visitedPixels (min (result.width : Int) (x2 + result2.width) - x2).toNat
        (min (result.height : Int) (y2 + result2.height) - y2).toNat).foldlM
        (fun r p => compositePixel result2 x2 y2 p.1 p.2 r) result := by
  unfold compositeSegment visitedPixels
  rw [if_pos hfold]
  dsimp only
  rw [if_pos hch, foldlM_flatMap]
  congr 1
  funext r x
  rw [List.foldlM_map]

/-! ### One pixel of the fold -/

theorem Image.set_eq_some (img img' : Image) (ch i v : Nat) (h : img.set ch i v = some img') :
    ch * (img.width * img.height) + i < img.data.length ∧
    img' = { img with data := img.data.set (ch * (img.width * img.height) + i) v } := by
  unfold Image.set at h
  split at h
  · rename_i hlt
    simp only [Option.some.injEq] at h
    exact ⟨hlt, h.symm⟩
  · cases h

theorem Image.set_of_lt (img : Image) (ch i v : Nat)
    (h : ch * (img.width * img.height) + i < img.data.length) :
    img.set ch i v
      = some { img with data := img.data.set (ch * (img.width * img.height) + i) v } := by
  unfold Image.set
  rw [if_pos h]

theorem compositePixel_skip (B : Image) (x2 y2 : Int) (x y : Nat) (r : Image)
    (h : ¬ ((y : Int) + y2 ≥ 0 ∧ (x : Int) + x2 ≥ 0) ∨ B.get 3 (srcIndex B x y) = some 0) :
    compositePixel B x2 y2 x y r = some r := by
  unfold compositePixel
  split
  · rcases h with h | h
    · rename_i hg; exact absurd hg h
    · unfold srcIndex at h
      rw [h]
      rfl
  · rfl

theorem compositePixel_opaque (B : Image) (x2 y2 : Int) (x y : Nat) (r r' : Image) (a : Nat)
    (hg : (y : Int) + y2 ≥ 0 ∧ (x : Int) + x2 ≥ 0)
    (ha : B.get 3 (srcIndex B x y) = some a) (hpos : a > 0)
    (h : compositePixel B x2 y2 x y r = some r') :
    ∃ v0 v1 v2, B.get 0 (srcIndex B x y) = some v0 ∧ B.get 1 (srcIndex B x y) = some v1 ∧
      B.get 2 (srcIndex B x y) = some v2 ∧
      3 * (r.width * r.height) + destIndex r x2 y2 x y < r.data.length ∧
      r' = { r with data :=
        writeSamples r.data (r.width * r.height) (destIndex r x2 y2 x y) v0 v1 v2 } := by
  unfold srcIndex at ha
  unfold compositePixel at h
  rw [if_pos hg] at h
  simp only [ha, Option.bind_eq_bind, Option.some_bind, if_pos hpos, List.foldlM_cons,
    List.foldlM_nil, Option.bind_eq_some, Option.pure_def] at h
  obtain ⟨r3, ⟨r1, ⟨v0, hv0, h0⟩, r2, ⟨v1, hv1, h1⟩, r3', ⟨v2, hv2, h2⟩, e3⟩, h3⟩ := h
  obtain ⟨l0, rfl⟩ := Image.set_eq_some _ _ _ _ _ h0
  obtain ⟨l1, rfl⟩ := Image.set_eq_some _ _ _ _ _ h1
  obtain ⟨l2, rfl⟩ := Image.set_eq_some _ _ _ _ _ h2
  simp only [Option.some.injEq] at e3
  subst e3
  obtain ⟨l3, rfl⟩ := Image.set_eq_some _ _ _ _ _ h3
  simp only [List.length_set] at l3
  exact ⟨v0, v1, v2, hv0, hv1, hv2, l3, rfl⟩

theorem pair_index_lt (a b w h : Nat) (ha : a < h) (hb : b < w) : a * w + b < w * h := by
  have h1 : a * w + b < (a + 1) * w := by rw [Nat.add_mul, Nat.one_mul]; omega
  have h2 : (a + 1) * w ≤ h * w := Nat.mul_le_mul_right w ha
  rw [Nat.mul_comm w h]
  omega

theorem pair_index_inj (a b a' b' w : Nat) (hb : b < w) (hb' : b' < w)
    (h : a * w + b = a' * w + b') : a = a' ∧ b = b' := by
  have hw : 0 < w := by omega
  have e1 : (a * w + b) % w = b := by
    rw [Nat.add_comm, Nat.add_mul_mod_self_right, Nat.mod_eq_of_lt hb]
  have e2 : (a' * w + b') % w = b' := by
    rw [Nat.add_comm, Nat.add_mul_mod_self_right, Nat.mod_eq_of_lt hb']
  have e3 : (a * w + b) / w = a := by
    rw [Nat.add_comm, Nat.add_mul_div_right _ _ hw, Nat.div_eq_of_lt hb, Nat.zero_add]
  have e4 : (a' * w + b') / w = a' := by
    rw [Nat.add_comm, Nat.add_mul_div_right _ _ hw, Nat.div_eq_of_lt hb', Nat.zero_add]
  rw [h] at e1 e3
  exact ⟨by rw [← e3, e4], by rw [← e1, e2]⟩

theorem writeSamples_length (data : List Nat) (wh idx v0 v1 v2 : Nat) :
    (writeSamples data wh idx v0 v1 v2).length = data.length := by
  simp [writeSamples]

theorem writeSamples_other (data : List Nat) (wh idx v0 v1 v2 j : Nat)
    (h0 : j ≠ 0 * wh + idx) (h1 : j ≠ 1 * wh + idx) (h2 : j ≠ 2 * wh + idx)
    (h3 : j ≠ 3 * wh + idx) :
    (writeSamples data wh idx v0 v1 v2)[j]? = data[j]? := by
  unfold writeSamples
  rw [List.getElem?_set_ne (Ne.symm h3), List.getElem?_set_ne (Ne.symm h2),
    List.getElem?_set_ne (Ne.symm h1), List.getElem?_set_ne (Ne.symm h0)]

theorem writeSamples_written (data : List Nat) (wh idx v0 v1 v2 : Nat) (hidx : idx < wh)
    (hlen : 3 * wh + idx < data.length) :
    (writeSamples data wh idx v0 v1 v2)[0 * wh + idx]? = some v0 ∧
    (writeSamples data wh idx v0 v1 v2)[1 * wh + idx]? = some v1 ∧
    (writeSamples data wh idx v0 v1 v2)[2 * wh + idx]? = some v2 ∧
    (writeSamples data wh idx v0 v1 v2)[3 * wh + idx]? = some 65535 := by
  unfold writeSamples
  refine ⟨?_, ?_, ?_, ?_⟩
  · rw [List.getElem?_set_ne (by omega), List.getElem?_set_ne (by omega),
      List.getElem?_set_ne (by omega), List.getElem?_set_self (by omega)]
  · rw [List.getElem?_set_ne (by omega), List.getElem?_set_ne (by omega),
      List.getElem?_set_self (by simp only [List.length_set]; omega)]
  · rw [List.getElem?_set_ne (by omega),
      List.getElem?_set_self (by simp only [List.length_set]; omega)]
  · rw [List.getElem?_set_self (by simp only [List.length_set]; omega)]

theorem inOverlap_bounds (result result2 : Image) (x2 y2 : Int) (x y : Nat)
    (h : inOverlap result result2 x2 y2 x y) :
    x < result2.width ∧ y < result2.height ∧
    0 ≤ (x : Int) + x2 ∧ (x : Int) + x2 < result.width ∧
    0 ≤ (y : Int) + y2 ∧ (y : Int) + y2 < result.height ∧
    srcIndex result2 x y < result2.width * result2.height ∧
    destIndex result x2 y2 x y
      = ((y : Int) + y2).toNat * result.width + ((x : Int) + x2).toNat ∧
    destIndex result x2 y2 x y < result.width * result.height := by
  obtain ⟨h1, h2, h3, h4⟩ := h
  have hx : x < result2.width := by omega
  have hy : y < result2.height := by omega
  have hX : (x : Int) + x2 < result.width := by omega
  have hY : (y : Int) + y2 < result.height := by omega
  have hd : destIndex result x2 y2 x y
      = ((y : Int) + y2).toNat * result.width + ((x : Int) + x2).toNat := by
    unfold destIndex
    have e : ((y : Int) + y2) * result.width + x + x2
        = ((((y : Int) + y2).toNat * result.width + ((x : Int) + x2).toNat : Nat) : Int) := by
      push_cast
      rw [Int.toNat_of_nonneg h3, Int.toNat_of_nonneg h4]
      ring
    rw [e, Int.toNat_natCast]
  refine ⟨hx, hy, h4, hX, h3, hY, ?_, hd, ?_⟩
  · unfold srcIndex
    exact pair_index_lt y x _ _ hy hx
  · rw [hd]
    exact pair_index_lt _ _ _ _ (by omega) (by omega)

theorem destIndex_inj (result result2 : Image) (x2 y2 : Int) (x y x' y' : Nat)
    (h : inOverlap result result2 x2 y2 x y) (h' : inOverlap result result2 x2 y2 x' y')
    (e : destIndex result x2 y2 x y = destIndex result x2 y2 x' y') : x = x' ∧ y = y' := by
  obtain ⟨_, _, b1, b2, b3, b4, _, d, _⟩ := inOverlap_bounds result result2 x2 y2 x y h
  obtain ⟨_, _, c1, c2, c3, c4, _, d', _⟩ := inOverlap_bounds result result2 x2 y2 x' y' h'
  rw [d, d'] at e
  obtain ⟨e1, e2⟩ := pair_index_inj _ _ _ _ _ (by omega) (by omega) e
  constructor <;> omega

theorem destIndex_width (r result : Image) (x2 y2 : Int) (x y : Nat)
    (h : r.width = result.width) : destIndex r x2 y2 x y = destIndex result x2 y2 x y := by
  unfold destIndex
  rw [h]

theorem compositePixel_cases (B : Image) (x2 y2 : Int) (x y : Nat) (r r' : Image)
    (h : compositePixel B x2 y2 x y r = some r') :
    r' = r ∨
    (((y : Int) + y2 ≥ 0 ∧ (x : Int) + x2 ≥ 0) ∧
      ∃ a v0 v1 v2, B.get 3 (srcIndex B x y) = some a ∧ a > 0 ∧
        B.get 0 (srcIndex B x y) = some v0 ∧ B.get 1 (srcIndex B x y) = some v1 ∧
        B.get 2 (srcIndex B x y) = some v2 ∧
        3 * (r.width * r.height) + destIndex r x2 y2 x y < r.data.length ∧
        r' = { r with data :=
          writeSamples r.data (r.width * r.height) (destIndex r x2 y2 x y) v0 v1 v2 }) := by
  by_cases hg : (y : Int) + y2 ≥ 0 ∧ (x : Int) + x2 ≥ 0
  · cases ha : B.get 3 (srcIndex B x y) with
    | none =>
      unfold compositePixel at h
      unfold srcIndex at ha
      rw [if_pos hg, ha] at h
      cases h
    | some a =>
      rcases Nat.eq_zero_or_pos a with h0 | hpos
      · subst h0
        rw [compositePixel_skip B x2 y2 x y r (Or.inr ha)] at h
        cases h
        exact Or.inl rfl
      · obtain ⟨v0, v1, v2, e0, e1, e2, hl, e⟩ :=
          compositePixel_opaque B x2 y2 x y r r' a hg ha hpos h
        exact Or.inr ⟨hg, a, v0, v1, v2, rfl, hpos, e0, e1, e2, hl, e⟩
  · rw [compositePixel_skip B x2 y2 x y r (Or.inl hg)] at h
    cases h
    exact Or.inl rfl

theorem compositePixel_dims (B : Image) (x2 y2 : Int) (x y : Nat) (r r' : Image)
    (h : compositePixel B x2 y2 x y r = some r') :
    r'.width = r.width ∧ r'.height = r.height ∧ r'.channels = r.channels ∧
      r'.data.length = r.data.length := by
  rcases compositePixel_cases B x2 y2 x y r r' h with rfl | ⟨_, a, v0, v1, v2, _, _, _, _, _, _, e⟩
  · exact ⟨rfl, rfl, rfl, rfl⟩
  · subst e
    exact ⟨rfl, rfl, rfl, writeSamples_length _ _ _ _ _ _⟩

theorem target_ne (wh i i' ch ch' : Nat) (hi : i < wh) (hi' : i' < wh) (hne : i ≠ i') :
    ch * wh + i ≠ ch' * wh + i' := by
  intro e
  exact hne (pair_index_inj ch i ch' i' wh hi hi' e).2

theorem mem_visited_inOverlap (result result2 : Image) (x2 y2 : Int) (p : Nat × Nat)
    (hp : p ∈ visitedPixels (min (result.width : Int) (x2 + result2.width) - x2).toNat
      (min (result.height : Int) (y2 + result2.height) - y2).toNat)
    (hg : (p.2 : Int) + y2 ≥ 0 ∧ (p.1 : Int) + x2 ≥ 0) :
    inOverlap result result2 x2 y2 p.1 p.2 := by
  rw [mem_visitedPixels] at hp
  obtain ⟨h1, h2⟩ := hp
  exact ⟨by omega, by omega, hg.1, hg.2⟩

theorem inOverlap_mem_visited (result result2 : Image) (x2 y2 : Int) (x y : Nat)
    (h : inOverlap result result2 x2 y2 x y) :
    (x, y) ∈ visitedPixels (min (result.width : Int) (x2 + result2.width) - x2).toNat
      (min (result.height : Int) (y2 + result2.height) - y2).toNat := by
  rw [mem_visitedPixels]
  obtain ⟨h1, h2, _, _⟩ := h
  constructor
  · show x < _
    omega
  · show y < _
    omega

theorem compositeSegment_skipped (result result2 : Image) (x2 y2 : Int)
    (h : (x2 = -1 ∨ y2 = -1) ∨ result2.channels ≠ result.channels) :
    compositeSegment result result2 x2 y2 = some result := by
  unfold compositeSegment
  by_cases hs : x2 = -1 ∨ y2 = -1
  · rw [if_neg (not_not.mpr hs)]
  · rw [if_pos hs]
    dsimp only
    rcases h with h | h
    · exact absurd h hs
    · rw [if_neg h]

theorem compositeSegment_dims (result result2 : Image) (x2 y2 : Int) (r' : Image)
    (h : compositeSegment result result2 x2 y2 = some r') :
    r'.width = result.width ∧ r'.height = result.height ∧ r'.channels = result.channels ∧
      r'.data.length = result.data.length := by
  by_cases hs : (x2 = -1 ∨ y2 = -1) ∨ result2.channels ≠ result.channels
  · rw [compositeSegment_skipped result result2 x2 y2 hs] at h
    cases h
    exact ⟨rfl, rfl, rfl, rfl⟩
  · rw [not_or, not_not] at hs
    rw [compositeSegment_eq result result2 x2 y2 hs.1 hs.2] at h
    exact foldlM_invariant _
      (fun t => t.width = result.width ∧ t.height = result.height ∧
        t.channels = result.channels ∧ t.data.length = result.data.length) _ result r'
      (fun p _ t t' ht hf => by
        obtain ⟨d1, d2, d3, d4⟩ := compositePixel_dims result2 x2 y2 p.1 p.2 t t' hf
        exact ⟨d1.trans ht.1, d2.trans ht.2.1, d3.trans ht.2.2.1, d4.trans ht.2.2.2⟩)
      ⟨rfl, rfl, rfl, rfl⟩ h

/-! ### The fold of one segment -/

theorem Image.get_with_data (t result : Image) (ht : t.width = result.width ∧ t.height = result.height)
    (d : List Nat) (ch i : Nat) :
    ({ t with data := d } : Image).get ch i = d[ch * (result.width * result.height) + i]? := by
  unfold Image.get
  dsimp only
  rw [ht.1, ht.2]

theorem Image.get_of_dims (t result : Image) (ht : t.width = result.width ∧ t.height = result.height)
    (ch i : Nat) : t.get ch i = t.data[ch * (result.width * result.height) + i]? := by
  unfold Image.get
  rw [ht.1, ht.2]

theorem compositePixel_opaque_dims (B : Image) (x2 y2 : Int) (x y : Nat) (t t' result : Image)
    (a : Nat) (ht : t.width = result.width ∧ t.height = result.height)
    (hg : (y : Int) + y2 ≥ 0 ∧ (x : Int) + x2 ≥ 0)
    (ha : B.get 3 (srcIndex B x y) = some a) (hpos : a > 0)
    (h : compositePixel B x2 y2 x y t = some t') :
    ∃ v0 v1 v2, B.get 0 (srcIndex B x y) = some v0 ∧ B.get 1 (srcIndex B x y) = some v1 ∧
      B.get 2 (srcIndex B x y) = some v2 ∧
      3 * (result.width * result.height) + destIndex result x2 y2 x y < t.data.length ∧
      ∀ ch i, t'.get ch i = (writeSamples t.data (result.width * result.height)
        (destIndex result x2 y2 x y) v0 v1 v2)[ch * (result.width * result.height) + i]? := by
  obtain ⟨v0, v1, v2, e0, e1, e2, hl, e⟩ := compositePixel_opaque B x2 y2 x y t t' a hg ha hpos h
  have hdi := destIndex_width t result x2 y2 x y ht.1
  have hwh : t.width * t.height = result.width * result.height := by rw [ht.1, ht.2]
  rw [hdi, hwh] at e hl
  refine ⟨v0, v1, v2, e0, e1, e2, hl, ?_⟩
  intro ch i
  rw [e]
  exact Image.get_with_data t result ht _ ch i

theorem compositeSegment_written (result result2 : Image) (x2 y2 : Int) (r' : Image)
    (hfold : ¬ (x2 = -1 ∨ y2 = -1)) (hch : result2.channels = result.channels)
    (h : compositeSegment result result2 x2 y2 = some r') :
    ∀ x y a, inOverlap result result2 x2 y2 x y →
      result2.get 3 (srcIndex result2 x y) = some a → a > 0 →
      (∀ ch, ch < 3 → r'.get ch (destIndex result x2 y2 x y)
        = result2.get ch (srcIndex result2 x y)) ∧
      r'.get 3 (destIndex result x2 y2 x y) = some 65535 := by
  rw [compositeSegment_eq result result2 x2 y2 hfold hch] at h
  intro x y a hin ha hpos
  have key := foldlM_post (fun r (p : Nat × Nat) => compositePixel result2 x2 y2 p.1 p.2 r)
    (fun t => t.width = result.width ∧ t.height = result.height)
    (fun p t => inOverlap result result2 x2 y2 p.1 p.2 →
      ∀ a, result2.get 3 (srcIndex result2 p.1 p.2) = some a → a > 0 →
      (∀ ch, ch < 3 → t.get ch (destIndex result x2 y2 p.1 p.2)
        = result2.get ch (srcIndex result2 p.1 p.2)) ∧
      t.get 3 (destIndex result x2 y2 p.1 p.2) = some 65535)
    _ result r' (nodup_visitedPixels _ _)
    (fun p _ t t' ht hf => by
      obtain ⟨d1, d2, _, _⟩ := compositePixel_dims result2 x2 y2 p.1 p.2 t t' hf
      exact ⟨d1.trans ht.1, d2.trans ht.2⟩)
    (fun p _ t t' ht hf hin a ha hpos => by
      obtain ⟨v0, v1, v2, e0, e1, e2, hl, e⟩ := compositePixel_opaque_dims result2 x2 y2
        p.1 p.2 t t' result a ht ⟨hin.2.2.1, hin.2.2.2⟩ ha hpos hf
      obtain ⟨_, _, _, _, _, _, _, _, hd⟩ := inOverlap_bounds result result2 x2 y2 p.1 p.2 hin
      obtain ⟨w0, w1, w2, w3⟩ := writeSamples_written t.data (result.width * result.height)
        (destIndex result x2 y2 p.1 p.2) v0 v1 v2 hd hl
      refine ⟨?_, ?_⟩
      · intro ch hc
        rw [e]
        interval_cases ch
        · rw [w0, e0]
        · rw [w1, e1]
        · rw [w2, e2]
      · rw [e]
        exact w3)
    (fun p hp q hq hne t t' ht hf hP hin a ha hpos => by
      obtain ⟨hv, h3⟩ := hP hin a ha hpos
      by_cases hw : ((q.2 : Int) + y2 ≥ 0 ∧ (q.1 : Int) + x2 ≥ 0) ∧
          ∃ b, result2.get 3 (srcIndex result2 q.1 q.2) = some b ∧ b > 0
      · obtain ⟨hg, b, hb, hbpos⟩ := hw
        obtain ⟨v0, v1, v2, _, _, _, _, e⟩ := compositePixel_opaque_dims result2 x2 y2
          q.1 q.2 t t' result b ht hg hb hbpos hf
        have hinq := mem_visited_inOverlap result result2 x2 y2 q hq hg
        obtain ⟨_, _, _, _, _, _, _, _, hdp⟩ :=
          inOverlap_bounds result result2 x2 y2 p.1 p.2 hin
        obtain ⟨_, _, _, _, _, _, _, _, hdq⟩ :=
          inOverlap_bounds result result2 x2 y2 q.1 q.2 hinq
        have hdne : destIndex result x2 y2 p.1 p.2 ≠ destIndex result x2 y2 q.1 q.2 := by
          intro e'
          obtain ⟨e1, e2⟩ := destIndex_inj result result2 x2 y2 _ _ _ _ hin hinq e'
          exact hne (Prod.ext e1 e2)
        have hother : ∀ ch, t'.get ch (destIndex result x2 y2 p.1 p.2)
            = t.get ch (destIndex result x2 y2 p.1 p.2) := by
          intro ch
          rw [e, Image.get_of_dims t result ht]
          exact writeSamples_other _ _ _ _ _ _ _
            (target_ne _ _ _ _ _ hdp hdq hdne) (target_ne _ _ _ _ _ hdp hdq hdne)
            (target_ne _ _ _ _ _ hdp hdq hdne) (target_ne _ _ _ _ _ hdp hdq hdne)
        exact ⟨fun ch hc => (hother ch).trans (hv ch hc), (hother 3).trans h3⟩
      · rcases compositePixel_cases result2 x2 y2 q.1 q.2 t t' hf with
          rfl | ⟨hg, b, _, _, _, hb, hbpos, _⟩
        · exact ⟨hv, h3⟩
        · exact absurd ⟨hg, b, hb, hbpos⟩ hw)
    ⟨rfl, rfl⟩ h (x, y) (inOverlap_mem_visited result result2 x2 y2 x y hin)
  exact key hin a ha hpos

theorem compositeSegment_frame (result result2 : Image) (x2 y2 : Int) (r' : Image)
    (h : compositeSegment result result2 x2 y2 = some r') (ch i : Nat)
    (hi : i < result.width * result.height)
    (hfree : ∀ x y a, inOverlap result result2 x2 y2 x y →
      result2.get 3 (srcIndex result2 x y) = some a → a > 0 →
      destIndex result x2 y2 x y ≠ i) :
    r'.get ch i = result.get ch i := by
  by_cases hs : (x2 = -1 ∨ y2 = -1) ∨ result2.channels ≠ result.channels
  · rw [compositeSegment_skipped result result2 x2 y2 hs] at h
    cases h
    rfl
  · rw [not_or, not_not] at hs
    rw [compositeSegment_eq result result2 x2 y2 hs.1 hs.2] at h
    have key := foldlM_invariant
      (fun r (p : Nat × Nat) => compositePixel result2 x2 y2 p.1 p.2 r)
      (fun t => (t.width = result.width ∧ t.height = result.height) ∧
        t.get ch i = result.get ch i) _ result r'
      (fun q hq t t' ht hf => by
        obtain ⟨d1, d2, _, _⟩ := compositePixel_dims result2 x2 y2 q.1 q.2 t t' hf
        refine ⟨⟨d1.trans ht.1.1, d2.trans ht.1.2⟩, ?_⟩
        by_cases hw : ((q.2 : Int) + y2 ≥ 0 ∧ (q.1 : Int) + x2 ≥ 0) ∧
            ∃ b, result2.get 3 (srcIndex result2 q.1 q.2) = some b ∧ b > 0
        · obtain ⟨hg, b, hb, hbpos⟩ := hw
          obtain ⟨v0, v1, v2, _, _, _, _, e⟩ := compositePixel_opaque_dims result2 x2 y2
            q.1 q.2 t t' result b ht.1 hg hb hbpos hf
          have hinq := mem_visited_inOverlap result result2 x2 y2 q hq hg
          obtain ⟨_, _, _, _, _, _, _, _, hdq⟩ :=
            inOverlap_bounds result result2 x2 y2 q.1 q.2 hinq
          have hne := hfree q.1 q.2 b hinq hb hbpos
          rw [← ht.2, e, Image.get_of_dims t result ht.1]
          exact writeSamples_other _ _ _ _ _ _ _
            (target_ne _ _ _ _ _ hi hdq (Ne.symm hne)) (target_ne _ _ _ _ _ hi hdq (Ne.symm hne))
            (target_ne _ _ _ _ _ hi hdq (Ne.symm hne)) (target_ne _ _ _ _ _ hi hdq (Ne.symm hne))
        · rcases compositePixel_cases result2 x2 y2 q.1 q.2 t t' hf with
            rfl | ⟨hg, b, _, _, _, hb, hbpos, _⟩
          · exact ht.2
          · exact absurd ⟨hg, b, hb, hbpos⟩ hw)
      ⟨⟨rfl, rfl⟩, rfl⟩ h
    exact key.2

/-! ### The fold never leaves the sample buffers -/

theorem Image.get_some_of_lt (img : Image) (ch i : Nat)
    (h : ch * (img.width * img.height) + i < img.data.length) : ∃ v, img.get ch i = some v :=
  ⟨_, List.getElem?_eq_getElem h⟩

theorem compositePixel_write (B : Image) (x2 y2 : Int) (x y : Nat) (t : Image) (a v0 v1 v2 : Nat)
    (hg : (y : Int) + y2 ≥ 0 ∧ (x : Int) + x2 ≥ 0)
    (ha : B.get 3 (srcIndex B x y) = some a) (hpos : a > 0)
    (e0 : B.get 0 (srcIndex B x y) = some v0) (e1 : B.get 1 (srcIndex B x y) = some v1)
    (e2 : B.get 2 (srcIndex B x y) = some v2)
    (hlen : 3 * (t.width * t.height) + destIndex t x2 y2 x y < t.data.length) :
    ∃ t', compositePixel B x2 y2 x y t = some t' := by
  unfold srcIndex at ha e0 e1 e2
  unfold destIndex at hlen
  unfold compositePixel
  rw [if_pos hg]
  simp only [ha, e0, e1, e2, Option.bind_eq_bind, Option.some_bind, if_pos hpos,
    List.foldlM_cons, List.foldlM_nil, Option.pure_def]
  rw [Image.set_of_lt _ _ _ _ (by omega)]
  simp only [Option.some_bind]
  rw [Image.set_of_lt _ _ _ _ (by simp only [List.length_set]; omega)]
  simp only [Option.some_bind]
  rw [Image.set_of_lt _ _ _ _ (by simp only [List.length_set]; omega)]
  simp only [Option.some_bind]
  rw [Image.set_of_lt _ _ _ _ (by simp only [List.length_set]; omega)]
  exact ⟨_, rfl⟩

theorem compositePixel_total (B : Image) (x2 y2 : Int) (t result : Image) (p : Nat × Nat)
    (hp : p ∈ visitedPixels (min (result.width : Int) (x2 + B.width) - x2).toNat
      (min (result.height : Int) (y2 + B.height) - y2).toNat)
    (ht : t.width = result.width ∧ t.height = result.height)
    (hB : 4 * (B.width * B.height) ≤ B.data.length)
    (hT : 4 * (result.width * result.height) ≤ t.data.length) :
    ∃ t', compositePixel B x2 y2 p.1 p.2 t = some t' := by
  by_cases hg : (p.2 : Int) + y2 ≥ 0 ∧ (p.1 : Int) + x2 ≥ 0
  · have hin := mem_visited_inOverlap result B x2 y2 p hp hg
    obtain ⟨_, _, _, _, _, _, hsrc, _, hd⟩ := inOverlap_bounds result B x2 y2 p.1 p.2 hin
    obtain ⟨a, ha⟩ := Image.get_some_of_lt B 3 (srcIndex B p.1 p.2) (by omega)
    obtain ⟨v0, e0⟩ := Image.get_some_of_lt B 0 (srcIndex B p.1 p.2) (by omega)
    obtain ⟨v1, e1⟩ := Image.get_some_of_lt B 1 (srcIndex B p.1 p.2) (by omega)
    obtain ⟨v2, e2⟩ := Image.get_some_of_lt B 2 (srcIndex B p.1 p.2) (by omega)
    rcases Nat.eq_zero_or_pos a with h0 | hpos
    · subst h0
      exact ⟨t, compositePixel_skip B x2 y2 p.1 p.2 t (Or.inr ha)⟩
    · apply compositePixel_write B x2 y2 p.1 p.2 t a v0 v1 v2 hg ha hpos e0 e1 e2
      rw [destIndex_width t result x2 y2 p.1 p.2 ht.1, ht.1, ht.2]
      omega
  · exact ⟨t, compositePixel_skip B x2 y2 p.1 p.2 t (Or.inl hg)⟩

theorem compositeSegment_total (result result2 : Image) (x2 y2 : Int)
    (hB : 4 * (result2.width * result2.height) ≤ result2.data.length)
    (hR : 4 * (result.width * result.height) ≤ result.data.length) :
    ∃ r', compositeSegment result result2 x2 y2 = some r' := by
  by_cases hs : (x2 = -1 ∨ y2 = -1) ∨ result2.channels ≠ result.channels
  · exact ⟨result, compositeSegment_skipped result result2 x2 y2 hs⟩
  · rw [not_or, not_not] at hs
    rw [compositeSegment_eq result result2 x2 y2 hs.1 hs.2]
    obtain ⟨r', h, _⟩ := foldlM_total
      (fun r (p : Nat × Nat) => compositePixel result2 x2 y2 p.1 p.2 r)
      (fun t => (t.width = result.width ∧ t.height = result.height) ∧
        4 * (result.width * result.height) ≤ t.data.length) _ result
      (fun p hp t ht => by
        obtain ⟨t', hf⟩ := compositePixel_total result2 x2 y2 t result p hp ht.1 hB ht.2
        obtain ⟨d1, d2, _, d4⟩ := compositePixel_dims result2 x2 y2 p.1 p.2 t t' hf
        exact ⟨t', hf, ⟨d1.trans ht.1.1, d2.trans ht.1.2⟩, by rw [d4]; exact ht.2⟩)
      ⟨⟨rfl, rfl⟩, hR⟩
    exact ⟨r', h⟩

/-! ### The mosaic -/

theorem newImage_dims (w h c : Int) (img : Image) (hn : newImage w h c = some img) :
    (img.width : Int) = w ∧ (img.height : Int) = h := by
  unfold newImage at hn
  split at hn
  · cases hn
  · rename_i hneg
    simp only [Option.some.injEq] at hn
    subst hn
    dsimp only
    constructor <;> omega

theorem compositeStep_keeps (warp : WarpOperation → SegmentConfig → WarpResult)
    (forward : ℚ → ℚ → Int × Int) (op : WarpOperation) (r r' : WarpResult)
    (s : SegmentConfig) (h : compositeStep warp forward op r s = some r') :
    r'.top_left = r.top_left ∧ r'.top_right = r.top_right ∧
    r'.bottom_left = r.bottom_left ∧ r'.bottom_right = r.bottom_right ∧
    r'.output_image.width = r.output_image.width ∧
    r'.output_image.height = r.output_image.height ∧
    r'.output_image.channels = r.output_image.channels := by
  unfold compositeStep at h
  simp only [Option.bind_eq_bind, Option.bind_eq_some, Option.some.injEq] at h
  obtain ⟨img, himg, rfl⟩ := h
  obtain ⟨d1, d2, d3, _⟩ := compositeSegment_dims _ _ _ _ _ himg
  exact ⟨rfl, rfl, rfl, rfl, d1, d2, d3⟩

theorem compositeFold_keeps (warp : WarpOperation → SegmentConfig → WarpResult)
    (forward : ℚ → ℚ → Int × Int) (op : WarpOperation) (segs : List SegmentConfig)
    (r r' : WarpResult) (h : segs.foldlM (compositeStep warp forward op) r = some r') :
    r'.top_left = r.top_left ∧ r'.top_right = r.top_right ∧
    r'.bottom_left = r.bottom_left ∧ r'.bottom_right = r.bottom_right ∧
    r'.output_image.width = r.output_image.width ∧
    r'.output_image.height = r.output_image.height ∧
    r'.output_image.channels = r.output_image.channels :=
  foldlM_invariant (compositeStep warp forward op)
    (fun t => t.top_left = r.top_left ∧ t.top_right = r.top_right ∧
      t.bottom_left = r.bottom_left ∧ t.bottom_right = r.bottom_right ∧
      t.output_image.width = r.output_image.width ∧
      t.output_image.height = r.output_image.height ∧
      t.output_image.channels = r.output_image.channels) segs r r'
    (fun s _ t t' ht hf => by
      obtain ⟨k1, k2, k3, k4, k5, k6, k7⟩ := compositeStep_keeps warp forward op t t' s hf
      obtain ⟨i1, i2, i3, i4, i5, i6, i7⟩ := ht
      exact ⟨k1.trans i1, k2.trans i2, k3.trans i3, k4.trans i4, k5.trans i5, k6.trans i6,
        k7.trans i7⟩)
    ⟨rfl, rfl, rfl, rfl, rfl, rfl, rfl⟩ h

theorem inOverlap_dims (r result result2 : Image) (x2 y2 : Int) (x y : Nat)
    (hw : r.width = result.width) (hh : r.height = result.height) :
    inOverlap r result2 x2 y2 x y ↔ inOverlap result result2 x2 y2 x y := by
  unfold inOverlap
  rw [hw, hh]

/-! ### Unflagged boundaries and the rebased GCPs -/

theorem overlapPass_start_unflagged (gcps : List GCP) (eo : Bool) (a b : Int) :
    (overlapPass gcps false eo (a, b)).1 = a := by
  rw [overlapPass_eq]
  simp

theorem overlapPass_end_unflagged (gcps : List GCP) (so : Bool) (a b : Int) :
    (overlapPass gcps so false (a, b)).2 = b := by
  rw [overlapPass_eq]
  simp

theorem updateGCPOverlap_start_unflagged (op : WarpOperation) (scfg : SegmentConfig) (eo : Bool)
    (h : 0 ≤ scfg.y_start) : (updateGCPOverlap op scfg false eo).y_start = scfg.y_start := by
  cases h1 : overlapPass op.ground_control_points false eo (scfg.y_start, scfg.y_end) with
  | mk a1 b1 =>
    cases h2 : overlapPass op.ground_control_points false eo (a1, b1) with
    | mk a2 b2 =>
      have w1 := overlapPass_start_unflagged op.ground_control_points eo scfg.y_start scfg.y_end
      have w2 := overlapPass_start_unflagged op.ground_control_points eo a1 b1
      rw [h1] at w1
      rw [h2] at w2
      dsimp only at w1 w2
      rw [(updateGCPOverlap_eq op scfg false eo a1 b1 a2 b2 h1 h2).1, if_neg (by omega)]
      omega

theorem updateGCPOverlap_end_unflagged (op : WarpOperation) (scfg : SegmentConfig) (so : Bool)
    (h0 : 0 ≤ scfg.y_end) (h1 : scfg.y_end ≤ (op.input_height : Int)) :
    (updateGCPOverlap op scfg so false).y_end = scfg.y_end := by
  cases e1 : overlapPass op.ground_control_points so false (scfg.y_start, scfg.y_end) with
  | mk a1 b1 =>
    cases e2 : overlapPass op.ground_control_points so false (a1, b1) with
    | mk a2 b2 =>
      have w1 := overlapPass_end_unflagged op.ground_control_points so scfg.y_start scfg.y_end
      have w2 := overlapPass_end_unflagged op.ground_control_points so a1 b1
      rw [e1] at w1
      rw [e2] at w2
      dsimp only at w1 w2
      rw [(updateGCPOverlap_eq op scfg so false a1 b1 a2 b2 e1 e2).2, if_neg (by omega)]
      omega

theorem updateGCPOverlap_widens (op : WarpOperation) (scfg : SegmentConfig) (so eo : Bool)
    (h : 0 ≤ scfg.y_start ∧ scfg.y_start ≤ scfg.y_end ∧ scfg.y_end ≤ (op.input_height : Int)) :
    (updateGCPOverlap op scfg so eo).y_start ≤ scfg.y_start ∧
    scfg.y_end ≤ (updateGCPOverlap op scfg so eo).y_end := by
  cases h1 : overlapPass op.ground_control_points so eo (scfg.y_start, scfg.y_end) with
  | mk a1 b1 =>
    cases h2 : overlapPass op.ground_control_points so eo (a1, b1) with
    | mk a2 b2 =>
      have w1 := overlapPass_widens op.ground_control_points so eo scfg.y_start scfg.y_end
      have w2 := overlapPass_widens op.ground_control_points so eo a1 b1
      rw [h1] at w1
      rw [h2] at w2
      dsimp only at w1 w2
      obtain ⟨e1, e2⟩ := updateGCPOverlap_eq op scfg so eo a1 b1 a2 b2 h1 h2
      rw [e1, e2]
      constructor
      · split <;> omega
      · split <;> omega

theorem sliceCandidates_pair (vinc : ℚ → ℚ → ℚ → ℚ → ℚ) (nsegs : ℚ) (op : WarpOperation)
    (k : Nat) (c1 c2 : Candidate) (h : sliceCandidates vinc nsegs op k = some [c1, c2]) :
    ∃ (v : Vec GCP) (c : Int),
      filterGCPs (Vec.ofList (sortGCPs op.input_width (sliceGCPs nsegs op k))) = some v ∧
      cutLoop vinc (sizeMinusOne v.size) 0 v (-1) = some c ∧ c ≠ -1 ∧
      c1 = ⟨sliceStart nsegs op k, c, true, false⟩ ∧
      c2 = ⟨c, sliceEnd nsegs op k, false, true⟩ := by
  rw [sliceCandidates_eq] at h
  simp only [Option.bind_eq_some] at h
  obtain ⟨v, hv, c, hc, hif⟩ := h
  split at hif
  · rename_i hne
    simp only [Option.some.injEq, List.cons.injEq, and_true] at hif
    exact ⟨v, c, hv, hc, hne, hif.1.symm, hif.2.symm⟩
  · simp at hif

theorem filterMap_rebase (l : List GCP) (a b : Int) :
    l.filterMap (fun gcp =>
      if gcp.y ≥ (a : ℚ) ∧ gcp.y < (b : ℚ) then some { gcp with y := gcp.y - (a : ℚ) }
      else none)
    = (l.filter (fun gcp => gcp.y ≥ (a : ℚ) ∧ gcp.y < (b : ℚ))).map
        (fun gcp => { gcp with y := gcp.y - (a : ℚ) }) := by
  induction l with
  | nil => rfl
  | cons g t ih =>
    by_cases hg : g.y ≥ (a : ℚ) ∧ g.y < (b : ℚ)
    · simp only [List.filterMap_cons, if_pos hg, List.filter_cons, decide_eq_true hg, if_true,
        List.map_cons, ih]
    · simp only [List.filterMap_cons, if_neg hg, List.filter_cons, decide_eq_false hg, ih]
      simp

theorem generateSeg_gcps (vinc : ℚ → ℚ → ℚ → ℚ → ℚ) (center : List GCP → ℚ × ℚ)
    (op : WarpOperation) (a b : Int) (so eo : Bool) :
    (generateSeg vinc center op a b so eo).gcps
      = (op.ground_control_points.filter (fun gcp =>
            gcp.y ≥ ((generateSeg vinc center op a b so eo).y_start : ℚ) ∧
            gcp.y < ((generateSeg vinc center op a b so eo).y_end : ℚ))).map
          (fun gcp =>
            { gcp with y := gcp.y - ((generateSeg vinc center op a b so eo).y_start : ℚ) }) :=
  filterMap_rebase _ _ _

/-! ### A cut lies strictly inside its slice -/

theorem key_le_imp_y_le (w : Nat) (a b : GCP) (ka kb : Int) (ha : a.y = (ka : ℚ))
    (hb : b.y = (kb : ℚ)) (hax : 0 ≤ a.x) (hbx : b.x < (w : ℚ))
    (h : a.y * w + a.x ≤ b.y * w + b.x) : a.y ≤ b.y := by
  by_contra hlt
  rw [not_le, ha, hb] at hlt
  have h1 : kb + 1 ≤ ka := by exact_mod_cast hlt
  have h2 : (kb : ℚ) + 1 ≤ (ka : ℚ) := by exact_mod_cast h1
  have hw : (0 : ℚ) ≤ (w : ℚ) := Nat.cast_nonneg w
  have h3 := mul_le_mul_of_nonneg_right h2 hw
  rw [ha, hb] at h
  linarith

theorem sortGCPs_pairwise_y (w : Nat) (l : List GCP)
    (hint : ∀ g ∈ l, (∃ k : Int, g.y = (k : ℚ)) ∧ 0 ≤ g.x ∧ g.x < (w : ℚ)) :
    (sortGCPs w l).Pairwise (fun a b => a.y ≤ b.y) := by
  haveI : IsTotal GCP (fun el1 el2 => el1.y * w + el1.x ≤ el2.y * w + el2.x) :=
    ⟨fun a b => le_total _ _⟩
  haveI : IsTrans GCP (fun el1 el2 => el1.y * w + el1.x ≤ el2.y * w + el2.x) :=
    ⟨fun a b c h1 h2 => le_trans h1 h2⟩
  have hs : (sortGCPs w l).Pairwise
      (fun el1 el2 : GCP => el1.y * w + el1.x ≤ el2.y * w + el2.x) :=
    List.sorted_insertionSort (fun el1 el2 : GCP => el1.y * w + el1.x ≤ el2.y * w + el2.x) l
  refine List.Pairwise.imp_of_mem ?_ hs
  intro a b ha hb hab
  obtain ⟨⟨ka, hka⟩, hax, _⟩ := hint a ((mem_sortGCPs w l a).mp ha)
  obtain ⟨⟨kb, hkb⟩, _, hbx⟩ := hint b ((mem_sortGCPs w l b).mp hb)
  exact key_le_imp_y_le w a b ka kb hka hkb hax hbx hab

theorem keptAfterFirst_gt : ∀ (l : List GCP), l.Pairwise (fun a b => a.y ≤ b.y) →
    ∀ g ∈ keptAfterFirst l, ∃ g0 ∈ l, g0.y < g.y := by
  intro l
  induction l with
  | nil => intro _ g hg; simp [keptAfterFirst] at hg
  | cons g1 t ih =>
    intro hp g hg
    cases t with
    | nil => simp [keptAfterFirst] at hg
    | cons g2 rest =>
      have hp2 : (g2 :: rest).Pairwise (fun a b => a.y ≤ b.y) := (List.pairwise_cons.mp hp).2
      have h12 : g1.y ≤ g2.y := (List.pairwise_cons.mp hp).1 g2 (List.mem_cons_self _ _)
      have lift : (∃ g0 ∈ g2 :: rest, g0.y < g.y) → ∃ g0 ∈ g1 :: g2 :: rest, g0.y < g.y :=
        fun ⟨g0, h0, hlt⟩ => ⟨g0, List.mem_cons_of_mem _ h0, hlt⟩
      simp only [keptAfterFirst] at hg
      by_cases hne : g1.y ≠ g2.y
      · rw [if_pos hne] at hg
        rcases List.mem_cons.mp hg with rfl | hg'
        · exact ⟨g1, List.mem_cons_self _ _, lt_of_le_of_ne h12 hne⟩
        · exact lift (ih hp2 g hg')
      · rw [if_neg hne] at hg
        exact lift (ih hp2 g hg)

theorem cutOf_result (vinc : ℚ → ℚ → ℚ → ℚ → ℚ) : ∀ (l : List GCP) (c : Int),
    cutOf vinc l c = c ∨ ∃ g ∈ l, cutOf vinc l c = truncInt g.y := by
  intro l
  induction l with
  | nil => intro c; exact Or.inl rfl
  | cons g1 t ih =>
    intro c
    cases t with
    | nil => exact Or.inl rfl
    | cons g2 rest =>
      simp only [cutOf]
      rcases ih (if vinc g1.lat g1.lon g2.lat g2.lon > 2000 then truncInt g2.y else c) with
        h | ⟨g, hg, h⟩
      · rw [h]
        split
        · exact Or.inr ⟨g2, by simp, rfl⟩
        · exact Or.inl rfl
      · exact Or.inr ⟨g, List.mem_cons_of_mem _ hg, h⟩

theorem cutLoop_some_bound (vinc : ℚ → ℚ → ℚ → ℚ → ℚ) : ∀ (n y : Nat) (v : Vec GCP) (c c' : Int),
    cutLoop vinc n y v c = some c' → n = 0 ∨ y + n < v.buf.length := by
  intro n
  induction n with
  | zero => intro y v c c' _; exact Or.inl rfl
  | succ n ih =>
    intro y v c c' h
    simp only [cutLoop, Option.bind_eq_bind, Option.bind_eq_some] at h
    obtain ⟨g1, _, g2, h2, hrec⟩ := h
    have hlt : y + 1 < v.buf.length := Vec.lt_of_get v (y + 1) g2 h2
    rcases ih (y + 1) v _ c' hrec with h0 | hb
    · subst h0; exact Or.inr hlt
    · exact Or.inr (by omega)

theorem slice_cut_strictly_inside (vinc : ℚ → ℚ → ℚ → ℚ → ℚ) (nsegs : ℚ) (op : WarpOperation)
    (k : Nat)
    (hint : ∀ g ∈ op.ground_control_points,
      (∃ j : Int, g.y = (j : ℚ)) ∧ 0 ≤ g.x ∧ g.x < (op.input_width : ℚ))
    (hlen : op.ground_control_points.length < SIZE_MOD) (v : Vec GCP) (c : Int)
    (hv : filterGCPs (Vec.ofList (sortGCPs op.input_width (sliceGCPs nsegs op k))) = some v)
    (hc : cutLoop vinc (sizeMinusOne v.size) 0 v (-1) = some c) (hne : c ≠ -1) :
    sliceStart nsegs op k < c ∧ c < sliceEnd nsegs op k := by
  have hsub : ∀ g ∈ sliceGCPs nsegs op k, g ∈ op.ground_control_points :=
    fun g hg => List.mem_of_mem_filter hg
  have hsl : (sortGCPs op.input_width (sliceGCPs nsegs op k)).length < SIZE_MOD := by
    rw [sortGCPs, List.length_insertionSort]
    exact lt_of_le_of_lt (sliceGCPs_length_le nsegs op k) hlen
  obtain ⟨hb, hs⟩ := filterGCPs_inv _ hsl v hv
  have hl0 : 0 < (sortGCPs op.input_width (sliceGCPs nsegs op k)).length := by omega
  obtain ⟨v', hv', hkept⟩ := filterGCPs_spec _ hl0 hsl
  rw [hv] at hv'
  cases hv'
  have hsize : 1 ≤ v.size := by
    by_contra hz
    have hz' : v.size = 0 := by omega
    rw [hz', sizeMinusOne_zero] at hc
    rcases cutLoop_some_bound vinc _ _ v _ c hc with h0 | hbd
    · unfold SIZE_MOD at h0; omega
    · unfold SIZE_MOD at hbd hsl; omega
  rw [slice_cut_of_filter vinc nsegs op k hlen v hv hsize, Option.some.injEq] at hc
  rcases cutOf_result vinc v.toList (-1) with h1 | ⟨g, hg, h1⟩
  · exact absurd (hc.symm.trans h1) hne
  · rw [hkept] at hg
    have hp := sortGCPs_pairwise_y op.input_width (sliceGCPs nsegs op k)
      (fun g hg => hint g (hsub g hg))
    obtain ⟨g0, hg0, hlt⟩ := keptAfterFirst_gt _ hp g hg
    have hg0s : g0 ∈ sliceGCPs nsegs op k := (mem_sortGCPs _ _ g0).mp hg0
    have hgs : g ∈ sliceGCPs nsegs op k := by
      have h2 : g ∈ v.buf := by
        have h3 : g ∈ v.toList := by rw [hkept]; exact hg
        exact List.mem_of_mem_take h3
      exact (mem_sortGCPs _ _ g).mp (filterGCPs_mem _ _ hv g h2)
    obtain ⟨⟨j, hj⟩, _, _⟩ := hint g (hsub g hgs)
    obtain ⟨lo, _⟩ := mem_sliceGCPs nsegs op k g0 hg0s
    obtain ⟨_, hi⟩ := mem_sliceGCPs nsegs op k g hgs
    have hcj : c = j := by rw [← hc, h1, hj, truncInt_intCast]
    rw [hj] at hlt hi
    have a1 : ((sliceStart nsegs op k : Int) : ℚ) < (j : ℚ) := lt_of_le_of_lt lo hlt
    rw [hcj]
    exact ⟨by exact_mod_cast a1, by exact_mod_cast hi⟩

/-! ### The element at index `size / 2` of a sorted list -/

theorem sorted_countP_le (s : List ℚ) (hs : s.Sorted (fun a b => a ≤ b)) (k : Nat)
    (hk : k < s.length) : k + 1 ≤ s.countP (fun d => d ≤ s[k]) := by
  have hall : ∀ d ∈ s.take (k + 1), (decide (d ≤ s[k])) = true := by
    intro d hd
    obtain ⟨i, hi, rfl⟩ := List.getElem_of_mem hd
    rw [List.length_take] at hi
    rw [List.getElem_take, decide_eq_true_eq]
    exact hs.rel_get_of_le (show (⟨i, by omega⟩ : Fin s.length) ≤ ⟨k, hk⟩ from by
      rw [Fin.mk_le_mk]; omega)
  have h1 : (s.take (k + 1)).countP (fun d => d ≤ s[k]) = (s.take (k + 1)).length :=
    List.countP_eq_length.mpr hall
  have h2 : s.countP (fun d => d ≤ s[k])
      = (s.take (k + 1)).countP (fun d => d ≤ s[k])
        + (s.drop (k + 1)).countP (fun d => d ≤ s[k]) := by
    rw [← List.countP_append, List.take_append_drop]
  rw [h2, h1, List.length_take]
  omega

theorem sorted_countP_ge (s : List ℚ) (hs : s.Sorted (fun a b => a ≤ b)) (k : Nat)
    (hk : k < s.length) : s.length - k ≤ s.countP (fun d => s[k] ≤ d) := by
  have hall : ∀ d ∈ s.drop k, (decide (s[k] ≤ d)) = true := by
    intro d hd
    obtain ⟨i, hi, rfl⟩ := List.getElem_of_mem hd
    rw [List.length_drop] at hi
    rw [List.getElem_drop, decide_eq_true_eq]
    exact hs.rel_get_of_le (show (⟨k, hk⟩ : Fin s.length) ≤ ⟨k + i, by omega⟩ from by
      rw [Fin.mk_le_mk]; omega)
  have h1 : (s.drop k).countP (fun d => s[k] ≤ d) = (s.drop k).length :=
    List.countP_eq_length.mpr hall
  have h2 : s.countP (fun d => s[k] ≤ d)
      = (s.take k).countP (fun d => s[k] ≤ d) + (s.drop k).countP (fun d => s[k] ≤ d) := by
    rw [← List.countP_append, List.take_append_drop]
  rw [h2, h1, List.length_drop]
  omega

theorem sorted_distances (ds : List ℚ) :
    (ds.insertionSort (fun a b => a ≤ b)).Sorted (fun a b => a ≤ b) :=
  List.sorted_insertionSort (fun a b : ℚ => a ≤ b) ds

theorem medianOf_eq (ds : List ℚ) (hm : 1 ≤ ds.length) :
    ∃ (med : ℚ) (hk : ds.length / 2 < (ds.insertionSort (fun a b => a ≤ b)).length),
      medianOf ds = some med ∧ med = (ds.insertionSort (fun a b => a ≤ b))[ds.length / 2] := by
  have hk : ds.length / 2 < (ds.insertionSort (fun a b => a ≤ b)).length := by
    rw [List.length_insertionSort]; omega
  exact ⟨_, hk, List.getElem?_eq_getElem hk, rfl⟩

theorem medianOf_counts (ds : List ℚ) (med : ℚ) (h : medianOf ds = some med) :
    ds.length ≤ 2 * ds.countP (fun d => d ≤ med) ∧
    ds.length ≤ 2 * ds.countP (fun d => med ≤ d) := by
  unfold medianOf at h
  obtain ⟨hk, rfl⟩ := List.getElem?_eq_some_iff.mp h
  have hp := List.perm_insertionSort (fun a b : ℚ => a ≤ b) ds
  have hl : (ds.insertionSort (fun a b => a ≤ b)).length = ds.length :=
    List.length_insertionSort _ _
  have c1 := sorted_countP_le _ (sorted_distances ds) _ hk
  have c2 := sorted_countP_ge _ (sorted_distances ds) _ hk
  rw [hp.countP_eq] at c1 c2
  rw [hl] at c2
  constructor <;> omega

/-! ### Two passes of the expansion step -/

theorem nearestBelow_none (pos : GCP → Int) (l : List GCP) (x : Int)
    (h : ∀ g ∈ l, ¬ pos g < x) : nearestBelow pos l x = INT_MAX := by
  obtain ⟨_, h2, _⟩ := foldl_min_spec (fun g => x - pos g) l INT_MAX
  unfold nearestBelow
  rcases h2 with e | ⟨g, hg, _, hpos⟩
  · exact e
  · exact absurd (by omega : pos g < x) (h g hg)

theorem nearestBelow_some (pos : GCP → Int) (l : List GCP) (x : Int)
    (hb : ∀ g ∈ l, x - pos g < INT_MAX) (h : ∃ g ∈ l, pos g < x) :
    ∃ g ∈ l, pos g < x ∧ nearestBelow pos l x = x - pos g ∧
      ∀ g' ∈ l, pos g' < x → pos g' ≤ pos g := by
  obtain ⟨_, h2, h3⟩ := foldl_min_spec (fun g => x - pos g) l INT_MAX
  unfold nearestBelow
  obtain ⟨g0, hg0, hlt0⟩ := h
  have hle0 := h3 g0 hg0 (by omega)
  have hb0 := hb g0 hg0
  rcases h2 with e | ⟨g, hg, e, hpos⟩
  · rw [e] at hle0; omega
  · refine ⟨g, hg, by omega, e, ?_⟩
    intro g' hg' hlt'
    have hle' := h3 g' hg' (by omega)
    rw [e] at hle'
    omega

theorem nearestBelow_two_passes (pos : GCP → Int) (l : List GCP) (x k1 k2 x1 x2 : Int)
    (hb : ∀ g ∈ l, ∀ x', x' ≤ x → x' - pos g < INT_MAX)
    (h2 : ∀ g ∈ l, pos g < x → pos g = k1 ∨ pos g = k2)
    (e1 : x1 = if nearestBelow pos l x ≠ INT_MAX then x - (nearestBelow pos l x + 1) else x)
    (e2 : x2 = if nearestBelow pos l x1 ≠ INT_MAX then x1 - (nearestBelow pos l x1 + 1)
      else x1) :
    nearestBelow pos l x2 = INT_MAX := by
  by_cases c0 : ∃ g ∈ l, pos g < x
  · obtain ⟨g, hg, hlt, hn, _⟩ := nearestBelow_some pos l x (fun g hg => hb g hg x le_rfl) c0
    have hbg := hb g hg x le_rfl
    rw [hn, if_pos (by omega)] at e1
    have hx1 : x1 ≤ x := by omega
    by_cases c1 : ∃ g' ∈ l, pos g' < x1
    · obtain ⟨g', hg', hlt', hn', _⟩ :=
        nearestBelow_some pos l x1 (fun g hg => hb g hg x1 hx1) c1
      have hbg' := hb g' hg' x1 hx1
      rw [hn', if_pos (by omega)] at e2
      apply nearestBelow_none
      intro g'' hg'' hlt''
      have m0 := h2 g hg hlt
      have m1 := h2 g' hg' (by omega)
      have m2 := h2 g'' hg'' (by omega)
      omega
    · have hnone : nearestBelow pos l x1 = INT_MAX :=
        nearestBelow_none pos l x1 (fun g hg hlt => c1 ⟨g, hg, hlt⟩)
      rw [hnone, if_neg (by simp)] at e2
      rw [e2]
      exact hnone
  · have hnone : nearestBelow pos l x = INT_MAX :=
      nearestBelow_none pos l x (fun g hg hlt => c0 ⟨g, hg, hlt⟩)
    rw [hnone, if_neg (by simp)] at e1
    subst e1
    rw [hnone, if_neg (by simp)] at e2
    rw [e2]
    exact hnone

theorem minDiffStart_eq_nearestBelow (gcps : List GCP)
    (hint : ∀ g ∈ gcps, ((⌊g.y⌋ : Int) : ℚ) = g.y) (x : Int) :
    minDiffStart gcps x = nearestBelow (fun g => ⌊g.y⌋) gcps x := by
  unfold minDiffStart nearestBelow
  apply List.foldl_ext
  intro m g hg
  have e : truncInt ((x : ℚ) - g.y) = x - ⌊g.y⌋ := by
    rw [← hint g hg, ← Int.cast_sub, truncInt_intCast, Int.floor_intCast]
  rw [e]

theorem minDiffEnd_eq_nearestBelow (gcps : List GCP)
    (hint : ∀ g ∈ gcps, ((⌊g.y⌋ : Int) : ℚ) = g.y) (x : Int) :
    minDiffEnd gcps x = nearestBelow (fun g => -⌊g.y⌋) gcps (-x) := by
  unfold minDiffEnd nearestBelow
  apply List.foldl_ext
  intro m g hg
  have e : truncInt (g.y - (x : ℚ)) = -x - -⌊g.y⌋ := by
    rw [← hint g hg, ← Int.cast_sub, truncInt_intCast, Int.floor_intCast]
    omega
  rw [e]

theorem overlap_start_fixed (gcps : List GCP) (so : Bool) (a h k1 k2 a1 a2 : Int)
    (hint : ∀ g ∈ gcps, ((⌊g.y⌋ : Int) : ℚ) = g.y ∧ 0 ≤ g.y ∧ g.y < (h : ℚ))
    (ha : a ≤ h) (hh : h < INT_MAX)
    (hbelow : ∀ g ∈ gcps, g.y < (a : ℚ) → g.y = (k1 : ℚ) ∨ g.y = (k2 : ℚ))
    (e1 : a1 = if minDiffStart gcps a ≠ INT_MAX ∧ so = true then a - (minDiffStart gcps a + 1)
      else a)
    (e2 : a2 = if minDiffStart gcps a1 ≠ INT_MAX ∧ so = true then
      a1 - (minDiffStart gcps a1 + 1) else a1) :
    ¬ (minDiffStart gcps a2 ≠ INT_MAX ∧ so = true) := by
  cases so with
  | false => simp
  | true =>
    have hi : ∀ g ∈ gcps, ((⌊g.y⌋ : Int) : ℚ) = g.y := fun g hg => (hint g hg).1
    simp only [and_true] at e1 e2
    rw [minDiffStart_eq_nearestBelow gcps hi] at e1 e2
    have key := nearestBelow_two_passes (fun g => ⌊g.y⌋) gcps a k1 k2 a1 a2
      (fun g hg x' hx' => by
        have h0 : 0 ≤ ⌊g.y⌋ := Int.floor_nonneg.mpr (hint g hg).2.1
        dsimp only
        omega)
      (fun g hg hlt => by
        dsimp only at hlt ⊢
        have hlt' : g.y < (a : ℚ) := by
          rw [← hi g hg]
          exact_mod_cast hlt
        rcases hbelow g hg hlt' with e | e
        · left; rw [e, Int.floor_intCast]
        · right; rw [e, Int.floor_intCast])
      e1 e2
    rw [minDiffStart_eq_nearestBelow gcps hi, key]
    simp

theorem overlap_end_fixed (gcps : List GCP) (eo : Bool) (b h m1 m2 b1 b2 : Int)
    (hint : ∀ g ∈ gcps, ((⌊g.y⌋ : Int) : ℚ) = g.y ∧ 0 ≤ g.y ∧ g.y < (h : ℚ))
    (hb : 0 ≤ b) (hh : h < INT_MAX)
    (habove : ∀ g ∈ gcps, (b : ℚ) < g.y → g.y = (m1 : ℚ) ∨ g.y = (m2 : ℚ))
    (e1 : b1 = if minDiffEnd gcps b ≠ INT_MAX ∧ eo = true then b + (minDiffEnd gcps b + 1)
      else b)
    (e2 : b2 = if minDiffEnd gcps b1 ≠ INT_MAX ∧ eo = true then
      b1 + (minDiffEnd gcps b1 + 1) else b1) :
    ¬ (minDiffEnd gcps b2 ≠ INT_MAX ∧ eo = true) := by
  cases eo with
  | false => simp
  | true =>
    have hi : ∀ g ∈ gcps, ((⌊g.y⌋ : Int) : ℚ) = g.y := fun g hg => (hint g hg).1
    simp only [and_true] at e1 e2
    rw [minDiffEnd_eq_nearestBelow gcps hi] at e1 e2
    have key := nearestBelow_two_passes (fun g => -⌊g.y⌋) gcps (-b) (-m1) (-m2) (-b1) (-b2)
      (fun g hg x' hx' => by
        have h0 : ⌊g.y⌋ < h := Int.floor_lt.mpr (hint g hg).2.2
        dsimp only
        omega)
      (fun g hg hlt => by
        dsimp only at hlt ⊢
        have hlt' : (b : ℚ) < g.y := by
          rw [← hi g hg]
          exact_mod_cast (by omega : b < ⌊g.y⌋)
        rcases habove g hg hlt' with e | e
        · left; rw [e, Int.floor_intCast]
        · right; rw [e, Int.floor_intCast])
      (by rw [e1]; split_ifs <;> omega)
      (by rw [e2]; split_ifs <;> omega)
    rw [minDiffEnd_eq_nearestBelow gcps hi, key]
    simp

theorem overlapPass_two_fixed (gcps : List GCP) (so eo : Bool) (a b h k1 k2 m1 m2 : Int)
    (hint : ∀ g ∈ gcps, ((⌊g.y⌋ : Int) : ℚ) = g.y ∧ 0 ≤ g.y ∧ g.y < (h : ℚ))
    (hr : 0 ≤ a ∧ a ≤ b ∧ b ≤ h) (hh : h < INT_MAX)
    (hbelow : ∀ g ∈ gcps, g.y < (a : ℚ) → g.y = (k1 : ℚ) ∨ g.y = (k2 : ℚ))
    (habove : ∀ g ∈ gcps, (b : ℚ) < g.y → g.y = (m1 : ℚ) ∨ g.y = (m2 : ℚ)) :
    overlapPass gcps so eo (overlapPass gcps so eo (overlapPass gcps so eo (a, b)))
      = overlapPass gcps so eo (overlapPass gcps so eo (a, b)) := by
  simp only [overlapPass_eq]
  have s := overlap_start_fixed gcps so a h k1 k2 _ _ hint (by omega) hh hbelow rfl rfl
  have e := overlap_end_fixed gcps eo b h m1 m2 _ _ hint (by omega) hh habove rfl rfl
  rw [if_neg s, if_neg e]

theorem overlapPass_clamped_fixed (gcps : List GCP) (so eo : Bool) (a2 b2 h : Int)
    (hint : ∀ g ∈ gcps, ((⌊g.y⌋ : Int) : ℚ) = g.y ∧ 0 ≤ g.y ∧ g.y < (h : ℚ))
    (hfix : overlapPass gcps so eo (a2, b2) = (a2, b2)) :
    overlapPass gcps so eo
      (if a2 < 0 then 0 else a2, if b2 < 0 ∨ h < b2 then h else b2)
      = (if a2 < 0 then 0 else a2, if b2 < 0 ∨ h < b2 then h else b2) := by
  rw [overlapPass_eq] at hfix ⊢
  rw [Prod.mk.injEq] at hfix ⊢
  obtain ⟨f1, f2⟩ := hfix
  have hi : ∀ g ∈ gcps, ((⌊g.y⌋ : Int) : ℚ) = g.y := fun g hg => (hint g hg).1
  constructor
  · by_cases c : a2 < 0
    · rw [if_pos c, minDiffStart_eq_nearestBelow gcps hi,
        nearestBelow_none (fun g => ⌊g.y⌋) gcps 0 (fun g hg => by
          have h0 : 0 ≤ ⌊g.y⌋ := Int.floor_nonneg.mpr (hint g hg).2.1
          dsimp only
          omega)]
      simp
    · rw [if_neg c]; exact f1
  · by_cases c : b2 < 0 ∨ h < b2
    · rw [if_pos c, minDiffEnd_eq_nearestBelow gcps hi,
        nearestBelow_none (fun g => -⌊g.y⌋) gcps (-h) (fun g hg => by
          have h0 : ⌊g.y⌋ < h := Int.floor_lt.mpr (hint g hg).2.2
          dsimp only
          omega)]
      simp
    · rw [if_neg c]; exact f2

/-! ### The alpha channel marks the written pixels -/

theorem compositeSegment_pixel_dichotomy (result result2 : Image) (x2 y2 : Int) (r' : Image)
    (h : compositeSegment result result2 x2 y2 = some r') (i : Nat)
    (hi : i < result.width * result.height) :
    (∀ ch, r'.get ch i = result.get ch i) ∨ r'.get 3 i = some 65535 := by
  by_cases hf : (x2 = -1 ∨ y2 = -1) ∨ result2.channels ≠ result.channels
  · rw [compositeSegment_skipped result result2 x2 y2 hf, Option.some.injEq] at h
    subst h
    exact Or.inl (fun _ => rfl)
  · rw [not_or, not_not] at hf
    obtain ⟨hfold, hch⟩ := hf
    by_cases hw : ∃ x y a, inOverlap result result2 x2 y2 x y ∧
        result2.get 3 (srcIndex result2 x y) = some a ∧ a > 0 ∧
        destIndex result x2 y2 x y = i
    · obtain ⟨x, y, a, hin, ha, hpos, rfl⟩ := hw
      exact Or.inr (compositeSegment_written result result2 x2 y2 r' hfold hch h
        x y a hin ha hpos).2
    · exact Or.inl (fun ch => compositeSegment_frame result result2 x2 y2 r' h ch i hi
        (fun x y a hin ha hpos he => hw ⟨x, y, a, hin, ha, hpos, he⟩))

theorem compositeSegment_marks (result result2 : Image) (x2 y2 : Int) (r' : Image)
    (hm : alphaMarks result) (h : compositeSegment result result2 x2 y2 = some r') :
    alphaMarks r' := by
  obtain ⟨d1, d2, _, _⟩ := compositeSegment_dims result result2 x2 y2 r' h
  intro i hi
  rw [d1, d2] at hi
  rcases compositeSegment_pixel_dichotomy result result2 x2 y2 r' h i hi with e | e
  · simp only [e]
    exact hm i hi
  · refine ⟨Or.inr e, ?_⟩
    intro h0
    rw [e] at h0
    cases h0

theorem compositeAll_marks (segs : List (Image × Int × Int)) (result r : Image)
    (hm : alphaMarks result) (h : compositeAll result segs = some r) : alphaMarks r :=
  foldlM_invariant (fun (t : Image) (s : Image × Int × Int) => compositeSegment t s.1 s.2.1 s.2.2)
    alphaMarks segs result r
    (fun s _ t t' ht hf => compositeSegment_marks t s.1 s.2.1 s.2.2 t' ht hf) hm h

theorem compositeAll_total (segs : List (Image × Int × Int)) (result : Image)
    (hR : 4 * (result.width * result.height) ≤ result.data.length)
    (hS : ∀ s ∈ segs, 4 * (s.1.width * s.1.height) ≤ s.1.data.length) :
    ∃ r, compositeAll result segs = some r := by
  obtain ⟨r, hr, _⟩ := foldlM_total
    (fun (t : Image) (s : Image × Int × Int) => compositeSegment t s.1 s.2.1 s.2.2)
    (fun t => 4 * (t.width * t.height) ≤ t.data.length) segs result
    (fun s hs t ht => by
      obtain ⟨t', ht'⟩ := compositeSegment_total t s.1 s.2.1 s.2.2 (hS s hs) ht
      obtain ⟨d1, d2, _, d4⟩ := compositeSegment_dims t s.1 s.2.1 s.2.2 t' ht'
      refine ⟨t', ht', ?_⟩
      show 4 * (t'.width * t'.height) ≤ t'.data.length
      rw [d1, d2, d4]
      exact ht) hR
  exact ⟨r, hr⟩

theorem newImage_zero (w h : Int) (img : Image) (hn : newImage w h 4 = some img) :
    4 * (img.width * img.height) ≤ img.data.length ∧
    ∀ ch i, ch < 4 → i < img.width * img.height → img.get ch i = some 0 := by
  unfold newImage at hn
  split at hn
  · cases hn
  · simp only [Option.some.injEq] at hn
    subst hn
    have e4 : (4 : Int).toNat = 4 := rfl
    constructor
    · dsimp only
      rw [List.length_replicate, e4]
      omega
    · intro ch i hch hi
      unfold Image.get
      dsimp only at hi ⊢
      rw [List.getElem?_replicate, if_pos]
      rw [e4]
      have : ch * (w.toNat * h.toNat) ≤ 3 * (w.toNat * h.toNat) :=
        Nat.mul_le_mul_right _ (by omega)
      omega

theorem newImage_marks (w h : Int) (img : Image) (hn : newImage w h 4 = some img) :
    alphaMarks img := by
  obtain ⟨_, hz⟩ := newImage_zero w h img hn
  intro i hi
  exact ⟨Or.inl (hz 3 i (by omega) hi), fun _ ch hch => hz ch i (by omega) hi⟩

/-! ### The JSON form of `ImageCompositeCfg` -/

theorem from_json_to_json (j : Json) (v d : ImageCompositeCfg) :
    from_json (to_json j v) d = some { v with lut := d.lut, lut_channels := d.lut_channels } := by
  simp [from_json, to_json, Json.contains, Json.get, Json.set, JsonValue.getString,
    JsonValue.getBool]

/-! ## Theorems on `ensureMemoryLimit` -/

/-- C7, as stated, fails: with a planner that always answers a 2 x 2 crop,
one channel and a budget of 0 bytes, `ensureMemoryLimit` returns for no
amount of fuel. -/
theorem C7_counterexample :
    ¬ ∃ fuel r, ensureMemoryLimit (plannerConst (cropOfSize 2 2)) fuel (cropOfSize 2 2)
        opPlain 1 0 = some r := by
  rintro ⟨fuel, r, h⟩
  have hn := ensureMemoryLimit_none_of_over (plannerConst (cropOfSize 2 2)) 1 0
    (fun _ => (by decide : 0 < memory_usage (cropOfSize 2 2) 1)) fuel (cropOfSize 2 2) opPlain
    (by decide)
  rw [hn] at h
  exact Option.noConfusion h

/-- C7 (amended): `ensureMemoryLimit` returns exactly when the initial crop
or the crop of some retry has a footprint, as line 14 computes it, within the
budget; whenever it returns, the crop it leaves has such a footprint and is
the crop of one of the retries; and for a non-negative channel count and a
product below `2 ^ 64` the computed footprint is
`|x_max - x_min| * |y_max - y_min| * channel_count * 2`. -/
theorem C7_ensureMemoryLimit_returns_iff (planner : WarpOperation → WarpCropSettings)
    (crop : WarpCropSettings) (op : WarpOperation) (nch : Int) (limit : Nat) :
    ((∃ fuel r, ensureMemoryLimit planner fuel crop op nch limit = some r) ↔
      ∃ n, memory_usage ((ensureMemoryLimit_retry planner)^[n] (crop, op)).1 nch ≤ limit) ∧
    (∀ fuel r, ensureMemoryLimit planner fuel crop op nch limit = some r →
      memory_usage r.1 nch ≤ limit ∧
      (∃ n, r = (ensureMemoryLimit_retry planner)^[n] (crop, op)) ∧
      (0 ≤ nch → footprint r.1 nch < (SIZE_MOD : Int) → footprint r.1 nch ≤ (limit : Int))) := by
  refine ⟨⟨?_, ?_⟩, ?_⟩
  · rintro ⟨fuel, r, h⟩
    obtain ⟨hb, n, _, hr⟩ := ensureMemoryLimit_some_bound planner nch limit fuel crop op r h
    exact ⟨n, hr ▸ hb⟩
  · rintro ⟨n, h⟩
    obtain ⟨r, hr⟩ := ensureMemoryLimit_returns_of_fit planner nch limit n crop op h
    exact ⟨n + 1, r, hr⟩
  · intro fuel r h
    obtain ⟨hb, n, _, hr⟩ := ensureMemoryLimit_some_bound planner nch limit fuel crop op r h
    refine ⟨hb, ⟨n, hr⟩, ?_⟩
    intro hn hf
    rw [← memory_usage_eq_footprint r.1 nch hn hf]
    exact_mod_cast hb

/-- Witness for C7 (amended): a 5 x 5 request with one channel and a budget
of 40 bytes is shrunk once, to 4 x 4, and returned. -/
theorem C7_ensureMemoryLimit_returns_iff_witness :
    ensureMemoryLimit plannerOutput 2 (cropOfSize 5 5) opPlain 1 40
        = some (cropOfSize 4 4, { opPlain with output_width := 4, output_height := 4 }) ∧
      memory_usage (cropOfSize 4 4) 1 ≤ 40 :=
  ⟨by decide!,
   ((C7_ensureMemoryLimit_returns_iff plannerOutput (cropOfSize 5 5) opPlain 1 40).2 2
      (cropOfSize 4 4, { opPlain with output_width := 4, output_height := 4 })
      (by decide!)).1⟩

/-- C8, as stated, fails: a retry turns the output width 5 into 4, which is
not 0.9 times 5. -/
theorem C8_counterexample :
    (ensureMemoryLimit_retry plannerOutput (cropOfSize 5 5, opPlain)).2.output_width = 4 ∧
      (((ensureMemoryLimit_retry plannerOutput (cropOfSize 5 5, opPlain)).2.output_width : Int) : ℚ)
        ≠ 9 / 10 * ((opPlain.output_width : Int) : ℚ) := by
  have h : (ensureMemoryLimit_retry plannerOutput (cropOfSize 5 5, opPlain)).2.output_width = 4 := by
    decide!
  refine ⟨h, ?_⟩
  rw [h]
  norm_num [opPlain]

/-- C8 (amended): every retry of `ensureMemoryLimit` replaces `output_width`
and `output_height` by 0.9 times their values truncated toward zero, and the
new value is exactly 0.9 times the old one precisely when the old one is a
multiple of 10. -/
theorem C8_retry_truncates (planner : WarpOperation → WarpCropSettings)
    (crop : WarpCropSettings) (op : WarpOperation) (nch : Int) (limit fuel : Nat) :
    (memory_usage crop nch > limit →
      ensureMemoryLimit planner (fuel + 1) crop op nch limit =
        ensureMemoryLimit planner fuel (ensureMemoryLimit_retry planner (crop, op)).1
          (ensureMemoryLimit_retry planner (crop, op)).2 nch limit) ∧
    (ensureMemoryLimit_retry planner (crop, op)).2.output_width
        = Int.tdiv (9 * op.output_width) 10 ∧
    (ensureMemoryLimit_retry planner (crop, op)).2.output_height
        = Int.tdiv (9 * op.output_height) 10 ∧
    ((((ensureMemoryLimit_retry planner (crop, op)).2.output_width : Int) : ℚ)
        = 9 / 10 * (op.output_width : ℚ) ↔ 10 ∣ op.output_width) ∧
    ((((ensureMemoryLimit_retry planner (crop, op)).2.output_height : Int) : ℚ)
        = 9 / 10 * (op.output_height : ℚ) ↔ 10 ∣ op.output_height) := by
  refine ⟨?_, scale09_eq_tdiv _, scale09_eq_tdiv _, scale09_exact_iff _, scale09_exact_iff _⟩
  intro h
  rw [ensureMemoryLimit, if_pos h]

/-- Witness for C8 (amended): the 5 x 5 request over a 40 byte budget. -/
theorem C8_retry_truncates_witness :
    memory_usage (cropOfSize 5 5) 1 > 40 ∧
      ensureMemoryLimit plannerOutput (1 + 1) (cropOfSize 5 5) opPlain 1 40 =
        ensureMemoryLimit plannerOutput 1
          (ensureMemoryLimit_retry plannerOutput (cropOfSize 5 5, opPlain)).1
          (ensureMemoryLimit_retry plannerOutput (cropOfSize 5 5, opPlain)).2 1 40 :=
  ⟨by decide, (C8_retry_truncates plannerOutput (cropOfSize 5 5) opPlain 1 40 1).1 (by decide)⟩

/-- C9: when every crop the planner returns has a footprint above the
budget, `ensureMemoryLimit` called as in `performSmartWarp` (lines 251-254,
on the planner's crop) has not returned after any number of iterations; the
same holds from any initial crop over the budget, and then the state after
any number of retries is still over the budget. -/
theorem C9_ensureMemoryLimit_diverges (planner : WarpOperation → WarpCropSettings)
    (op : WarpOperation) (nch : Int) (limit : Nat)
    (hp : ∀ op', limit < memory_usage (planner op') nch) :
    (∀ fuel, ensureMemoryLimit planner fuel (planner op) op nch limit = none) ∧
    (∀ crop, limit < memory_usage crop nch →
      (∀ n, limit < memory_usage ((ensureMemoryLimit_retry planner)^[n] (crop, op)).1 nch) ∧
      (∀ fuel, ensureMemoryLimit planner fuel crop op nch limit = none)) :=
  ⟨fun fuel => ensureMemoryLimit_none_of_over planner nch limit hp fuel (planner op) op (hp op),
   fun crop h0 => ⟨retry_iterate_over planner nch limit hp crop op h0,
     fun fuel => ensureMemoryLimit_none_of_over planner nch limit hp fuel crop op h0⟩⟩

/-- Witness for C9: budget 0 and a planner that always answers a crop of
1 x 1 pixel. -/
theorem C9_ensureMemoryLimit_diverges_witness :
    (∀ op', 0 < memory_usage (plannerConst (cropOfSize 1 1) op') 1) ∧
    (∀ fuel, ensureMemoryLimit (plannerConst (cropOfSize 1 1)) fuel
        (plannerConst (cropOfSize 1 1) opPlain) opPlain 1 0 = none) :=
  ⟨fun _ => (by decide : 0 < memory_usage (cropOfSize 1 1) 1),
   (C9_ensureMemoryLimit_diverges (plannerConst (cropOfSize 1 1)) opPlain 1 0
      (fun _ => (by decide : 0 < memory_usage (cropOfSize 1 1) 1))).1⟩

/-! ## Theorems on `calculateSegmentNumberToSplitInto` -/

/-- C1 fails on the code: for two GCPs on two distinct scanlines the filter
loop keeps one GCP, the distance loop runs zero times and line 60 reads
`distances[0]` of an empty vector, an out-of-bounds read, whatever the
distance function; and no operation with exactly two GCPs gets a segment
count. -/
theorem C1_two_scanlines_out_of_bounds (vinc : ℚ → ℚ → ℚ → ℚ → ℚ) :
    (filterGCPs (Vec.ofList (sortGCPs 10 gcpsTwoScanlines))).map Vec.toList
        = some [gcpAt 1 1 0] ∧
      calculateSegmentNumberToSplitInto vinc (opOf 10 gcpsTwoScanlines) = none ∧
      (∀ (op : WarpOperation) (g1 g2 : GCP),
        calculateSegmentNumberToSplitInto vinc { op with ground_control_points := [g1, g2] }
          = none) := by
  have key : ∀ (op : WarpOperation) (g1 g2 : GCP),
      calculateSegmentNumberToSplitInto vinc { op with ground_control_points := [g1, g2] }
        = none := by
    intro op g1 g2
    cases hc : calculateSegmentNumberToSplitInto vinc
      { op with ground_control_points := [g1, g2] } with
    | none => rfl
    | some r =>
      obtain ⟨v, _, h2, h3⟩ := segment_count_needs_three vinc _
        (by simp [SIZE_MOD]) r hc
      simp only [List.length_cons, List.length_nil] at h3
      omega
  exact ⟨by decide!, key (opOf 10 gcpsTwoScanlines) (gcpAt 0 0 0) (gcpAt 1 1 0), key⟩

/-- C2: whenever `calculateSegmentNumberToSplitInto` returns `r` (distances
non-negative, fewer than `2 ^ 64` GCPs), the filter loop has left a sequence
of `c` GCPs (the second GCP of every consecutive pair of the sorted list with
differing `y`), the distances between its consecutive elements have the
median `m` (the element at index `size / 2` in ascending order), and
`r = max 1 (floor (m * c / 3000))`; so `r = 1` when `m * c < 3000`, and `r = 5`
when `c = 5` and all consecutive distances are 3000. -/
theorem C2_segment_count_formula (vinc : ℚ → ℚ → ℚ → ℚ → ℚ)
    (hnonneg : ∀ lat1 lon1 lat2 lon2, 0 ≤ vinc lat1 lon1 lat2 lon2)
    (op : WarpOperation) (hlen : op.ground_control_points.length < SIZE_MOD) (r : Int)
    (h : calculateSegmentNumberToSplitInto vinc op = some r) :
    ∃ (dedup : Vec GCP) (m : ℚ),
      filterGCPs (Vec.ofList (sortGCPs op.input_width op.ground_control_points)) = some dedup ∧
      dedup.toList = keptAfterFirst (sortGCPs op.input_width op.ground_control_points) ∧
      medianOf (consecutiveDistances vinc dedup.toList) = some m ∧
      r = max 1 ⌊m * (dedup.toList.length : ℚ) / 3000⌋ ∧
      (m * (dedup.toList.length : ℚ) < 3000 → r = 1) ∧
      (dedup.toList.length = 5 →
        (∀ d ∈ consecutiveDistances vinc dedup.toList, d = 3000) → r = 5) := by
  simp only [calculateSegmentNumberToSplitInto, Option.bind_eq_bind, Option.bind_eq_some,
    Option.some.injEq] at h
  obtain ⟨v, hv, d, hd, m, hm, hr⟩ := h
  have hsl : (sortGCPs op.input_width op.ground_control_points).length < SIZE_MOD := by
    rw [sortGCPs, List.length_insertionSort]; exact hlen
  obtain ⟨hb, hs⟩ := filterGCPs_inv _ hsl v hv
  obtain ⟨i1, i2, i3⟩ := distanceLoop_spec vinc _ 0 v Vec.empty d rfl hd
  have hpos : 0 < v.size := by
    by_contra hz
    have hz' : v.size = 0 := by omega
    rw [hz', sizeMinusOne_zero] at i3
    unfold SIZE_MOD at *
    omega
  have hsz : v.size < SIZE_MOD := by omega
  rw [sizeMinusOne_pos hpos hsz] at i2
  have e : v.size - 1 + 1 = v.size := by omega
  rw [e, List.drop_zero] at i2
  have hdl : d.toList = consecutiveDistances vinc v.toList := by
    unfold Vec.toList
    rw [i1, List.take_length, i2]
    rfl
  have hlen2 : v.toList.length = v.size := by
    unfold Vec.toList
    rw [List.length_take]
    omega
  have hmed : medianOf (consecutiveDistances vinc v.toList) = some m := by
    unfold medianOf
    rw [← hdl]
    simpa [Vec.get, Vec.ofList, List.length_insertionSort] using hm
  have hm0 : 0 ≤ m := consecutiveDistances_nonneg vinc hnonneg _ m (medianOf_mem _ _ hmed)
  have hr' : r = max 1 ⌊m * (v.toList.length : ℚ) / 3000⌋ := by
    rw [← hr, hlen2]
    exact segment_count_value m v.size hm0
  have hkept : v.toList = keptAfterFirst (sortGCPs op.input_width op.ground_control_points) := by
    obtain ⟨v', h1, h2⟩ := filterGCPs_spec _ (by omega) hsl
    rw [hv, Option.some.injEq] at h1
    rw [h1]
    exact h2
  refine ⟨v, m, hv, hkept, hmed, hr', ?_, ?_⟩
  · intro hlt
    have h0 : 0 ≤ m * (v.toList.length : ℚ) / 3000 := by positivity
    have h1 : m * (v.toList.length : ℚ) / 3000 < 1 := by
      rw [div_lt_one (by norm_num)]; exact hlt
    have hz : ⌊m * (v.toList.length : ℚ) / 3000⌋ = 0 := Int.floor_eq_zero_iff.mpr ⟨h0, h1⟩
    rw [hr', hz]
    rfl
  · intro h5 hall
    have hm3 : m = 3000 := medianOf_const _ m 3000 hmed hall
    rw [hr', hm3, h5]
    norm_num

/-- Witness for C2: six scanlines 3000 km apart leave 5 GCPs after the
filter loop and give 5 segments. -/
theorem C2_segment_count_formula_witness :
    ∃ (dedup : Vec GCP) (m : ℚ),
      filterGCPs (Vec.ofList (sortGCPs (opOf 10 gcpsLongTrack).input_width
        (opOf 10 gcpsLongTrack).ground_control_points)) = some dedup ∧
      dedup.toList = keptAfterFirst (sortGCPs (opOf 10 gcpsLongTrack).input_width
        (opOf 10 gcpsLongTrack).ground_control_points) ∧
      medianOf (consecutiveDistances flatDistance dedup.toList) = some m ∧
      (5 : Int) = max 1 ⌊m * (dedup.toList.length : ℚ) / 3000⌋ ∧
      (m * (dedup.toList.length : ℚ) < 3000 → (5 : Int) = 1) ∧
      (dedup.toList.length = 5 →
        (∀ d ∈ consecutiveDistances flatDistance dedup.toList, d = 3000) → (5 : Int) = 5) :=
  C2_segment_count_formula flatDistance
    (fun lat1 lon1 lat2 lon2 => by unfold flatDistance; positivity)
    (opOf 10 gcpsLongTrack) (by decide) 5 (by decide!)

/-! ## Theorems on the candidate ranges -/

/-- C3: for a number `n >= 1` of segments and a run of
`prepareSegmentsAndSplitCuts` that reaches its end, the ranges
`[start, stop)` passed to `generateSeg`, in call order, partition
`[0, source_height)`: the first starts at 0, the last ends at the height,
each range ends where the next starts, no two ranges share a scanline, and
their union is `[0, source_height)`; slices with and without a cut alike. -/
theorem C3_candidate_ranges_partition (vinc : ℚ → ℚ → ℚ → ℚ → ℚ) (n : Nat) (hn : 1 ≤ n)
    (op : WarpOperation) (cands : List Candidate)
    (h : candidateRanges vinc (n : ℚ) op = some cands) :
    (cands.map (fun c => (c.start, c.stop))).head?.map Prod.fst = some 0 ∧
    (cands.map (fun c => (c.start, c.stop))).getLast?.map Prod.snd
      = some (op.input_height : Int) ∧
    List.Chain' (fun r s : Int × Int => r.2 = s.1) (cands.map (fun c => (c.start, c.stop))) ∧
    (cands.map (fun c => (c.start, c.stop))).Pairwise
      (fun r s : Int × Int => ∀ y : Int, ¬ ((r.1 ≤ y ∧ y < r.2) ∧ (s.1 ≤ y ∧ y < s.2))) ∧
    (∀ y : Int, (0 ≤ y ∧ y < (op.input_height : Int)) ↔
      ∃ r ∈ cands.map (fun c => (c.start, c.stop)), r.1 ≤ y ∧ y < r.2) := by
  unfold candidateRanges at h
  rw [Int.ceil_natCast, Int.toNat_natCast] at h
  have hpos : (0 : ℚ) < (n : ℚ) := by exact_mod_cast hn
  obtain ⟨hne, ht⟩ := segmentLoop_tiles vinc n hpos op n 0 cands h
  have hne' : cands.map (fun c => (c.start, c.stop)) ≠ [] := by
    intro habs
    exact hne (by omega) (List.map_eq_nil_iff.mp habs)
  have b0 : truncInt (((0 : Nat) : ℚ) / (n : ℚ) * (op.input_height : ℚ)) = 0 := by
    simp [truncInt]
  have bn : truncInt (((0 + n : Nat) : ℚ) / (n : ℚ) * (op.input_height : ℚ))
      = (op.input_height : Int) := by
    rw [Nat.zero_add, div_self (ne_of_gt hpos), one_mul]
    have := truncInt_intCast (op.input_height : Int)
    rwa [Int.cast_natCast] at this
  rw [b0, bn] at ht
  refine ⟨tiles_head _ _ _ ht hne', tiles_last _ _ _ ht hne', tiles_chain _ _ _ ht, ?_,
    tiles_cover _ _ _ ht⟩
  refine (tiles_pairwise _ _ _ ht).imp ?_
  intro r s hrs y hy
  omega

/-- Witness for C3: two slices of a source of height 10, the first cut at
scanline 2. -/
theorem C3_candidate_ranges_partition_witness :
    candidateRanges flatDistance ((2 : Nat) : ℚ) (opOf 10 gcpsCutTrack) = some candsCutTrack ∧
    (∀ y : Int, (0 ≤ y ∧ y < ((opOf 10 gcpsCutTrack).input_height : Int)) ↔
      ∃ r ∈ candsCutTrack.map (fun c => (c.start, c.stop)), r.1 ≤ y ∧ y < r.2) :=
  ⟨by decide!,
   (C3_candidate_ranges_partition flatDistance 2 (by decide) (opOf 10 gcpsCutTrack)
      candsCutTrack (by decide!)).2.2.2.2⟩

/-- C5 fails on the code: in a slice whose scanlines are 3000 km, then
100 km apart, the only pair of consecutive scanlines beyond 2000 km is the
first one; the filter loop drops the GCP of the first scanline, no cut is
found, and one candidate range `[0, 10)` is emitted instead of `[0, 1)` and
`[1, 10)`. -/
theorem C5_first_pair_cut_missed :
    consecutiveDistances flatDistance gcpsFirstPairFar = [3000, 100] ∧
      (filterGCPs (Vec.ofList (sortGCPs 10 gcpsFirstPairFar))).map Vec.toList
        = some [gcpAt 1 0 30, gcpAt 2 0 31] ∧
      candidateRanges flatDistance 1 (opOf 10 gcpsFirstPairFar)
        = some [⟨0, 10, true, true⟩] ∧
      (prepareSegmentsAndSplitCuts flatDistance centerMean 1 (opOf 10 gcpsFirstPairFar)).map
        List.length = some 1 := by
  refine ⟨by decide!, by decide!, by decide!, by decide!⟩

/-! ## Theorems on segment emission -/

/-- C4: after `updateGCPOverlap`, whatever the range, the GCPs and the two
overlap flags, `0 <= y_start` and `y_end <= source_height`; hence every
`SegmentConfig` that `prepareSegmentsAndSplitCuts` emits satisfies both. -/
theorem C4_emitted_range_clamped (vinc : ℚ → ℚ → ℚ → ℚ → ℚ) (center : List GCP → ℚ × ℚ)
    (nsegs : ℚ) (op : WarpOperation) :
    (∀ (scfg : SegmentConfig) (start_overlap end_overlap : Bool),
      0 ≤ (updateGCPOverlap op scfg start_overlap end_overlap).y_start ∧
      (updateGCPOverlap op scfg start_overlap end_overlap).y_end ≤ (op.input_height : Int)) ∧
    (∀ segs, prepareSegmentsAndSplitCuts vinc center nsegs op = some segs →
      ∀ s ∈ segs, 0 ≤ s.y_start ∧ s.y_end ≤ (op.input_height : Int)) := by
  refine ⟨fun scfg so eo => updateGCPOverlap_bounds op scfg so eo, ?_⟩
  intro segs h s hs
  obtain ⟨c, rfl⟩ := mem_prepareSegments vinc center nsegs op segs h s hs
  obtain ⟨h1, h2⟩ := generateSeg_range vinc center op c.start c.stop c.start_overlap c.end_overlap
  rw [h1, h2]
  exact updateGCPOverlap_bounds op _ _ _

/-- Witness for C4: the three segments of `gcpsCutTrack`, two of them
expanded. -/
theorem C4_emitted_range_clamped_witness :
    ∀ s ∈ segsCutTrack, 0 ≤ s.y_start ∧ s.y_end ≤ ((opOf 10 gcpsCutTrack).input_height : Int) :=
  (C4_emitted_range_clamped flatDistance centerMean 2 (opOf 10 gcpsCutTrack)).2 segsCutTrack
    (by decide!)

/-- C6, as stated, fails: the segment built for a pole-to-pole track holds a
GCP 100 km from the south pole and gets `shift_lat = 90`, because a later
GCP lies 100 km from the north pole. -/
theorem C6_counterexample :
    prepareSegmentsAndSplitCuts flatDistance centerMean 1 (opOf 11 gcpsPoleToPole)
        = some [segPoleToPole] ∧
      gcpAt 0 0 (-89) ∈ segPoleToPole.gcps ∧
      flatDistance (gcpAt 0 0 (-89)).lat (gcpAt 0 0 (-89)).lon (-90) 0 < 1000 ∧
      segPoleToPole.shift_lat ≠ -90 := by
  refine ⟨by decide!, by decide!, by decide!, by decide⟩

/-- C6 (amended): an emitted segment whose GCP list holds a GCP within
1000 km of the south pole, such that neither this GCP nor any GCP after it in
the list is within 1000 km of the north pole, has `shift_lat = -90` and
`shift_lon = 0`, whatever its computed center and its other GCPs. -/
theorem C6_south_pole_override (vinc : ℚ → ℚ → ℚ → ℚ → ℚ) (center : List GCP → ℚ × ℚ)
    (nsegs : ℚ) (op : WarpOperation) (segs : List SegmentConfig)
    (h : prepareSegmentsAndSplitCuts vinc center nsegs op = some segs)
    (s : SegmentConfig) (hs : s ∈ segs) (before after : List GCP) (g : GCP)
    (hg : s.gcps = before ++ g :: after)
    (hsouth : vinc g.lat g.lon (-90) 0 < 1000)
    (hnorth : ¬ vinc g.lat g.lon 90 0 < 1000)
    (hafter : ∀ g' ∈ after, ¬ vinc g'.lat g'.lon 90 0 < 1000) :
    s.shift_lat = -90 ∧ s.shift_lon = 0 := by
  obtain ⟨c, rfl⟩ := mem_prepareSegments vinc center nsegs op segs h s hs
  have hsh := generateSeg_shift vinc center op c.start c.stop c.start_overlap c.end_overlap
  rw [hg, poleOverride_south vinc before after g _ hsouth hnorth hafter] at hsh
  rw [Prod.mk.injEq] at hsh
  exact ⟨hsh.2, hsh.1⟩

/-- Witness for C6 (amended): the track leaving the south pole, whose center
longitude is 5 degrees. -/
theorem C6_south_pole_override_witness :
    segSouthTrack.shift_lat = -90 ∧ segSouthTrack.shift_lon = 0 :=
  C6_south_pole_override flatDistance centerMean 1 (opOf 4 gcpsSouthTrack) [segSouthTrack]
    (by decide!) segSouthTrack (by decide!) [] [gcpAt 1 5 (-85), gcpAt 2 5 (-80), gcpAt 3 5 (-75)]
    (gcpAt 0 5 (-89)) (by decide!) (by decide!) (by decide!) (by decide!)

/-! ## Theorems on compositing -/

/-- C10: folding a segment raster whose alpha channel is zero at every pixel
returns the destination raster unchanged, in every sample of every channel,
for every offset and all raster sizes. -/
theorem C10_transparent_segment_unchanged (result result2 : Image) (x2 y2 : Int)
    (halpha : ∀ x < result2.width, ∀ y < result2.height,
      result2.get 3 (y * result2.width + x) = some 0) :
    compositeSegment result result2 x2 y2 = some result := by
  unfold compositeSegment
  split
  · dsimp only
    split
    · apply foldlM_fixed
      intro x hx
      apply foldlM_fixed
      intro y hy
      apply compositePixel_transparent
      rw [List.mem_range] at hx hy
      apply halpha
      · omega
      · omega
    · rfl
  · rfl

/-- Witness for C10: a transparent 3 x 2 raster folded at offset (-2, 0) into
a 2 x 2 raster. -/
theorem C10_transparent_segment_unchanged_witness :
    compositeSegment imgSevens imgTransparent (-2) 0 = some imgSevens :=
  C10_transparent_segment_unchanged imgSevens imgTransparent (-2) 0 (by decide)

/-! ## Theorems on short GCP lists and the scanline filter -/

/-- C14: for the empty GCP list the filter loop, bounded by `size() - 1`
computed in `size_t`, reads `gcps_curr[0]` outside the (empty) storage; for a
single-element list the filter loop runs zero times, leaves the vector empty,
and the distance loop, again bounded by `size() - 1`, reads outside the
storage; in both cases `calculateSegmentNumberToSplitInto` yields the error
result. -/
theorem C14_short_lists_fault (vinc : ℚ → ℚ → ℚ → ℚ → ℚ) (op : WarpOperation) (g : GCP) :
    filterGCPs (Vec.ofList (sortGCPs op.input_width [])) = none ∧
    calculateSegmentNumberToSplitInto vinc { op with ground_control_points := [] } = none ∧
    filterGCPs (Vec.ofList (sortGCPs op.input_width [g])) = some ⟨[g], 0⟩ ∧
    distanceLoop vinc (sizeMinusOne 0) 0 ⟨[g], 0⟩ Vec.empty = none ∧
    calculateSegmentNumberToSplitInto vinc { op with ground_control_points := [g] } = none :=
  ⟨filterGCPs_nil, segment_count_short_none vinc _ (by simp), filterGCPs_single g,
   distanceLoop_single vinc g, segment_count_short_none vinc _ (by simp)⟩

/-- C15 fails on the code: of any two GCPs in sorted order the filter keeps
the second one when their scanlines differ and nothing otherwise, never the
first; two GCPs on scanlines 0 and 1, already in scan order, leave one GCP
(that of scanline 1) for two distinct scanlines. -/
theorem C15_first_scanline_dropped :
    (∀ g1 g2 : GCP, (filterGCPs (Vec.ofList [g1, g2])).map Vec.toList
      = some (if g1.y ≠ g2.y then [g2] else [])) ∧
    sortGCPs 10 gcpsTwoScanlines = gcpsTwoScanlines ∧
    (filterGCPs (Vec.ofList gcpsTwoScanlines)).map Vec.toList = some [gcpAt 1 1 0] ∧
    (gcpsTwoScanlines.map (fun g => g.y)).dedup.length = 2 :=
  ⟨filterGCPs_pair, by decide!, by decide!, by decide!⟩

/-! ## Theorems on the cut search and the single segment -/

/-- C12: for an operation whose segment count is 1, whose GCPs have `y` in
`[0, source_height)` (integer or not) and in which no two GCPs that follow
each other after the scanline filter are more than 2000 km apart (no cut),
`prepareSegmentsAndSplitCuts(1, op)` returns exactly one segment, with
`y_start = 0`, `y_end = source_height` and the operation's GCP list unchanged
(every rebased `y` is the original `y`); pole or no pole. -/
theorem C12_single_segment (vinc : ℚ → ℚ → ℚ → ℚ → ℚ) (center : List GCP → ℚ × ℚ)
    (op : WarpOperation) (hlen : op.ground_control_points.length < SIZE_MOD)
    (hcount : calculateSegmentNumberToSplitInto vinc op = some 1)
    (hy : ∀ g ∈ op.ground_control_points, (0 : ℚ) ≤ g.y ∧ g.y < (op.input_height : ℚ))
    (hcut : ∀ d ∈ consecutiveDistances vinc
      (keptAfterFirst (sortGCPs op.input_width op.ground_control_points)), ¬ d > 2000) :
    ∃ s, prepareSegmentsAndSplitCuts vinc center 1 op = some [s] ∧
      s.y_start = 0 ∧ s.y_end = (op.input_height : Int) ∧
      s.gcps = op.ground_control_points := by
  obtain ⟨v, hv, h2, h3⟩ := segment_count_needs_three vinc op hlen 1 hcount
  obtain ⟨hstart, hend⟩ := single_slice_bounds op
  have hslice := single_slice_gcps op hy
  have hsl : (sortGCPs op.input_width op.ground_control_points).length < SIZE_MOD := by
    rw [sortGCPs, List.length_insertionSort]; exact hlen
  have hpos : 0 < (sortGCPs op.input_width op.ground_control_points).length := by
    rw [sortGCPs, List.length_insertionSort]; omega
  have hkept : v.toList = keptAfterFirst (sortGCPs op.input_width op.ground_control_points) := by
    obtain ⟨v', e1, e2⟩ := filterGCPs_spec _ hpos hsl
    rw [hv, Option.some.injEq] at e1
    rw [e1]
    exact e2
  have hcl := slice_cut_of_filter vinc 1 op 0 hlen v (by rw [hslice]; exact hv) (by omega)
  rw [hkept, cutOf_no_far vinc _ _ hcut] at hcl
  have hsc : sliceCandidates vinc 1 op 0 = some [⟨0, op.input_height, true, true⟩] := by
    rw [sliceCandidates_eq, hslice, hv, Option.some_bind, hcl, Option.some_bind, hstart, hend]
    rfl
  have hcr : candidateRanges vinc 1 op = some [⟨0, op.input_height, true, true⟩] := by
    rw [candidateRanges_one, hsc]
    rfl
  refine ⟨generateSeg vinc center op 0 op.input_height true true, ?_,
    generateSeg_full_range vinc center op true true hy⟩
  unfold prepareSegmentsAndSplitCuts
  rw [hcr]
  rfl

/-- Witness for C12: six scanlines 100 km apart in a source of height 10. -/
theorem C12_single_segment_witness :
    ∃ s, prepareSegmentsAndSplitCuts flatDistance centerMean 1 (opOf 10 gcpsShortTrack)
        = some [s] ∧
      s.y_start = 0 ∧ s.y_end = ((opOf 10 gcpsShortTrack).input_height : Int) ∧
      s.gcps = (opOf 10 gcpsShortTrack).ground_control_points :=
  C12_single_segment flatDistance centerMean (opOf 10 gcpsShortTrack) (by decide) (by decide!)
    (by decide!) (by decide!)

/-- C16, as stated, fails: in a slice whose filtered scanlines 1, 2, 3 are
3000 km apart each, the first pair beyond 2000 km ends at scanline 2, and the
cut position used is 3. -/
theorem C16_counterexample :
    (filterGCPs (Vec.ofList (sortGCPs 10 (sliceGCPs 1 (opOf 10 gcpsTwoGaps) 0)))).map Vec.toList
        = some [gcpAt 1 0 0, gcpAt 2 0 30, gcpAt 3 0 60] ∧
      consecutiveDistances flatDistance [gcpAt 1 0 0, gcpAt 2 0 30, gcpAt 3 0 60]
        = [3000, 3000] ∧
      candidateRanges flatDistance 1 (opOf 10 gcpsTwoGaps)
        = some [⟨0, 3, true, false⟩, ⟨3, 10, false, true⟩] := by
  refine ⟨by decide!, by decide!, by decide!⟩

/-- C16 (amended): when the sequence the scanline filter leaves of a slice
contains consecutive pairs farther apart than 2000 km, the cut position is
the `y`, converted to `int`, of the second GCP of the last such pair in scan
order, and the slice is split there. -/
theorem C16_cut_is_last_far_pair (vinc : ℚ → ℚ → ℚ → ℚ → ℚ) (nsegs : ℚ) (hpos : 0 < nsegs)
    (op : WarpOperation) (hlen : op.ground_control_points.length < SIZE_MOD) (k : Nat)
    (dedup : Vec GCP)
    (hfilter : filterGCPs (Vec.ofList (sortGCPs op.input_width (sliceGCPs nsegs op k)))
      = some dedup)
    (pre post : List GCP) (g1 g2 : GCP) (hsplit : dedup.toList = pre ++ g1 :: g2 :: post)
    (hfar : vinc g1.lat g1.lon g2.lat g2.lon > 2000)
    (hlast : ∀ d ∈ consecutiveDistances vinc (g2 :: post), ¬ d > 2000) :
    cutLoop vinc (sizeMinusOne dedup.size) 0 dedup (-1) = some (truncInt g2.y) ∧
    sliceCandidates vinc nsegs op k
      = some [⟨sliceStart nsegs op k, truncInt g2.y, true, false⟩,
              ⟨truncInt g2.y, sliceEnd nsegs op k, false, true⟩] := by
  have hsz : 1 ≤ dedup.size := by
    have h1 : dedup.toList.length ≤ dedup.size := by
      unfold Vec.toList
      rw [List.length_take]
      exact Nat.min_le_left _ _
    rw [hsplit] at h1
    simp only [List.length_append, List.length_cons] at h1
    omega
  have hcl := slice_cut_of_filter vinc nsegs op k hlen dedup hfilter hsz
  rw [hsplit, cutOf_last vinc g1 g2 post hfar hlast] at hcl
  have hmem : g2 ∈ sliceGCPs nsegs op k := by
    have h1 : g2 ∈ dedup.toList := by rw [hsplit]; simp
    have h2 : g2 ∈ dedup.buf := List.mem_of_mem_take h1
    exact (mem_sortGCPs _ _ g2).mp (filterGCPs_mem _ _ hfilter g2 h2)
  have hge : sliceStart nsegs op k ≤ truncInt g2.y :=
    le_truncInt (mem_sliceGCPs nsegs op k g2 hmem).1
  have hne : truncInt g2.y ≠ -1 := by
    have := sliceStart_nonneg nsegs hpos op k
    omega
  refine ⟨hcl, ?_⟩
  rw [sliceCandidates_eq, hfilter, Option.some_bind, hcl, Option.some_bind, if_pos hne]

/-- Witness for C16 (amended): the slice of `gcpsTwoGaps`, cut at scanline
3. -/
theorem C16_cut_is_last_far_pair_witness :
    cutLoop flatDistance
        (sizeMinusOne (⟨[gcpAt 1 0 0, gcpAt 2 0 30, gcpAt 3 0 60, gcpAt 3 0 60], 3⟩ : Vec GCP).size)
        0 ⟨[gcpAt 1 0 0, gcpAt 2 0 30, gcpAt 3 0 60, gcpAt 3 0 60], 3⟩ (-1)
      = some (truncInt (gcpAt 3 0 60).y) ∧
    sliceCandidates flatDistance 1 (opOf 10 gcpsTwoGaps) 0
      = some [⟨sliceStart 1 (opOf 10 gcpsTwoGaps) 0, truncInt (gcpAt 3 0 60).y, true, false⟩,
              ⟨truncInt (gcpAt 3 0 60).y, sliceEnd 1 (opOf 10 gcpsTwoGaps) 0, false, true⟩] :=
  C16_cut_is_last_far_pair flatDistance 1 (by norm_num) (opOf 10 gcpsTwoGaps) (by decide) 0
    ⟨[gcpAt 1 0 0, gcpAt 2 0 30, gcpAt 3 0 60, gcpAt 3 0 60], 3⟩ (by decide!)
    [gcpAt 1 0 0] [] (gcpAt 2 0 30) (gcpAt 3 0 60) (by decide!) (by decide!) (by decide!)

/-! ## Theorems on the longitude shift -/

/-- C17, as stated, fails: the segment built for four GCPs of mean longitude
5.5 degrees, none of them near a pole, gets `shift_lon = -5`, not -5.5. -/
theorem C17_counterexample :
    prepareSegmentsAndSplitCuts flatDistance centerMean 1 (opOf 4 gcpsZigzag)
        = some [segZigzag] ∧
      (∀ g ∈ segZigzag.gcps, ¬ flatDistance g.lat g.lon (-90) 0 < 1000 ∧
        ¬ flatDistance g.lat g.lon 90 0 < 1000) ∧
      (centerMean segZigzag.gcps).1 = 11 / 2 ∧
      ((segZigzag.shift_lon : Int) : ℚ) ≠ -(centerMean segZigzag.gcps).1 := by
  refine ⟨by decide!, by decide!, by decide!, by decide!⟩

/-- C17 (amended): for every emitted segment with no GCP within 1000 km of
either pole, `shift_lat` is 0 and `shift_lon`, an `int`, is the negated
center longitude of `computeGCPCenter` truncated toward zero; it equals the
negated center longitude exactly when that longitude is an integer. -/
theorem C17_shift_lon_truncated (vinc : ℚ → ℚ → ℚ → ℚ → ℚ) (center : List GCP → ℚ × ℚ)
    (nsegs : ℚ) (op : WarpOperation) (segs : List SegmentConfig)
    (h : prepareSegmentsAndSplitCuts vinc center nsegs op = some segs)
    (s : SegmentConfig) (hs : s ∈ segs)
    (hfar : ∀ g ∈ s.gcps, ¬ vinc g.lat g.lon (-90) 0 < 1000 ∧ ¬ vinc g.lat g.lon 90 0 < 1000) :
    s.shift_lat = 0 ∧ s.shift_lon = truncInt (-(center s.gcps).1) ∧
    (((s.shift_lon : Int) : ℚ) = -(center s.gcps).1 ↔ ∃ k : Int, (center s.gcps).1 = (k : ℚ)) := by
  obtain ⟨c, rfl⟩ := mem_prepareSegments vinc center nsegs op segs h s hs
  have hsh := generateSeg_shift vinc center op c.start c.stop c.start_overlap c.end_overlap
  rw [poleOverride_none vinc _ _ hfar, Prod.mk.injEq] at hsh
  refine ⟨hsh.2, hsh.1, ?_⟩
  rw [hsh.1]
  exact truncInt_neg_exact_iff _

/-- Witness for C17 (amended): the segment of `gcpsZigzag`. -/
theorem C17_shift_lon_truncated_witness :
    segZigzag.shift_lat = 0 ∧ segZigzag.shift_lon = truncInt (-(centerMean segZigzag.gcps).1) ∧
    (((segZigzag.shift_lon : Int) : ℚ) = -(centerMean segZigzag.gcps).1 ↔
      ∃ k : Int, (centerMean segZigzag.gcps).1 = (k : ℚ)) :=
  C17_shift_lon_truncated flatDistance centerMean 1 (opOf 4 gcpsZigzag) [segZigzag]
    (by decide!) segZigzag (by decide!) (by decide!)

/-! ## Theorems on overlap expansion -/

/-- C20: for GCPs with integer `y` in `[0, source_height)`, a source height
below `INT_MAX` and a range `0 <= y_start <= y_end <= source_height`: with
`start_overlap` set, the GCP scanline nearest below `y_start` lies in the
range that `updateGCPOverlap` returns; with `end_overlap` set, the GCP
scanline nearest above `y_end` lies in it; and a single pass on a range
`(a, b)` moves a flagged boundary that has such a neighbour outward by the
distance to it plus 1. -/
theorem C20_overlap_reaches_neighbours (op : WarpOperation) (scfg : SegmentConfig)
    (so eo : Bool)
    (hint : ∀ g ∈ op.ground_control_points,
      ((⌊g.y⌋ : Int) : ℚ) = g.y ∧ 0 ≤ g.y ∧ g.y < (op.input_height : ℚ))
    (hr : 0 ≤ scfg.y_start ∧ scfg.y_start ≤ scfg.y_end ∧ scfg.y_end ≤ (op.input_height : Int))
    (hh : (op.input_height : Int) < INT_MAX) :
    (so = true → ∀ g ∈ op.ground_control_points, g.y < (scfg.y_start : ℚ) →
      (∀ g' ∈ op.ground_control_points, g'.y < (scfg.y_start : ℚ) → g'.y ≤ g.y) →
      ((updateGCPOverlap op scfg so eo).y_start : ℚ) ≤ g.y ∧
      g.y < ((updateGCPOverlap op scfg so eo).y_end : ℚ)) ∧
    (eo = true → ∀ g ∈ op.ground_control_points, (scfg.y_end : ℚ) < g.y →
      (∀ g' ∈ op.ground_control_points, (scfg.y_end : ℚ) < g'.y → g.y ≤ g'.y) →
      ((updateGCPOverlap op scfg so eo).y_start : ℚ) ≤ g.y ∧
      g.y < ((updateGCPOverlap op scfg so eo).y_end : ℚ)) ∧
    (∀ a b : Int, a ≤ (op.input_height : Int) → 0 ≤ b →
      (so = true → ∀ g ∈ op.ground_control_points, g.y < (a : ℚ) →
        (∀ g' ∈ op.ground_control_points, g'.y < (a : ℚ) → g'.y ≤ g.y) →
        (((overlapPass op.ground_control_points so eo (a, b)).1 : Int) : ℚ)
          = (a : ℚ) - (((a : ℚ) - g.y) + 1)) ∧
      (eo = true → ∀ g ∈ op.ground_control_points, (b : ℚ) < g.y →
        (∀ g' ∈ op.ground_control_points, (b : ℚ) < g'.y → g.y ≤ g'.y) →
        (((overlapPass op.ground_control_points so eo (a, b)).2 : Int) : ℚ)
          = (b : ℚ) + ((g.y - (b : ℚ)) + 1))) := by
  have hex : ∀ g' ∈ op.ground_control_points, ∃ k' : Int, g'.y = (k' : ℚ) :=
    fun g' hg' => ⟨⌊g'.y⌋, (hint g' hg').1.symm⟩
  have hbounds : ∀ g ∈ op.ground_control_points, ∀ k : Int, g.y = (k : ℚ) →
      0 ≤ k ∧ k < (op.input_height : Int) := by
    intro g hg k hk
    obtain ⟨_, h0, h1⟩ := hint g hg
    rw [hk] at h0 h1
    exact ⟨by exact_mod_cast h0, by exact_mod_cast h1⟩
  have single : ∀ a b : Int, a ≤ (op.input_height : Int) → 0 ≤ b →
      (so = true → ∀ g ∈ op.ground_control_points, g.y < (a : ℚ) →
        (∀ g' ∈ op.ground_control_points, g'.y < (a : ℚ) → g'.y ≤ g.y) →
        ∀ k : Int, g.y = (k : ℚ) →
        (overlapPass op.ground_control_points so eo (a, b)).1 = a - ((a - k) + 1)) ∧
      (eo = true → ∀ g ∈ op.ground_control_points, (b : ℚ) < g.y →
        (∀ g' ∈ op.ground_control_points, (b : ℚ) < g'.y → g.y ≤ g'.y) →
        ∀ k : Int, g.y = (k : ℚ) →
        (overlapPass op.ground_control_points so eo (a, b)).2 = b + ((k - b) + 1)) := by
    intro a b ha hb
    constructor
    · intro hso g hg hlt hnear k hk
      subst hso
      obtain ⟨k0, k1⟩ := hbounds g hg k hk
      have hka : k < a := by rw [hk] at hlt; exact_mod_cast hlt
      exact overlapPass_start_nearest _ eo a b g k hex hg hk hka (by omega) hnear
    · intro heo g hg hlt hnear k hk
      subst heo
      obtain ⟨k0, k1⟩ := hbounds g hg k hk
      have hkb : b < k := by rw [hk] at hlt; exact_mod_cast hlt
      exact overlapPass_end_nearest _ so a b g k hex hg hk hkb (by omega) hnear
  obtain ⟨hr0, hr1, hr2⟩ := hr
  cases hP1 : overlapPass op.ground_control_points so eo (scfg.y_start, scfg.y_end) with
  | mk a1 b1 =>
  cases hP2 : overlapPass op.ground_control_points so eo (a1, b1) with
  | mk a2 b2 =>
  obtain ⟨es, ee⟩ := updateGCPOverlap_eq op scfg so eo a1 b1 a2 b2 hP1 hP2
  have w1 := overlapPass_widens op.ground_control_points so eo scfg.y_start scfg.y_end
  have w2 := overlapPass_widens op.ground_control_points so eo a1 b1
  rw [hP1] at w1
  rw [hP2] at w2
  dsimp only at w1 w2
  refine ⟨?_, ?_, ?_⟩
  · intro hso g hg hlt hnear
    obtain ⟨k, hk⟩ := hex g hg
    obtain ⟨k0, k1⟩ := hbounds g hg k hk
    have hka : k < scfg.y_start := by rw [hk] at hlt; exact_mod_cast hlt
    have e1 := (single scfg.y_start scfg.y_end (by omega) (by omega)).1 hso g hg hlt hnear k hk
    rw [hP1] at e1
    dsimp only at e1
    rw [es, ee, hk]
    constructor
    · have : (if a2 < 0 then (0 : Int) else a2) ≤ k := by split <;> omega
      exact_mod_cast this
    · have : k < (if b2 < 0 ∨ (op.input_height : Int) < b2 then (op.input_height : Int) else b2) := by
        split <;> omega
      exact_mod_cast this
  · intro heo g hg hlt hnear
    obtain ⟨k, hk⟩ := hex g hg
    obtain ⟨k0, k1⟩ := hbounds g hg k hk
    have hkb : scfg.y_end < k := by rw [hk] at hlt; exact_mod_cast hlt
    have e1 := (single scfg.y_start scfg.y_end (by omega) (by omega)).2 heo g hg hlt hnear k hk
    rw [hP1] at e1
    dsimp only at e1
    rw [es, ee, hk]
    constructor
    · have : (if a2 < 0 then (0 : Int) else a2) ≤ k := by split <;> omega
      exact_mod_cast this
    · have : k < (if b2 < 0 ∨ (op.input_height : Int) < b2 then (op.input_height : Int) else b2) := by
        split <;> omega
      exact_mod_cast this
  · intro a b ha hb
    obtain ⟨s1, s2⟩ := single a b ha hb
    constructor
    · intro hso g hg hlt hnear
      obtain ⟨k, hk⟩ := hex g hg
      rw [s1 hso g hg hlt hnear k hk, hk]
      push_cast
      ring
    · intro heo g hg hlt hnear
      obtain ⟨k, hk⟩ := hex g hg
      rw [s2 heo g hg hlt hnear k hk, hk]
      push_cast
      ring

/-- Witness for C20: in `gcpsCutTrack` the scanline nearest below 3 is
scanline 2 and the scanline nearest above 6 is scanline 7; the range
`[3, 6)` grows to `[0, 8)`, which holds both. -/
theorem C20_overlap_reaches_neighbours_witness :
    (updateGCPOverlap (opOf 10 gcpsCutTrack) scfgMiddle true true).y_start = 0 ∧
    (updateGCPOverlap (opOf 10 gcpsCutTrack) scfgMiddle true true).y_end = 8 ∧
    (((updateGCPOverlap (opOf 10 gcpsCutTrack) scfgMiddle true true).y_start : ℚ)
        ≤ (gcpAt 2 0 31).y ∧
      (gcpAt 2 0 31).y
        < ((updateGCPOverlap (opOf 10 gcpsCutTrack) scfgMiddle true true).y_end : ℚ)) ∧
    (((updateGCPOverlap (opOf 10 gcpsCutTrack) scfgMiddle true true).y_start : ℚ)
        ≤ (gcpAt 7 0 33).y ∧
      (gcpAt 7 0 33).y
        < ((updateGCPOverlap (opOf 10 gcpsCutTrack) scfgMiddle true true).y_end : ℚ)) :=
  ⟨by decide!, by decide!,
   (C20_overlap_reaches_neighbours (opOf 10 gcpsCutTrack) scfgMiddle true true
      (by decide!) (by decide) (by decide)).1 rfl (gcpAt 2 0 31) (by decide!) (by decide!)
      (by decide!),
   (C20_overlap_reaches_neighbours (opOf 10 gcpsCutTrack) scfgMiddle true true
      (by decide!) (by decide) (by decide)).2.1 rfl (gcpAt 7 0 33) (by decide!) (by decide!)
      (by decide!)⟩

/-! ## Theorems on the mosaic -/

/-- C13: whenever `performSmartWarp` returns, `ensureMemoryLimit` has returned
crop settings `C`, the result raster is `C.x_max - C.x_min` wide and
`C.y_max - C.y_min` high, and the corners are `(0, 0, lon_min, lat_max)`,
`(W - 1, 0, lon_max, lat_max)`, `(0, H - 1, lon_min, lat_min)` and
`(W - 1, H - 1, lon_max, lat_min)`, whatever the warper and the projection
return for the segments. -/
theorem C13_result_geometry (planner : WarpOperation → WarpCropSettings)
    (vinc : ℚ → ℚ → ℚ → ℚ → ℚ) (center : List GCP → ℚ × ℚ)
    (warp : WarpOperation → SegmentConfig → WarpResult)
    (projector : Nat → Nat → ℚ → ℚ → ℚ → ℚ → ℚ → ℚ → Int × Int)
    (fuel : Nat) (op : WarpOperation) (res : WarpResult)
    (h : performSmartWarp planner vinc center warp projector fuel op = some res) :
    ∃ (C : WarpCropSettings) (op' : WarpOperation),
      ensureMemoryLimit planner fuel (planner op) op
        (if op.output_rgba = true then 4 else op.input_channels) 4000000000 = some (C, op') ∧
      (res.output_image.width : Int) = C.x_max - C.x_min ∧
      (res.output_image.height : Int) = C.y_max - C.y_min ∧
      res.top_left = ⟨0, 0, C.lon_min, C.lat_max⟩ ∧
      res.top_right = ⟨((C.x_max - C.x_min : Int) : ℚ) - 1, 0, C.lon_max, C.lat_max⟩ ∧
      res.bottom_left = ⟨0, ((C.y_max - C.y_min : Int) : ℚ) - 1, C.lon_min, C.lat_min⟩ ∧
      res.bottom_right = ⟨((C.x_max - C.x_min : Int) : ℚ) - 1,
        ((C.y_max - C.y_min : Int) : ℚ) - 1, C.lon_max, C.lat_min⟩ := by
  unfold performSmartWarp at h
  simp only [Option.bind_eq_bind, Option.bind_eq_some] at h
  obtain ⟨lim, hlim, img, himg, nsegs, _, segs, _, hfold⟩ := h
  obtain ⟨k1, k2, k3, k4, k5, k6, _⟩ := compositeFold_keeps _ _ _ _ _ _ hfold
  obtain ⟨w, hh⟩ := newImage_dims _ _ _ _ himg
  dsimp only at k1 k2 k3 k4 k5 k6
  have ew : (img.width : ℚ) = ((lim.1.x_max - lim.1.x_min : Int) : ℚ) := by
    rw [← w]; simp
  have eh : (img.height : ℚ) = ((lim.1.y_max - lim.1.y_min : Int) : ℚ) := by
    rw [← hh]; simp
  refine ⟨lim.1, lim.2, hlim, ?_, ?_, k1, ?_, ?_, ?_⟩
  · rw [k5]; exact w
  · rw [k6]; exact hh
  · rw [k2, ew]
  · rw [k3, eh]
  · rw [k4, ew, eh]

/-- Witness for C13: the 5 x 5 RGBA mosaic of `opShortRGBA` for longitudes -10
to 10 and latitudes -5 to 5. -/
theorem C13_result_geometry_witness :
    ∃ (C : WarpCropSettings) (op' : WarpOperation),
      ensureMemoryLimit plannerBox 3 (plannerBox opShortRGBA) opShortRGBA
        (if opShortRGBA.output_rgba = true then 4 else opShortRGBA.input_channels) 4000000000
        = some (C, op') ∧
      (resShortRGBA.output_image.width : Int) = C.x_max - C.x_min ∧
      (resShortRGBA.output_image.height : Int) = C.y_max - C.y_min ∧
      resShortRGBA.top_left = ⟨0, 0, C.lon_min, C.lat_max⟩ ∧
      resShortRGBA.top_right = ⟨((C.x_max - C.x_min : Int) : ℚ) - 1, 0, C.lon_max, C.lat_max⟩ ∧
      resShortRGBA.bottom_left
        = ⟨0, ((C.y_max - C.y_min : Int) : ℚ) - 1, C.lon_min, C.lat_min⟩ ∧
      resShortRGBA.bottom_right = ⟨((C.x_max - C.x_min : Int) : ℚ) - 1,
        ((C.y_max - C.y_min : Int) : ℚ) - 1, C.lon_max, C.lat_min⟩ :=
  C13_result_geometry plannerBox flatDistance centerMean warpDot projectorLinear 3 opShortRGBA
    resShortRGBA (by decide!)

/-- C19: when a segment raster is folded (offset not the sentinel, equal
channel counts), the fold is the pixel step run over the pairs of the two
loops; a visited pair that fails the test `y + y2 >= 0 && x + x2 >= 0`
touches neither raster; every other visited pair has `x < w2`, `y < h2`,
`0 <= x + x2 < W` and `0 <= y + y2 < H`, so that its source index is below
`w2 * h2` and its destination index below `W * H`; and with four full channel
planes in both rasters the fold returns a raster, for every size and every
offset. -/
theorem C19_pixel_indices_in_bounds (result result2 : Image) (x2 y2 : Int)
    (hfold : ¬ (x2 = -1 ∨ y2 = -1)) (hch : result2.channels = result.channels) :
    compositeSegment result result2 x2 y2 =
      (visitedPixels (min (result.width : Int) (x2 + result2.width) - x2).toNat
        (min (result.height : Int) (y2 + result2.height) - y2).toNat).foldlM
        (fun r p => compositePixel result2 x2 y2 p.1 p.2 r) result ∧
    (∀ p ∈ visitedPixels (min (result.width : Int) (x2 + result2.width) - x2).toNat
        (min (result.height : Int) (y2 + result2.height) - y2).toNat,
      ¬ inOverlap result result2 x2 y2 p.1 p.2 →
        ∀ r, compositePixel result2 x2 y2 p.1 p.2 r = some r) ∧
    (∀ x y, inOverlap result result2 x2 y2 x y →
      x < result2.width ∧ y < result2.height ∧
      0 ≤ (x : Int) + x2 ∧ (x : Int) + x2 < result.width ∧
      0 ≤ (y : Int) + y2 ∧ (y : Int) + y2 < result.height ∧
      srcIndex result2 x y < result2.width * result2.height ∧
      destIndex result x2 y2 x y
        = ((y : Int) + y2).toNat * result.width + ((x : Int) + x2).toNat ∧
      destIndex result x2 y2 x y < result.width * result.height) ∧
    (4 * (result2.width * result2.height) ≤ result2.data.length →
      4 * (result.width * result.height) ≤ result.data.length →
      ∃ r', compositeSegment result result2 x2 y2 = some r') :=
  ⟨compositeSegment_eq result result2 x2 y2 hfold hch,
   fun p hp hn r => compositePixel_skip result2 x2 y2 p.1 p.2 r
     (Or.inl (fun hg => hn (mem_visited_inOverlap result result2 x2 y2 p hp hg))),
   fun x y h => inOverlap_bounds result result2 x2 y2 x y h,
   compositeSegment_total result result2 x2 y2⟩

/-- Witness for C19: a 2 x 1 raster folded at offset (2, 0) into a 3 x 1
raster, so that only its first pixel is inside. -/
theorem C19_pixel_indices_in_bounds_witness :
    compositeSegment imgStrip segOnes 2 0 =
      (visitedPixels (min (imgStrip.width : Int) (2 + segOnes.width) - 2).toNat
        (min (imgStrip.height : Int) (0 + segOnes.height) - 0).toNat).foldlM
        (fun r p => compositePixel segOnes 2 0 p.1 p.2 r) imgStrip ∧
    (∀ p ∈ visitedPixels (min (imgStrip.width : Int) (2 + segOnes.width) - 2).toNat
        (min (imgStrip.height : Int) (0 + segOnes.height) - 0).toNat,
      ¬ inOverlap imgStrip segOnes 2 0 p.1 p.2 →
        ∀ r, compositePixel segOnes 2 0 p.1 p.2 r = some r) ∧
    (∀ x y, inOverlap imgStrip segOnes 2 0 x y →
      x < segOnes.width ∧ y < segOnes.height ∧
      0 ≤ (x : Int) + 2 ∧ (x : Int) + 2 < imgStrip.width ∧
      0 ≤ (y : Int) + 0 ∧ (y : Int) + 0 < imgStrip.height ∧
      srcIndex segOnes x y < segOnes.width * segOnes.height ∧
      destIndex imgStrip 2 0 x y
        = ((y : Int) + 0).toNat * imgStrip.width + ((x : Int) + 2).toNat ∧
      destIndex imgStrip 2 0 x y < imgStrip.width * imgStrip.height) ∧
    (4 * (segOnes.width * segOnes.height) ≤ segOnes.data.length →
      4 * (imgStrip.width * imgStrip.height) ≤ imgStrip.data.length →
      ∃ r', compositeSegment imgStrip segOnes 2 0 = some r') :=
  C19_pixel_indices_in_bounds imgStrip segOnes 2 0 (by decide) (by decide)

/-- C18 fails on the code: the pixel step reads channel 3 as alpha and copies
channels 0, 1 and 2, whatever the channel count.  With three channels in both
rasters the read of channel 3 at the only pixel is outside the three samples
of the segment raster, and neither the fold nor `performSmartWarp` on a
three-channel operation without RGBA output returns a raster; with five
channels the fold overwrites channel 3 with 65535 and leaves channel 4 of the
final raster at 0, where the segment holds 9. -/
theorem C18_channel_layout_fixed :
    segThree.channels = imgThree.channels ∧
    inOverlap imgThree segThree 0 0 0 0 ∧
    segThree.get 3 (srcIndex segThree 0 0) = none ∧
    compositeSegment imgThree segThree 0 0 = none ∧
    performSmartWarp plannerBox flatDistance centerMean warpDotRGB projectorLinear 3 opShortRGB
      = none ∧
    segFive.channels = imgFive.channels ∧
    segFive.get 4 (srcIndex segFive 0 0) = some 9 ∧
    compositeSegment imgFive segFive 0 0 = some { imgFive with data := [5, 6, 7, 65535, 0] } :=
  ⟨by decide, by unfold inOverlap; decide, by decide, by decide, by decide!, by decide,
   by decide, by decide⟩

/-- C11: when a segment raster `A` and then a segment raster `B` are folded
into the raster `R`, every destination pixel under a pixel of `B` with nonzero
alpha inside the overlap rectangle of `B` holds the values of `B` in channels
0, 1 and 2 afterwards, whatever `A` wrote there; a destination pixel under a
pixel of `A` with nonzero alpha and under no pixel of `B` with nonzero alpha
holds the values of `A`; and there are two overlapping segment rasters whose
fold in the two orders gives two different mosaics. -/
theorem C11_later_segment_wins (R A B R1 R2 : Image) (xa ya xb yb : Int)
    (hfa : ¬ (xa = -1 ∨ ya = -1)) (hca : A.channels = R.channels)
    (hfb : ¬ (xb = -1 ∨ yb = -1)) (hcb : B.channels = R.channels)
    (hA : compositeSegment R A xa ya = some R1)
    (hB : compositeSegment R1 B xb yb = some R2) :
    (∀ x y b, inOverlap R B xb yb x y → B.get 3 (srcIndex B x y) = some b → b > 0 →
      ∀ ch, ch < 3 → R2.get ch (destIndex R xb yb x y) = B.get ch (srcIndex B x y)) ∧
    (∀ x y a, inOverlap R A xa ya x y → A.get 3 (srcIndex A x y) = some a → a > 0 →
      (∀ x' y' b, inOverlap R B xb yb x' y' → B.get 3 (srcIndex B x' y') = some b → b > 0 →
        destIndex R xb yb x' y' ≠ destIndex R xa ya x y) →
      ∀ ch, ch < 3 → R2.get ch (destIndex R xa ya x y) = A.get ch (srcIndex A x y)) ∧
    (∃ (S P Q M N M' N' : Image) (p q : Int),
      compositeSegment S P p 0 = some M ∧ compositeSegment M Q q 0 = some N ∧
      compositeSegment S Q q 0 = some M' ∧ compositeSegment M' P p 0 = some N' ∧ N ≠ N') := by
  obtain ⟨d1, d2, d3, _⟩ := compositeSegment_dims R A xa ya R1 hA
  refine ⟨?_, ?_, ?_⟩
  · intro x y b hin hb hpos ch hlt
    have hin1 : inOverlap R1 B xb yb x y := (inOverlap_dims R1 R B xb yb x y d1 d2).2 hin
    have hw := (compositeSegment_written R1 B xb yb R2 hfb (hcb.trans d3.symm) hB
      x y b hin1 hb hpos).1 ch hlt
    rw [destIndex_width R1 R xb yb x y d1] at hw
    exact hw
  · intro x y a hin ha hpos hfree ch hlt
    have hi : destIndex R xa ya x y < R1.width * R1.height := by
      rw [d1, d2]
      exact (inOverlap_bounds R A xa ya x y hin).2.2.2.2.2.2.2.2
    have hkeep := compositeSegment_frame R1 B xb yb R2 hB ch (destIndex R xa ya x y) hi
      (fun x' y' b hin' hb hb0 => by
        rw [destIndex_width R1 R xb yb x' y' d1]
        exact hfree x' y' b ((inOverlap_dims R1 R B xb yb x' y' d1 d2).1 hin') hb hb0)
    rw [hkeep]
    exact (compositeSegment_written R A xa ya R1 hfa hca hA x y a hin ha hpos).1 ch hlt
  · exact ⟨imgStrip, segOnes, segTwos, imgOnes, imgOnesThenTwos,
      { imgStrip with data := [0, 2, 2, 0, 2, 2, 0, 2, 2, 0, 65535, 65535] }, imgTwosThenOnes,
      0, 1, by decide, by decide, by decide, by decide, by decide⟩

/-- Witness for C11: two opaque 2 x 1 rasters folded at offsets 0 and 1 into a
3 x 1 raster; the middle pixel, which both cover, holds the colour of the one
folded last. -/
theorem C11_later_segment_wins_witness :
    (∀ x y b, inOverlap imgStrip segTwos 1 0 x y →
      segTwos.get 3 (srcIndex segTwos x y) = some b → b > 0 →
      ∀ ch, ch < 3 → imgOnesThenTwos.get ch (destIndex imgStrip 1 0 x y)
        = segTwos.get ch (srcIndex segTwos x y)) ∧
    (∀ x y a, inOverlap imgStrip segOnes 0 0 x y →
      segOnes.get 3 (srcIndex segOnes x y) = some a → a > 0 →
      (∀ x' y' b, inOverlap imgStrip segTwos 1 0 x' y' →
        segTwos.get 3 (srcIndex segTwos x' y') = some b → b > 0 →
        destIndex imgStrip 1 0 x' y' ≠ destIndex imgStrip 0 0 x y) →
      ∀ ch, ch < 3 → imgOnesThenTwos.get ch (destIndex imgStrip 0 0 x y)
        = segOnes.get ch (srcIndex segOnes x y)) ∧
    (∃ (S P Q M N M' N' : Image) (p q : Int),
      compositeSegment S P p 0 = some M ∧ compositeSegment M Q q 0 = some N ∧
      compositeSegment S Q q 0 = some M' ∧ compositeSegment M' P p 0 = some N' ∧ N ≠ N') :=
  C11_later_segment_wins imgStrip segOnes segTwos imgOnes imgOnesThenTwos 0 0 1 0
    (by decide) (by decide) (by decide) (by decide) (by decide) (by decide)

/-! ## Theorems on the emitted ranges and their GCPs -/

/-- C26: for every range `0 <= y_start <= y_end <= source_height`, every GCP
list and every combination of the two flags, `updateGCPOverlap` returns a
range with `y_start' <= y_start`, `y_end <= y_end'` and `y_start' <= y_end'`:
the expanded segment contains the requested range. -/
theorem C26_overlap_only_widens (op : WarpOperation) (scfg : SegmentConfig) (so eo : Bool)
    (h : 0 ≤ scfg.y_start ∧ scfg.y_start ≤ scfg.y_end ∧ scfg.y_end ≤ (op.input_height : Int)) :
    (updateGCPOverlap op scfg so eo).y_start ≤ scfg.y_start ∧
    scfg.y_end ≤ (updateGCPOverlap op scfg so eo).y_end ∧
    (updateGCPOverlap op scfg so eo).y_start ≤ (updateGCPOverlap op scfg so eo).y_end := by
  obtain ⟨w1, w2⟩ := updateGCPOverlap_widens op scfg so eo h
  exact ⟨w1, w2, le_trans w1 (le_trans h.2.1 w2)⟩

/-- Witness for C26: in `gcpsCutTrack` the range `[3, 6)` with both flags set
grows to `[0, 8)`. -/
theorem C26_overlap_only_widens_witness :
    (updateGCPOverlap (opOf 10 gcpsCutTrack) scfgMiddle true true).y_start ≤ scfgMiddle.y_start ∧
    scfgMiddle.y_end ≤ (updateGCPOverlap (opOf 10 gcpsCutTrack) scfgMiddle true true).y_end ∧
    (updateGCPOverlap (opOf 10 gcpsCutTrack) scfgMiddle true true).y_start
      ≤ (updateGCPOverlap (opOf 10 gcpsCutTrack) scfgMiddle true true).y_end :=
  C26_overlap_only_widens (opOf 10 gcpsCutTrack) scfgMiddle true true (by decide)

/-- C22: when the slice `[slice_start, slice_end)` with `0 <= slice_start`
and `slice_end <= source_height` has a cut at `c`, the two calls of
`generateSeg` are `(slice_start, c, true, false)` and
`(c, slice_end, false, true)`, the first emitted segment has `y_end = c` and
the second has `y_start = c`, whatever the GCPs of the operation; and
`updateGCPOverlap` leaves a `y_start >= 0` unchanged when `start_overlap` is
false and a `y_end` in `[0, source_height]` unchanged when `end_overlap` is
false. -/
theorem C22_cut_boundaries_kept (vinc : ℚ → ℚ → ℚ → ℚ → ℚ) (center : List GCP → ℚ × ℚ)
    (nsegs : ℚ) (op : WarpOperation) (k : Nat) (c1 c2 : Candidate)
    (hstart : 0 ≤ sliceStart nsegs op k)
    (hend : sliceEnd nsegs op k ≤ (op.input_height : Int))
    (h : sliceCandidates vinc nsegs op k = some [c1, c2]) :
    c1.start = sliceStart nsegs op k ∧ c1.stop = c2.start ∧ c2.stop = sliceEnd nsegs op k ∧
    c1.start_overlap = true ∧ c1.end_overlap = false ∧
    c2.start_overlap = false ∧ c2.end_overlap = true ∧
    (generateSeg vinc center op c1.start c1.stop c1.start_overlap c1.end_overlap).y_end
      = c1.stop ∧
    (generateSeg vinc center op c2.start c2.stop c2.start_overlap c2.end_overlap).y_start
      = c2.start ∧
    (∀ (scfg : SegmentConfig) (eo : Bool), 0 ≤ scfg.y_start →
      (updateGCPOverlap op scfg false eo).y_start = scfg.y_start) ∧
    (∀ (scfg : SegmentConfig) (so : Bool), 0 ≤ scfg.y_end →
      scfg.y_end ≤ (op.input_height : Int) →
      (updateGCPOverlap op scfg so false).y_end = scfg.y_end) := by
  obtain ⟨v, c, hv, hc, hne, rfl, rfl⟩ := sliceCandidates_pair vinc nsegs op k c1 c2 h
  rcases cutLoop_result vinc _ _ v (-1) c hc with hc' | ⟨g, hg, rfl⟩
  · exact absurd hc' hne
  · have hmem : g ∈ sliceGCPs nsegs op k :=
      (mem_sortGCPs _ _ g).mp (filterGCPs_mem _ _ hv g hg)
    obtain ⟨l1, l2⟩ := mem_sliceGCPs nsegs op k g hmem
    have clo : sliceStart nsegs op k ≤ truncInt g.y := le_truncInt l1
    have chi : truncInt g.y ≤ sliceEnd nsegs op k := truncInt_le (le_of_lt l2)
    refine ⟨rfl, rfl, rfl, rfl, rfl, rfl, rfl, ?_, ?_,
      fun scfg eo h0 => updateGCPOverlap_start_unflagged op scfg eo h0,
      fun scfg so h0 h1 => updateGCPOverlap_end_unflagged op scfg so h0 h1⟩
    · rw [(generateSeg_range vinc center op _ _ _ _).2]
      exact updateGCPOverlap_end_unflagged op _ true (by dsimp only; omega) (by dsimp only; omega)
    · rw [(generateSeg_range vinc center op _ _ _ _).1]
      exact updateGCPOverlap_start_unflagged op _ true (by dsimp only; omega)

/-- Witness for C22: the first of two slices of `gcpsCutTrack` is cut at
scanline 2; the segments emitted for it are `[0, 2)` and `[2, 8)`. -/
theorem C22_cut_boundaries_kept_witness :
    (⟨0, 2, true, false⟩ : Candidate).start = sliceStart 2 (opOf 10 gcpsCutTrack) 0 ∧
    (⟨0, 2, true, false⟩ : Candidate).stop = (⟨2, 5, false, true⟩ : Candidate).start ∧
    (⟨2, 5, false, true⟩ : Candidate).stop = sliceEnd 2 (opOf 10 gcpsCutTrack) 0 ∧
    (⟨0, 2, true, false⟩ : Candidate).start_overlap = true ∧
    (⟨0, 2, true, false⟩ : Candidate).end_overlap = false ∧
    (⟨2, 5, false, true⟩ : Candidate).start_overlap = false ∧
    (⟨2, 5, false, true⟩ : Candidate).end_overlap = true ∧
    (generateSeg flatDistance centerMean (opOf 10 gcpsCutTrack)
      (⟨0, 2, true, false⟩ : Candidate).start (⟨0, 2, true, false⟩ : Candidate).stop
      (⟨0, 2, true, false⟩ : Candidate).start_overlap
      (⟨0, 2, true, false⟩ : Candidate).end_overlap).y_end
      = (⟨0, 2, true, false⟩ : Candidate).stop ∧
    (generateSeg flatDistance centerMean (opOf 10 gcpsCutTrack)
      (⟨2, 5, false, true⟩ : Candidate).start (⟨2, 5, false, true⟩ : Candidate).stop
      (⟨2, 5, false, true⟩ : Candidate).start_overlap
      (⟨2, 5, false, true⟩ : Candidate).end_overlap).y_start
      = (⟨2, 5, false, true⟩ : Candidate).start ∧
    (∀ (scfg : SegmentConfig) (eo : Bool), 0 ≤ scfg.y_start →
      (updateGCPOverlap (opOf 10 gcpsCutTrack) scfg false eo).y_start = scfg.y_start) ∧
    (∀ (scfg : SegmentConfig) (so : Bool), 0 ≤ scfg.y_end →
      scfg.y_end ≤ ((opOf 10 gcpsCutTrack).input_height : Int) →
      (updateGCPOverlap (opOf 10 gcpsCutTrack) scfg so false).y_end = scfg.y_end) :=
  C22_cut_boundaries_kept flatDistance centerMean 2 (opOf 10 gcpsCutTrack) 0
    ⟨0, 2, true, false⟩ ⟨2, 5, false, true⟩ (by decide!) (by decide!) (by decide!)

/-- C23: the GCP list of every emitted segment with final range
`[y_start, y_end)` is the list of the operation's GCPs with
`y_start <= gcp.y < y_end`, in their original order (a sublist of the
operation's list), each with `y` replaced by `gcp.y - y_start` and `x`, `lon`,
`lat` unchanged; every rebased `y` is in `[0, y_end - y_start)`, and adding
`y_start` back gives the original GCPs. -/
theorem C23_segment_gcps_rebased (vinc : ℚ → ℚ → ℚ → ℚ → ℚ) (center : List GCP → ℚ × ℚ)
    (nsegs : ℚ) (op : WarpOperation) (segs : List SegmentConfig)
    (h : prepareSegmentsAndSplitCuts vinc center nsegs op = some segs)
    (s : SegmentConfig) (hs : s ∈ segs) :
    s.gcps = (op.ground_control_points.filter (fun gcp =>
        gcp.y ≥ (s.y_start : ℚ) ∧ gcp.y < (s.y_end : ℚ))).map
      (fun gcp => { gcp with y := gcp.y - (s.y_start : ℚ) }) ∧
    (op.ground_control_points.filter (fun gcp =>
        gcp.y ≥ (s.y_start : ℚ) ∧ gcp.y < (s.y_end : ℚ))).Sublist op.ground_control_points ∧
    (∀ g ∈ s.gcps, 0 ≤ g.y ∧ g.y < (s.y_end : ℚ) - (s.y_start : ℚ)) ∧
    s.gcps.map (fun gcp => { gcp with y := gcp.y + (s.y_start : ℚ) })
      = op.ground_control_points.filter (fun gcp =>
        gcp.y ≥ (s.y_start : ℚ) ∧ gcp.y < (s.y_end : ℚ)) := by
  obtain ⟨c, rfl⟩ := mem_prepareSegments vinc center nsegs op segs h s hs
  have e := generateSeg_gcps vinc center op c.start c.stop c.start_overlap c.end_overlap
  refine ⟨e, List.filter_sublist _, ?_, ?_⟩
  · intro g hg
    rw [e, List.mem_map] at hg
    obtain ⟨g0, hg0, rfl⟩ := hg
    rw [List.mem_filter, decide_eq_true_eq] at hg0
    dsimp only
    constructor <;> linarith [hg0.2.1, hg0.2.2]
  · rw [e, List.map_map]
    conv_rhs => rw [← List.map_id (List.filter _ op.ground_control_points)]
    apply List.map_congr_left
    intro g _
    cases g
    simp

/-- Witness for C23: the second segment of `gcpsCutTrack`, the range
`[2, 8)`, holds the GCPs of the scanlines 2, 5 and 7 as scanlines 0, 3 and
5. -/
theorem C23_segment_gcps_rebased_witness :
    ({ y_start := 2, y_end := 8, shift_lon := 0, shift_lat := 0,
       gcps := [gcpAt 0 0 31, gcpAt 3 0 32, gcpAt 5 0 33] } : SegmentConfig).gcps
      = ((opOf 10 gcpsCutTrack).ground_control_points.filter (fun gcp =>
        gcp.y ≥ ((2 : Int) : ℚ) ∧ gcp.y < ((8 : Int) : ℚ))).map
      (fun gcp => { gcp with y := gcp.y - ((2 : Int) : ℚ) }) :=
  (C23_segment_gcps_rebased flatDistance centerMean 2 (opOf 10 gcpsCutTrack) segsCutTrack
    (by decide!) _ (by decide!)).1

/-- C25: for GCPs with integer `y` and `x` in `[0, width)` (fewer than `2 ^ 64`
of them): whenever the cut search of a slice `[slice_start, slice_end)` finds
a cut position `c`, so that the slice is emitted as `[slice_start, c)` and
`[c, slice_end)`, `slice_start < c < slice_end`: both ranges are non-empty. -/
theorem C25_cut_strictly_inside (vinc : ℚ → ℚ → ℚ → ℚ → ℚ) (nsegs : ℚ) (op : WarpOperation)
    (k : Nat) (c1 c2 : Candidate)
    (hint : ∀ g ∈ op.ground_control_points,
      ((⌊g.y⌋ : Int) : ℚ) = g.y ∧ 0 ≤ g.x ∧ g.x < (op.input_width : ℚ))
    (hlen : op.ground_control_points.length < SIZE_MOD)
    (h : sliceCandidates vinc nsegs op k = some [c1, c2]) :
    c1.start = sliceStart nsegs op k ∧ c1.stop = c2.start ∧ c2.stop = sliceEnd nsegs op k ∧
    c1.start < c1.stop ∧ c2.start < c2.stop := by
  obtain ⟨v, c, hv, hc, hne, rfl, rfl⟩ := sliceCandidates_pair vinc nsegs op k c1 c2 h
  obtain ⟨lo, hi⟩ := slice_cut_strictly_inside vinc nsegs op k
    (fun g hg => ⟨⟨⌊g.y⌋, (hint g hg).1.symm⟩, (hint g hg).2⟩) hlen v c hv hc hne
  exact ⟨rfl, rfl, rfl, lo, hi⟩

/-- Witness for C25: the first of two slices of `gcpsCutTrack`, the range
`[0, 5)`, is cut at scanline 2. -/
theorem C25_cut_strictly_inside_witness :
    (⟨0, 2, true, false⟩ : Candidate).start = sliceStart 2 (opOf 10 gcpsCutTrack) 0 ∧
    (⟨0, 2, true, false⟩ : Candidate).stop = (⟨2, 5, false, true⟩ : Candidate).start ∧
    (⟨2, 5, false, true⟩ : Candidate).stop = sliceEnd 2 (opOf 10 gcpsCutTrack) 0 ∧
    (⟨0, 2, true, false⟩ : Candidate).start < (⟨0, 2, true, false⟩ : Candidate).stop ∧
    (⟨2, 5, false, true⟩ : Candidate).start < (⟨2, 5, false, true⟩ : Candidate).stop :=
  C25_cut_strictly_inside flatDistance 2 (opOf 10 gcpsCutTrack) 0
    ⟨0, 2, true, false⟩ ⟨2, 5, false, true⟩ (by decide!) (by decide) (by decide!)

/-! ## Theorems on the median -/

/-- C24: for `m >= 1` distances, the value read at line 60 is the element at
index `m / 2` of the distances in ascending order.  It is one of the
distances, at least half of the distances are `<=` it and at least half are
`>=` it; for `m = 2 k + 1` it is the middle element (index `k`), and for
`m = 2 k` it is the element at index `k`, the larger of the two middle
elements, not their mean: of the distances 1 and 3 it is 3. -/
theorem C24_median_is_upper_middle (ds : List ℚ) (hm : 1 ≤ ds.length) :
    ∃ med : ℚ, medianOf ds = some med ∧
      (Vec.ofList (ds.insertionSort (fun a b => a ≤ b))).get
        ((Vec.ofList (ds.insertionSort (fun a b => a ≤ b))).size / 2) = some med ∧
      (ds.insertionSort (fun a b => a ≤ b)).Sorted (fun a b => a ≤ b) ∧
      (ds.insertionSort (fun a b => a ≤ b)).Perm ds ∧
      med ∈ ds ∧
      ds.length ≤ 2 * ds.countP (fun d => d ≤ med) ∧
      ds.length ≤ 2 * ds.countP (fun d => med ≤ d) ∧
      (∀ k, ds.length = 2 * k + 1 →
        (ds.insertionSort (fun a b => a ≤ b))[k]? = some med) ∧
      (∀ k, ds.length = 2 * k →
        ∃ lo, (ds.insertionSort (fun a b => a ≤ b))[k - 1]? = some lo ∧
          (ds.insertionSort (fun a b => a ≤ b))[k]? = some med ∧ lo ≤ med) ∧
      medianOf [1, 3] = some 3 ∧ (3 : ℚ) ≠ (1 + 3) / 2 := by
  obtain ⟨med, hk, hmed, hval⟩ := medianOf_eq ds hm
  have hl : (ds.insertionSort (fun a b => a ≤ b)).length = ds.length :=
    List.length_insertionSort _ _
  have hget : (ds.insertionSort (fun a b => a ≤ b))[ds.length / 2]? = some med := hmed
  obtain ⟨c1, c2⟩ := medianOf_counts ds med hmed
  refine ⟨med, hmed, ?_, sorted_distances ds, List.perm_insertionSort _ ds,
    medianOf_mem ds med hmed, c1, c2, ?_, ?_, by decide!, by norm_num⟩
  · unfold Vec.get Vec.ofList
    dsimp only
    rw [hl]
    exact hget
  · intro k hodd
    have e : ds.length / 2 = k := by omega
    rw [← e]
    exact hget
  · intro k heven
    have e : ds.length / 2 = k := by omega
    have hk1 : k - 1 < (ds.insertionSort (fun a b => a ≤ b)).length := by omega
    refine ⟨(ds.insertionSort (fun a b => a ≤ b))[k - 1], List.getElem?_eq_getElem hk1, ?_, ?_⟩
    · rw [← e]; exact hget
    · rw [hval]
      exact (sorted_distances ds).rel_get_of_le
        (show (⟨k - 1, hk1⟩ : Fin _) ≤ ⟨ds.length / 2, hk⟩ from by rw [Fin.mk_le_mk]; omega)

/-- Witness for C24: of the four distances 4, 1, 3, 2 the value taken is 3,
the larger of the middle elements 2 and 3. -/
theorem C24_median_is_upper_middle_witness :
    medianOf [4, 1, 3, 2] = some 3 ∧
    ∃ med : ℚ, medianOf [4, 1, 3, 2] = some med ∧
      (Vec.ofList (([4, 1, 3, 2] : List ℚ).insertionSort (fun a b => a ≤ b))).get
        ((Vec.ofList (([4, 1, 3, 2] : List ℚ).insertionSort (fun a b => a ≤ b))).size / 2)
        = some med ∧
      (([4, 1, 3, 2] : List ℚ).insertionSort (fun a b => a ≤ b)).Sorted (fun a b => a ≤ b) ∧
      (([4, 1, 3, 2] : List ℚ).insertionSort (fun a b => a ≤ b)).Perm [4, 1, 3, 2] ∧
      med ∈ ([4, 1, 3, 2] : List ℚ) ∧
      ([4, 1, 3, 2] : List ℚ).length ≤ 2 * ([4, 1, 3, 2] : List ℚ).countP (fun d => d ≤ med) ∧
      ([4, 1, 3, 2] : List ℚ).length ≤ 2 * ([4, 1, 3, 2] : List ℚ).countP (fun d => med ≤ d) ∧
      (∀ k, ([4, 1, 3, 2] : List ℚ).length = 2 * k + 1 →
        (([4, 1, 3, 2] : List ℚ).insertionSort (fun a b => a ≤ b))[k]? = some med) ∧
      (∀ k, ([4, 1, 3, 2] : List ℚ).length = 2 * k →
        ∃ lo, (([4, 1, 3, 2] : List ℚ).insertionSort (fun a b => a ≤ b))[k - 1]? = some lo ∧
          (([4, 1, 3, 2] : List ℚ).insertionSort (fun a b => a ≤ b))[k]? = some med ∧
          lo ≤ med) ∧
      medianOf [1, 3] = some 3 ∧ (3 : ℚ) ≠ (1 + 3) / 2 :=
  ⟨by decide!, C24_median_is_upper_middle [4, 1, 3, 2] (by decide)⟩

/-! ## Theorems on the two expansion passes -/

/-- C21, as stated, fails: with GCPs on the scanlines 0, 2, ..., 18 of a
source of height 20 and the range `[10, 20)`, both flags set, the two passes
move `y_start` to 7 and then to 5, `updateGCPOverlap` returns `[5, 20)`, and
one more pass moves `y_start` on to 3. -/
theorem C21_counterexample :
    overlapPass gcpsLadder true true (10, 20) = (7, 20) ∧
    overlapPass gcpsLadder true true (overlapPass gcpsLadder true true (10, 20)) = (5, 20) ∧
    (updateGCPOverlap (opOf 20 gcpsLadder) scfgLower true true).y_start = 5 ∧
    (updateGCPOverlap (opOf 20 gcpsLadder) scfgLower true true).y_end = 20 ∧
    overlapPass gcpsLadder true true (5, 20) = (3, 20) ∧
    overlapPass gcpsLadder true true
        (overlapPass gcpsLadder true true (overlapPass gcpsLadder true true (10, 20)))
      ≠ overlapPass gcpsLadder true true (overlapPass gcpsLadder true true (10, 20)) := by
  refine ⟨by decide!, by decide!, by decide!, by decide!, by decide!, by decide!⟩

/-- C21 (amended): for GCPs with integer `y` in `[0, source_height)`, a source
height below `INT_MAX` and a range `0 <= y_start <= y_end <= source_height`:
when the GCPs below `y_start` lie on at most two scanlines (`k1`, `k2`) and
the GCPs above `y_end` on at most two scanlines (`m1`, `m2`), the result of
the two passes is a fixed point of the expansion step, before the clamp and
after it, for every combination of the flags. -/
theorem C21_two_passes_fixed_two_scanlines (op : WarpOperation) (scfg : SegmentConfig)
    (so eo : Bool) (k1 k2 m1 m2 : Int)
    (hint : ∀ g ∈ op.ground_control_points,
      ((⌊g.y⌋ : Int) : ℚ) = g.y ∧ 0 ≤ g.y ∧ g.y < ((op.input_height : Int) : ℚ))
    (hr : 0 ≤ scfg.y_start ∧ scfg.y_start ≤ scfg.y_end ∧ scfg.y_end ≤ (op.input_height : Int))
    (hh : (op.input_height : Int) < INT_MAX)
    (hbelow : ∀ g ∈ op.ground_control_points, g.y < (scfg.y_start : ℚ) →
      g.y = (k1 : ℚ) ∨ g.y = (k2 : ℚ))
    (habove : ∀ g ∈ op.ground_control_points, (scfg.y_end : ℚ) < g.y →
      g.y = (m1 : ℚ) ∨ g.y = (m2 : ℚ)) :
    overlapPass op.ground_control_points so eo
        (overlapPass op.ground_control_points so eo
          (overlapPass op.ground_control_points so eo (scfg.y_start, scfg.y_end)))
      = overlapPass op.ground_control_points so eo
          (overlapPass op.ground_control_points so eo (scfg.y_start, scfg.y_end)) ∧
    overlapPass op.ground_control_points so eo
        ((updateGCPOverlap op scfg so eo).y_start, (updateGCPOverlap op scfg so eo).y_end)
      = ((updateGCPOverlap op scfg so eo).y_start, (updateGCPOverlap op scfg so eo).y_end) := by
  have fix := overlapPass_two_fixed op.ground_control_points so eo scfg.y_start scfg.y_end
    (op.input_height : Int) k1 k2 m1 m2 hint hr hh hbelow habove
  refine ⟨fix, ?_⟩
  cases h1 : overlapPass op.ground_control_points so eo (scfg.y_start, scfg.y_end) with
  | mk a1 b1 =>
    cases h2 : overlapPass op.ground_control_points so eo (a1, b1) with
    | mk a2 b2 =>
      rw [h1, h2] at fix
      obtain ⟨e1, e2⟩ := updateGCPOverlap_eq op scfg so eo a1 b1 a2 b2 h1 h2
      rw [e1, e2]
      exact overlapPass_clamped_fixed op.ground_control_points so eo a2 b2
        (op.input_height : Int) hint fix

/-- Witness for C21 (amended): in `gcpsShortTrack` the scanlines 0 and 1 lie
below the range `[2, 6)` and the scanlines 7 and 8 above it. -/
theorem C21_two_passes_fixed_two_scanlines_witness :
    overlapPass (opOf 10 gcpsShortTrack).ground_control_points true true
        (overlapPass (opOf 10 gcpsShortTrack).ground_control_points true true
          (overlapPass (opOf 10 gcpsShortTrack).ground_control_points true true
            (scfgInner.y_start, scfgInner.y_end)))
      = overlapPass (opOf 10 gcpsShortTrack).ground_control_points true true
          (overlapPass (opOf 10 gcpsShortTrack).ground_control_points true true
            (scfgInner.y_start, scfgInner.y_end)) ∧
    overlapPass (opOf 10 gcpsShortTrack).ground_control_points true true
        ((updateGCPOverlap (opOf 10 gcpsShortTrack) scfgInner true true).y_start,
          (updateGCPOverlap (opOf 10 gcpsShortTrack) scfgInner true true).y_end)
      = ((updateGCPOverlap (opOf 10 gcpsShortTrack) scfgInner true true).y_start,
          (updateGCPOverlap (opOf 10 gcpsShortTrack) scfgInner true true).y_end) :=
  C21_two_passes_fixed_two_scanlines (opOf 10 gcpsShortTrack) scfgInner true true 0 1 7 8
    (by decide!) (by decide) (by decide) (by decide!) (by decide!)

/-! ## Theorems on the alpha channel of the mosaic -/

/-- C27: let `R0` be the raster of zeros with four channels that line 257
builds, and let any list of segment rasters be folded into it at any offsets.
Whenever the fold returns a raster, every pixel of it has alpha 0 or 65535,
and a pixel with alpha 0 has 0 in the channels 0, 1 and 2.  The fold does
return a raster when every segment raster holds four full channel planes.
One fold leaves a pixel unchanged in every channel or leaves its alpha at
65535: no colour is written without the mark, and no alpha is lowered. -/
theorem C27_alpha_marks_written_pixels (w h : Int) (R0 : Image)
    (segs : List (Image × Int × Int)) (h0 : newImage w h 4 = some R0) :
    (∀ r, compositeAll R0 segs = some r →
      ∀ i, i < r.width * r.height →
        (r.get 3 i = some 0 ∨ r.get 3 i = some 65535) ∧
        (r.get 3 i = some 0 → ∀ ch, ch < 3 → r.get ch i = some 0)) ∧
    ((∀ s ∈ segs, 4 * (s.1.width * s.1.height) ≤ s.1.data.length) →
      ∃ r, compositeAll R0 segs = some r) ∧
    (∀ (t t2 t' : Image) (x2 y2 : Int), compositeSegment t t2 x2 y2 = some t' →
      ∀ i, i < t.width * t.height →
        (∀ ch, t'.get ch i = t.get ch i) ∨ t'.get 3 i = some 65535) :=
  ⟨fun r hr => compositeAll_marks segs R0 r (newImage_marks w h R0 h0) hr,
   fun hS => compositeAll_total segs R0 (newImage_zero w h R0 h0).1 hS,
   fun t t2 t' x2 y2 ht i hi => compositeSegment_pixel_dichotomy t t2 x2 y2 t' ht i hi⟩

/-- Witness for C27: two opaque 2 x 1 rasters folded at offsets 0 and 1 into
the 3 x 1 raster of zeros. -/
theorem C27_alpha_marks_written_pixels_witness :
    compositeAll imgStrip [(segOnes, 0, 0), (segTwos, 1, 0)] = some imgOnesThenTwos ∧
    (∀ r, compositeAll imgStrip [(segOnes, 0, 0), (segTwos, 1, 0)] = some r →
      ∀ i, i < r.width * r.height →
        (r.get 3 i = some 0 ∨ r.get 3 i = some 65535) ∧
        (r.get 3 i = some 0 → ∀ ch, ch < 3 → r.get ch i = some 0)) ∧
    ((∀ s ∈ [(segOnes, (0 : Int), (0 : Int)), (segTwos, 1, 0)],
        4 * (s.1.width * s.1.height) ≤ s.1.data.length) →
      ∃ r, compositeAll imgStrip [(segOnes, 0, 0), (segTwos, 1, 0)] = some r) ∧
    (∀ (t t2 t' : Image) (x2 y2 : Int), compositeSegment t t2 x2 y2 = some t' →
      ∀ i, i < t.width * t.height →
        (∀ ch, t'.get ch i = t.get ch i) ∨ t'.get 3 i = some 65535) :=
  ⟨by decide,
   C27_alpha_marks_written_pixels 3 1 imgStrip [(segOnes, 0, 0), (segTwos, 1, 0)] (by decide)⟩

/-! ## Theorems on the JSON form of `ImageCompositeCfg` -/

/-- C28 fails on the code: `to_json` always writes the key `equation`, and
`from_json` reads `lut` and `lut_channels` only when that key is absent, so
reading back what `to_json` wrote gives the written configuration with `lut`
and `lut_channels` replaced by those of the configuration passed in (empty
for a default-constructed one).  A configuration with `lut = "lut.png"` and
`lut_channels = "ch1"` comes back as the default configuration; the other
five fields do come back, as for `cfgEquation`. -/
theorem C28_round_trip_drops_lut :
    (∀ (j : Json) (v d : ImageCompositeCfg),
      from_json (to_json j v) d
        = some { v with lut := d.lut, lut_channels := d.lut_channels }) ∧
    (to_json Json.null cfgLut).contains "equation" = true ∧
    (to_json Json.null cfgLut).get "lut" = some (JsonValue.string "lut.png") ∧
    from_json (to_json Json.null cfgLut) ImageCompositeCfg.defaults
      = some ImageCompositeCfg.defaults ∧
    from_json (to_json Json.null cfgLut) ImageCompositeCfg.defaults ≠ some cfgLut ∧
    from_json (to_json Json.null cfgEquation) ImageCompositeCfg.defaults = some cfgEquation :=
  ⟨from_json_to_json, by decide, by decide, by decide, by decide, by decide⟩

end SatDump
